import Mathlib

/-!
# The XML-RPC encoder of gorilla-xmlrpc

A shallow embedding of `xml/rpc2xml.go` and `xml/xmltag.go`.

Conventions of the embedding:

* a Go `string` is a Lean `String` (a sequence of Unicode characters); every
  pattern the encoder searches for is a single ASCII character, so replacing
  and splitting by character agrees with Go's byte-wise functions on UTF-8 text;
* a Go `int` is an `Int` (the encoder only prints it and compares it with 0);
* a `float64` is given by sign, mantissa and binary exponent, or is an
  infinity or a NaN (a number has several such writings; the float parse
  returns the one of the binary format, see `nearestFloat64`);
* a `time.Time` is given by its calendar fields, its nanoseconds, its location
  and the presence of a monotonic clock reading;
* a nil slice and an allocated slice of length 0, which the encoder does not
  tell apart, are one value of the model, the empty list; what is stated
  about decoding is stated for sequences that are not empty;
* a value of static type `interface{}` is a `GoValue`: one constructor per arm
  of the type switch of `rpc2XML`, plus `other` for every kind no arm matches;
* records carry exported fields only and scalar values are of the predeclared
  types `int`, `float64`, `string`, `bool` (on other inputs the reflection
  accessors `Interface()` and the type assertions of `rpc2XML` stop the
  program; such inputs are not values of the model);
* a function that can stop with a run-time panic returns an `Option`;
* the decoder, whose sources are not among the files at hand, is modelled
  from the specification in a section of its own.
-/

namespace XmlRpc

/-! ## Library functions used by the encoder -/

/-- Scanning loop of `strings.Replace(s, old, new, -1)` for a non-empty `old`:
the first argument counts the characters of a matched occurrence that are
still to be skipped. -/
def replaceFrom (old new : List Char) : Nat → List Char → List Char
  | _, [] => []
  | skip + 1, _ :: cs => replaceFrom old new skip cs
  | 0, c :: cs =>
      if old.isPrefixOf (c :: cs) then new ++ replaceFrom old new (old.length - 1) cs
      else c :: replaceFrom old new 0 cs

/-- Go's `strings.Replace(s, old, new, -1)`: every non-overlapping occurrence of
`old`, found from left to right, is replaced by `new`; an empty `old` matches
before every character and at the end. -/
def stringsReplace (s old new : String) : String :=
  if old.data = [] then ⟨new.data ++ s.data.flatMap (fun c => c :: new.data)⟩
  else ⟨replaceFrom old.data new.data 0 s.data⟩

/-- Pieces of a character sequence between the occurrences of `sep`. -/
def splitChars (sep : Char) : List Char → List (List Char)
  | [] => [[]]
  | c :: cs =>
      if c = sep then [] :: splitChars sep cs
      else
        match splitChars sep cs with
        | [] => [[c]]
        | t :: ts => (c :: t) :: ts

/-- Go's `strings.Split(s, sep)` for a one-character separator. -/
def stringsSplit (s : String) (sep : Char) : List String :=
  (splitChars sep s.data).map String.mk

/-- The verb `%d` of `fmt.Sprintf` on an integer. -/
def fmtD (n : Int) : String :=
  if n < 0 then "-" ++ Nat.repr n.natAbs else Nat.repr n.natAbs

/-- Left padding with zeros up to a minimal width. -/
def zeroPad (width : Nat) (digits : String) : String :=
  ⟨List.replicate (width - digits.length) '0'⟩ ++ digits

/-- The verb `%0wd` of `fmt.Sprintf` on an integer: zeros are inserted after
the sign so that the whole text has at least `w` characters. -/
def fmt0D (w : Nat) (n : Int) : String :=
  if n < 0 then "-" ++ zeroPad (w - 1) (Nat.repr n.natAbs) else zeroPad w (Nat.repr n.natAbs)

/-- A `float64`: `finite neg m e` is `(-1)^neg * m * 2^e`. -/
inductive Float64
  | finite (neg : Bool) (m : Nat) (e : Int)
  | inf (neg : Bool)
  | nan
  deriving DecidableEq, Repr

/-- The comparison `value == 0` on a `float64` (true for both zeros). -/
def Float64.isZero : Float64 → Bool
  | .finite _ m _ => m == 0
  | _ => false

/-- Nearest integer to `num / den`, ties to even. -/
def roundHalfEven (num den : Nat) : Nat :=
  let q := num / den
  let r := num % den
  if 2 * r > den ∨ (2 * r = den ∧ q % 2 = 1) then q + 1 else q

/-- The verb `%f` of `fmt.Sprintf` on a `float64`: six fractional digits,
correctly rounded from the exact binary value. -/
def fmtF : Float64 → String
  | .nan => "NaN"
  | .inf neg => if neg then "-Inf" else "+Inf"
  | .finite neg m e =>
      let q := if 0 ≤ e then m * 2 ^ e.toNat * 1000000
               else roundHalfEven (m * 1000000) (2 ^ (-e).toNat)
      (if neg then "-" else "") ++ Nat.repr (q / 1000000) ++ "." ++
        zeroPad 6 (Nat.repr (q % 1000000))

/-- Alphabet of `base64.StdEncoding`. -/
def base64Alphabet : List Char :=
  "ABCDEFGHIJKLMNOPQRSTUVWXYZabcdefghijklmnopqrstuvwxyz0123456789+/".data

/-- Character of a six-bit group. -/
def base64Char (i : Nat) : Char := base64Alphabet.getD i 'A'

/-- Groups of three bytes to groups of four characters, padded with `=`. -/
def base64Chars : List Nat → List Char
  | [] => []
  | [a] => [base64Char (a % 256 / 4), base64Char (a % 4 * 16), '=', '=']
  | [a, b] =>
      [base64Char (a % 256 / 4), base64Char (a % 4 * 16 + b % 256 / 16),
        base64Char (b % 16 * 4), '=']
  | a :: b :: c :: rest =>
      base64Char (a % 256 / 4) :: base64Char (a % 4 * 16 + b % 256 / 16) ::
        base64Char (b % 16 * 4 + c % 256 / 64) :: base64Char (c % 64) :: base64Chars rest

/-- Go's `base64.StdEncoding.EncodeToString` on a sequence of bytes. -/
def base64EncodeToString (data : List Nat) : String := ⟨base64Chars data⟩

/-! ## Data model -/

/-- The `*time.Location` of a `time.Time`: `time.Local`, `time.UTC`, or any
other one, by its name. -/
inductive Location
  | Local
  | UTC
  | named (name : String)
  deriving DecidableEq, Repr

/-- A `time.Time`: what `Year()`, `Month()`, `Day()`, `Hour()`, `Minute()`,
`Second()`, `Nanosecond()` and `Location()` return for it, and whether it
carries a monotonic clock reading (as the values of `time.Now()` do, and those
of `time.Date` do not). The encoder reads the first six only. -/
structure Time where
  Year : Int
  Month : Nat
  Day : Nat
  Hour : Nat
  Minute : Nat
  Second : Nat
  Nanosecond : Nat
  Location : XmlRpc.Location
  Monotonic : Bool
  deriving DecidableEq, Repr

/-- The part of a `reflect.StructField` the encoder reads: the declared name
and the value of `Tag.Get("xml")` (empty when the field has no `xml` tag). -/
structure StructField where
  Name : String
  Tag : String
  deriving DecidableEq, Repr

/-- Kinds of `reflect.Kind` that no arm of the type switch of `rpc2XML`
matches; `Invalid` is the kind of a nil interface value. -/
inductive OtherKind
  | Invalid | Int8 | Int16 | Int32 | Int64
  | Uint | Uint8 | Uint16 | Uint32 | Uint64 | Uintptr
  | Float32 | Complex64 | Complex128
  | Chan | Func | Map | UnsafePointer
  deriving DecidableEq, Repr

/-- A Go value as the encoder sees it through reflection. -/
inductive GoValue
  /-- Kind `reflect.Int`. -/
  | int (n : Int)
  /-- Kind `reflect.Float64`. -/
  | float64 (f : Float64)
  /-- Kind `reflect.String`. -/
  | string (s : String)
  /-- Kind `reflect.Bool`. -/
  | bool (b : Bool)
  /-- Kind `reflect.Struct`, a type other than `time.Time`: the fields in
  declared order. -/
  | struct (fields : List (StructField × GoValue))
  /-- Kind `reflect.Struct`, type `time.Time`. -/
  | time (t : Time)
  /-- Kind `reflect.Slice` or `reflect.Array`, a type other than `[]uint8`:
  the elements (none for a nil slice, whose `Len()` is 0). -/
  | slice (items : List GoValue)
  /-- Kind `reflect.Slice`, type `[]uint8`: the bytes (none for a nil slice). -/
  | bytes (data : List Nat)
  /-- Kind `reflect.Ptr`: `none` is the nil pointer. -/
  | ptr (p : Option GoValue)
  /-- Any other kind. -/
  | other (k : OtherKind)

/-- Go's `error`, by its message. -/
abbrev GoError := String

/-! ## `xml/xmltag.go` -/

/-- The type `XMLTag`. -/
structure XMLTag where
  Name : String
  OmitEmpty : Bool
  deriving DecidableEq, Repr

/-- The loop `for _, flag := range tokens[1:]` of `parseXMLTag`, which sets
`OmitEmpty` at the first flag equal to `omitempty` and stops. -/
def parseXMLTagFlags : List String → XMLTag → XMLTag
  | [], xml_tag => xml_tag
  | flag :: rest, xml_tag =>
      if flag = "omitempty" then { xml_tag with OmitEmpty := true }
      else parseXMLTagFlags rest xml_tag

/-- The function `parseXMLTag`; `none` stands for an index out of range at
`tokens[0]` or `tokens[1:]`. -/
def parseXMLTag (field : StructField) : Option XMLTag :=
  let xml_tag : XMLTag := { Name := "", OmitEmpty := false }
  if field.Tag ≠ "" then
    match stringsSplit field.Tag ',' with
    | [] => none
    | tokens0 :: flags => some (parseXMLTagFlags flags { xml_tag with Name := tokens0 })
  else some xml_tag

/-! ## `xml/rpc2xml.go` -/

/-- The function `int2XML`. -/
def int2XML (value : Int) (omitEmpty : Bool) : String :=
  if omitEmpty && value == 0 then "" else "<int>" ++ fmtD value ++ "</int>"

/-- The function `double2XML`. -/
def double2XML (value : Float64) (omitEmpty : Bool) : String :=
  if omitEmpty && value.isZero then "" else "<double>" ++ fmtF value ++ "</double>"

/-- The function `bool2XML`. -/
def bool2XML (value : Bool) (omitEmpty : Bool) : String :=
  if omitEmpty && !value then ""
  else
    let b := if value then "1" else "0"
    "<boolean>" ++ b ++ "</boolean>"

/-- The function `string2XML`. -/
def string2XML (value : String) (omitEmpty : Bool) : String :=
  if omitEmpty && value == "" then ""
  else
    let value := stringsReplace value "&" "&amp;"
    let value := stringsReplace value "\"" "&quot;"
    let value := stringsReplace value "<" "&lt;"
    let value := stringsReplace value ">" "&gt;"
    "<string>" ++ value ++ "</string>"

/-- The function `time2XML`. -/
def time2XML (t : Time) : String :=
  "<dateTime.iso8601>" ++ fmt0D 4 t.Year ++ fmt0D 2 t.Month ++ fmt0D 2 t.Day ++ "T" ++
    fmt0D 2 t.Hour ++ ":" ++ fmt0D 2 t.Minute ++ ":" ++ fmt0D 2 t.Second ++
    "</dateTime.iso8601>"

/-- The function `base642XML`. -/
def base642XML (data : List Nat) : String :=
  let str := base64EncodeToString data
  "<base64>" ++ str ++ "</base64>"

/-- The last statements of `rpc2XML`: a non-empty `out` is wrapped in
`<value>`, and the error is nil on both paths. -/
def rpc2XMLResult (out : String) : String × Option GoError :=
  if out ≠ "" then ("<value>" ++ out ++ "</value>", none) else ("", none)

/-- The end of `struct2XML`, after its loop. -/
def struct2XMLResult (out : String) : String :=
  if out = "" then "" else "<struct>" ++ out ++ "</struct>"

mutual
/-- The function `rpc2XML`. The arms for records and sequences contain the
bodies of `struct2XML` and `array2XML`, whose loops are `struct2XMLFrom` and
`array2XMLFrom`. -/
def rpc2XML : GoValue → Bool → Option (String × Option GoError)
  | .int n, omitEmpty => some (rpc2XMLResult (int2XML n omitEmpty))
  | .float64 f, omitEmpty => some (rpc2XMLResult (double2XML f omitEmpty))
  | .string s, omitEmpty => some (rpc2XMLResult (string2XML s omitEmpty))
  | .bool b, omitEmpty => some (rpc2XMLResult (bool2XML b omitEmpty))
  | .struct fields, _ => (struct2XMLFrom fields "").map rpc2XMLResult
  | .time t, _ => some (rpc2XMLResult (time2XML t))
  | .slice items, omitEmpty =>
      if omitEmpty && items.length == 0 then some (rpc2XMLResult "")
      else (array2XMLFrom items "<array><data>").map rpc2XMLResult
  | .bytes data, _ => some (rpc2XMLResult (base642XML data))
  | .ptr none, omitEmpty => some (rpc2XMLResult (if !omitEmpty then "<nil/>" else ""))
  | .ptr (some v), _ => rpc2XML v false
  | .other _, _ => some (rpc2XMLResult "")
/-- The loop of `struct2XML` from a given field on, with the current `out`,
followed by the end of the function. -/
def struct2XMLFrom : List (StructField × GoValue) → String → Option String
  | [], out => some (struct2XMLResult out)
  | (field_type, field) :: rest, out =>
      match parseXMLTag field_type with
      | none => none
      | some field_tag =>
          match rpc2XML field field_tag.OmitEmpty with
          | none => none
          | some (field_value, _) =>
              if field_value = "" then struct2XMLFrom rest out
              else
                let name := if field_tag.Name ≠ "" then field_tag.Name else field_type.Name
                let field_name := "<name>" ++ name ++ "</name>"
                struct2XMLFrom rest (out ++ ("<member>" ++ field_name ++ field_value ++ "</member>"))
/-- The loop of `array2XML` from a given element on, with the current `out`,
followed by the end of the function. -/
def array2XMLFrom : List GoValue → String → Option String
  | [], out => some (out ++ "</data></array>")
  | item :: rest, out =>
      match rpc2XML item false with
      | none => none
      | some (item_xml, _) => array2XMLFrom rest (out ++ item_xml)
end

/-- The function `struct2XML` on the fields of a record. -/
def struct2XML (fields : List (StructField × GoValue)) (_omitEmpty : Bool) : Option String :=
  struct2XMLFrom fields ""

/-- The function `array2XML` on the elements of a sequence. -/
def array2XML (items : List GoValue) (omitEmpty : Bool) : Option String :=
  if omitEmpty && items.length == 0 then some ""
  else array2XMLFrom items "<array><data>"

/-- The loop of `rpcParams2XML` from a given field on: the state is `buffer`
and `err`. -/
def rpcParams2XMLFrom :
    List (StructField × GoValue) → String × Option GoError → Option (String × Option GoError)
  | [], st => some st
  | (_, field) :: rest, (buffer, _) =>
      match rpc2XML field false with
      | none => none
      | some (xml, err) => rpcParams2XMLFrom rest (buffer ++ "<param>" ++ xml ++ "</param>", err)

/-- The function `rpcParams2XML`: `reflect.ValueOf(rpc).Elem().NumField()` needs
`rpc` to be a non-nil pointer to a record. -/
def rpcParams2XML (rpc : GoValue) : Option (String × Option GoError) :=
  match rpc with
  | .ptr (some (.struct fields)) =>
      (rpcParams2XMLFrom fields ("<params>", none)).map
        fun (buffer, err) => (buffer ++ "</params>", err)
  | _ => none

/-- The function `rpcRequest2XML`. -/
def rpcRequest2XML (method : String) (rpc : GoValue) : Option (String × Option GoError) :=
  (rpcParams2XML rpc).map fun (params, err) =>
    ("<methodCall><methodName>" ++ method ++ "</methodName>" ++ params ++ "</methodCall>", err)

/-- The function `rpcResponse2XML`. -/
def rpcResponse2XML (rpc : GoValue) : Option (String × Option GoError) :=
  (rpcParams2XML rpc).map fun (params, err) =>
    ("<methodResponse>" ++ params ++ "</methodResponse>", err)

/-! ## Records of the test suite -/

/-- A field without a tag. -/
def untagged (name : String) (v : GoValue) : StructField × GoValue := (⟨name, ""⟩, v)

/-- The fields of the record `StructRpc2Xml` built by `TestRPC2XML`. -/
def testRPC2XMLFields : List (StructField × GoValue) :=
  [ untagged "Int" (.int 123),
    untagged "Float" (.float64 (.finite false 7083995580667577 (-51))),
    untagged "Str" (.string "Hello, World!"),
    untagged "Bool" (.bool false),
    untagged "Sub" (.struct [
      untagged "Foo" (.int 42),
      untagged "Bar" (.string "I'm Bar"),
      untagged "Data" (.slice [.int 1, .int 2, .int 3])]),
    untagged "Time" (.time ⟨2012, 7, 17, 14, 8, 55, 0, .Local, false⟩),
    untagged "Base64" (.bytes [121, 111, 117, 32, 99, 97, 110, 39, 116, 32, 114, 101, 97, 100,
      32, 116, 104, 105, 115, 33])]

/-- The request of `TestRPC2XML`. -/
def testRPC2XMLReq : GoValue := .ptr (some (.struct testRPC2XMLFields))

/-- The text expected by `TestRPC2XML`. -/
def testRPC2XMLExpected : String :=
  "<methodCall><methodName>Some.Method</methodName><params><param><value><int>123</int></value></param><param><value><double>3.145926</double></value></param><param><value><string>Hello, World!</string></value></param><param><value><boolean>0</boolean></value></param><param><value><struct><member><name>Foo</name><value><int>42</int></value></member><member><name>Bar</name><value><string>I'm Bar</string></value></member><member><name>Data</name><value><array><data><value><int>1</int></value><value><int>2</int></value><value><int>3</int></value></data></array></value></member></struct></value></param><param><value><dateTime.iso8601>20120717T14:08:55</dateTime.iso8601></value></param><param><value><base64>eW91IGNhbid0IHJlYWQgdGhpcyE=</base64></value></param></params></methodCall>"

/-- The fields of a `TaggedStructRpc2XmlParams` with the given values. -/
def taggedParams (foo bar str dbl rstr bl arr st i p : GoValue) :
    List (StructField × GoValue) :=
  [
    (⟨"Foo", ""⟩, foo),
    (⟨"Bar", "renameBar"⟩, bar),
    (⟨"Str", ",omitempty"⟩, str),
    (⟨"RenameOmitDouble", "doublename,omitempty"⟩, dbl),
    (⟨"RenameOmitStr", "strname,omitempty"⟩, rstr),
    (⟨"RenameOmitBool", "boolname,omitempty"⟩, bl),
    (⟨"RenameomitArray", "arrayname,omitempty"⟩, arr),
    (⟨"RenameOmitStruct", "structname,omitempty"⟩, st),
    (⟨"RenameOmitInt", "intname,omitempty"⟩, i),
    (⟨"RenameOmitPtr", "ptrname,omitempty"⟩, p)]

/-- The fields of `Params` in the first case of `TestRPC2XMLTags`. -/
def testTagsParams1 : List (StructField × GoValue) :=
  taggedParams (.string "FOO") (.int 123) (.string "") (.float64 (.finite false 0 0))
    (.string "RENAMED") (.bool false) (.slice []) (.struct []) (.int 0) (.ptr none)

/-- The fields of `Params` in the second case of `TestRPC2XMLTags`; `make([]interface{}, 1)`
holds one nil interface value. -/
def testTagsParams2 : List (StructField × GoValue) :=
  taggedParams (.string "FOO") (.int 123) (.string "STRING") (.float64 (.finite false 1 0))
    (.string "RENAMED") (.bool true) (.slice [.other .Invalid]) (.struct []) (.int 1)
    (.ptr (some (.int 42)))

/-- An input of `TestRPC2XMLTags`: a pointer to a `TaggedStructRpc2Xml`. -/
def testTagsInput (params : List (StructField × GoValue)) : GoValue :=
  .ptr (some (.struct [untagged "Params" (.struct params)]))

/-- The `<struct>` expected by the first case of `TestRPC2XMLTags`. -/
def testTagsStruct1 : String :=
  "<struct>" ++
    "<member><name>Foo</name><value><string>FOO</string></value></member>" ++
    "<member><name>renameBar</name><value><int>123</int></value></member>" ++
    "<member><name>strname</name><value><string>RENAMED</string></value></member>" ++
    "</struct>"

/-- The `<struct>` expected by the second case of `TestRPC2XMLTags`. -/
def testTagsStruct2 : String :=
  "<struct>" ++
    "<member><name>Foo</name><value><string>FOO</string></value></member>" ++
    "<member><name>renameBar</name><value><int>123</int></value></member>" ++
    "<member><name>Str</name><value><string>STRING</string></value></member>" ++
    "<member><name>doublename</name><value><double>1.000000</double></value></member>" ++
    "<member><name>strname</name><value><string>RENAMED</string></value></member>" ++
    "<member><name>boolname</name><value><boolean>1</boolean></value></member>" ++
    "<member><name>arrayname</name><value><array><data></data></array></value></member>" ++
    "<member><name>intname</name><value><int>1</int></value></member>" ++
    "<member><name>ptrname</name><value><int>42</int></value></member>" ++
    "</struct>"

/-- The output expected by `TestRPC2XMLTags` around the `<struct>`. -/
def testTagsOutput (st : String) : String :=
  "<methodResponse><params><param><value>" ++ st ++ "</value></param></params></methodResponse>"

/-! ## Definitions used to state the properties -/

/-- Text component of a result; empty when the call did not return. -/
def textOf (r : Option (String × Option GoError)) : String :=
  match r with
  | some (s, _) => s
  | none => ""

/-- Concatenation of a list of texts, in order. -/
def concatText : List String → String
  | [] => ""
  | s :: rest => s ++ concatText rest

/-- The `<param>` element of one top-level field: its encoding with
`omitEmpty = false` between `<param>` and `</param>`. -/
def specParam (f : StructField × GoValue) : String :=
  "<param>" ++ textOf (rpc2XML f.2 false) ++ "</param>"

/-- The escaping map of the specification on one character. -/
def specEscapeChar (c : Char) : List Char :=
  if c = '&' then "&amp;".data
  else if c = '"' then "&quot;".data
  else if c = '<' then "&lt;".data
  else if c = '>' then "&gt;".data
  else [c]

/-- The single-pass escaping `E` of the specification. -/
def specEscape (s : String) : String := ⟨s.data.flatMap specEscapeChar⟩

/-- The resolved tag of a field; the unset tag when `parseXMLTag` does not
return. -/
def tagOf (field : StructField) : XMLTag :=
  match parseXMLTag field with
  | some tag => tag
  | none => { Name := "", OmitEmpty := false }

/-- The member text of the specification for one field: nothing when the
value text `V` is empty, else `<member><name>N</name>V</member>` with `N` the
tag's name when it is non-empty and the declared name otherwise. -/
def specMember (f : StructField × GoValue) : String :=
  let V := textOf (rpc2XML f.2 (tagOf f.1).OmitEmpty)
  let N := if (tagOf f.1).Name ≠ "" then (tagOf f.1).Name else f.1.Name
  if V = "" then "" else "<member><name>" ++ N ++ "</name>" ++ V ++ "</member>"

/-- The zero values named by the omission law: integer 0, a zero double,
empty string, false, empty sequence, record without fields, nil pointer. -/
def isZeroValue : GoValue → Bool
  | .int n => n == 0
  | .float64 f => f.isZero
  | .string s => s == ""
  | .bool b => !b
  | .slice items => items.isEmpty
  | .struct fields => fields.isEmpty
  | .ptr none => true
  | _ => false

/-- Comma-separated text of a list of tokens. -/
def commaJoin : List String → String
  | [] => ""
  | [t] => t
  | t :: rest => t ++ "," ++ commaJoin rest

/-- The decimal digit character of `d`. -/
def digit (d : Nat) : Char := Char.ofNat (48 + d % 10)

/-- The text `YYYYMMDDThh:mm:ss` of the specification: fixed-width fields of
decimal digits. -/
def specTimestamp (t : Time) : String :=
  ⟨[digit (t.Year.toNat / 1000), digit (t.Year.toNat / 100), digit (t.Year.toNat / 10),
    digit t.Year.toNat,
    digit (t.Month / 10), digit t.Month, digit (t.Day / 10), digit t.Day, 'T',
    digit (t.Hour / 10), digit t.Hour, ':', digit (t.Minute / 10), digit t.Minute, ':',
    digit (t.Second / 10), digit t.Second]⟩

mutual
/-- The values the specification says encode to nothing under the flag
`omitEmpty`: a zero scalar, empty sequence or nil pointer when the flag is set;
a record none of whose fields survives; the referent of a non-nil pointer,
taken without the flag; a value of an unsupported kind. -/
def specEmpty : Bool → GoValue → Bool
  | omitEmpty, .int n => omitEmpty && n == 0
  | omitEmpty, .float64 f => omitEmpty && f.isZero
  | omitEmpty, .string s => omitEmpty && s == ""
  | omitEmpty, .bool b => omitEmpty && !b
  | _, .struct fields => specNoSurvivor fields
  | _, .time _ => false
  | omitEmpty, .slice items => omitEmpty && items.isEmpty
  | _, .bytes _ => false
  | omitEmpty, .ptr none => omitEmpty
  | _, .ptr (some v) => specEmpty false v
  | _, .other _ => true
/-- No field of the list survives: each value encodes to nothing under the
flag of its own tag. -/
def specNoSurvivor : List (StructField × GoValue) → Bool
  | [] => true
  | (f, v) :: rest => specEmpty (tagOf f).OmitEmpty v && specNoSurvivor rest
end

/-- The number written by a list of decimal digits, most significant first. -/
def decimalValue (ds : List Nat) : Nat := ds.foldl (fun a d => 10 * a + d) 0

/-- A `<value>` item around a non-empty inner text. -/
def specValueItem (inner : String) : String := "<value>" ++ inner ++ "</value>"

/-! ## The decoder, from the specification

The sources of the decoder are not part of the repository files at hand;
only its tests are. The definitions of this section follow sections 4.3, 4.4
and 6 of the specification. -/

/-- Modelled from the spec: the `xmlNode` the decoder of section 4.3 works on,
for which the repository files hold no source: character data or an element
with its children. -/
inductive XmlNode
  | text (s : String)
  | elem (name : String) (children : List XmlNode)

/-- Modelled from the spec: the entity unescape of character data (`&amp;`,
`&quot;`, `&lt;`, `&gt;` back to `&`, `"`, `<`, `>`), for which the
repository files hold no source, as a scanning loop from left to right: the
first argument counts the characters of an entity still to be skipped. -/
def unescapeFrom : Nat → List Char → List Char
  | _, [] => []
  | skip + 1, _ :: cs => unescapeFrom skip cs
  | 0, c :: cs =>
      if "&amp;".data.isPrefixOf (c :: cs) then '&' :: unescapeFrom 4 cs
      else if "&quot;".data.isPrefixOf (c :: cs) then '"' :: unescapeFrom 5 cs
      else if "&lt;".data.isPrefixOf (c :: cs) then '<' :: unescapeFrom 3 cs
      else if "&gt;".data.isPrefixOf (c :: cs) then '>' :: unescapeFrom 3 cs
      else c :: unescapeFrom 0 cs

/-- The text without a leading literal, when it starts with it. -/
def dropLiteral : List Char → List Char → Option (List Char)
  | [], s => some s
  | _ :: _, [] => none
  | p :: ps, c :: cs => if p = c then dropLiteral ps cs else none

/-- Modelled from the spec: the XML parse of the wire text, for which the
repository files hold no source, on the markup of the wire format of section
6: elements without attributes, the self-closing form and character data with
its entities. It reads the sibling nodes at the head of the text, up to a
closing tag or the end, and returns them with the rest. The first argument
bounds the number of nested calls. -/
def parseNodes : Nat → List Char → Option (List XmlNode × List Char)
  | 0, _ => none
  | _ + 1, [] => some ([], [])
  | fuel + 1, c :: r =>
      if c = '<' then
        if r.head? = some '/' then some ([], c :: r)
        else
          let name := r.takeWhile (fun x => x != '>' && x != '/')
          match r.dropWhile (fun x => x != '>' && x != '/') with
          | [] => none
          | d :: r1 =>
              if d = '/' then
                match dropLiteral ['>'] r1 with
                | none => none
                | some r2 =>
                    match parseNodes fuel r2 with
                    | none => none
                    | some (sibs, rest) => some (XmlNode.elem ⟨name⟩ [] :: sibs, rest)
              else
                match parseNodes fuel r1 with
                | none => none
                | some (kids, r3) =>
                    match dropLiteral ('<' :: '/' :: name ++ ['>']) r3 with
                    | none => none
                    | some r4 =>
                        match parseNodes fuel r4 with
                        | none => none
                        | some (sibs, rest) => some (XmlNode.elem ⟨name⟩ kids :: sibs, rest)
      else
        let txt := (c :: r).takeWhile (fun x => x != '<')
        match parseNodes fuel ((c :: r).dropWhile (fun x => x != '<')) with
        | none => none
        | some (sibs, rest) => some (XmlNode.text ⟨unescapeFrom 0 txt⟩ :: sibs, rest)

/-- The character data of an element: empty without children, the text of an
only text child. -/
def nodeText : List XmlNode → Option String
  | [] => some ""
  | [.text s] => some s
  | _ => none

/-- The value of a decimal digit character. -/
def digitValue (c : Char) : Option Nat :=
  if '0' ≤ c ∧ c ≤ '9' then some (c.toNat - 48) else none

/-- The number written by a non-empty text of decimal digits. -/
def parseDigits : List Char → Nat → Option Nat
  | [], acc => some acc
  | c :: cs, acc =>
      match digitValue c with
      | none => none
      | some d => parseDigits cs (10 * acc + d)

/-- Modelled from the spec: the integer parse of `<int>` and `<i4>`, for which
the repository files hold no source: an optional sign and decimal digits. -/
def parseInt (s : List Char) : Option Int :=
  match s with
  | [] => none
  | c :: cs =>
      if c = '-' then
        if cs = [] then none else (parseDigits cs 0).map fun n => -Int.ofNat n
      else if c = '+' then
        if cs = [] then none else (parseDigits cs 0).map Int.ofNat
      else (parseDigits (c :: cs) 0).map Int.ofNat

/-- Modelled from the spec: the fixed-format timestamp parse of
`<dateTime.iso8601>`, for which the repository files hold no source, on the
text `YYYYMMDDThh:mm:ss`. The text holds no fraction of a second and no zone:
the result has no nanoseconds and is in `time.Local` ("naive local time" in
section 9; `TestXML2RPC` expects `time.Date(2012, time.July, 17, 14, 8, 55, 0,
time.Local)`). -/
def parseTime (s : List Char) : Option Time :=
  match s with
  | [y1, y2, y3, y4, m1, m2, d1, d2, t, h1, h2, c1, n1, n2, c2, s1, s2] =>
      if t = 'T' ∧ c1 = ':' ∧ c2 = ':' then
        match parseDigits [y1, y2, y3, y4] 0, parseDigits [m1, m2] 0, parseDigits [d1, d2] 0,
          parseDigits [h1, h2] 0, parseDigits [n1, n2] 0, parseDigits [s1, s2] 0 with
        | some y, some mo, some d, some h, some mi, some sec =>
            if 1 ≤ mo ∧ mo ≤ 12 ∧ 1 ≤ d ∧ d ≤ 31 ∧ h ≤ 23 ∧ mi ≤ 59 ∧ sec ≤ 59 then
              some ⟨Int.ofNat y, mo, d, h, mi, sec, 0, .Local, false⟩
            else none
        | _, _, _, _, _, _ => none
      else none
  | _ => none

/-- The six-bit group of a character of the base64 alphabet. -/
def base64Index (c : Char) : Option Nat :=
  let i := base64Alphabet.indexOf c
  if i < 64 then some i else none

/-- Modelled from the spec: the base64 decode of `<base64>`, for which the
repository files hold no source: groups of four characters to groups of three
bytes, the last group padded with `=`. -/
def base64Decode : List Char → Option (List Nat)
  | [] => some []
  | a :: b :: c :: d :: rest =>
      match base64Index a, base64Index b with
      | some x, some y =>
          if c = '=' ∧ d = '=' ∧ rest = [] then some [x * 4 + y / 16]
          else
            match base64Index c with
            | none => none
            | some z =>
                if d = '=' ∧ rest = [] then some [x * 4 + y / 16, y % 16 * 16 + z / 4]
                else
                  match base64Index d, base64Decode rest with
                  | some w, some bytes =>
                      some ((x * 4 + y / 16) :: (y % 16 * 16 + z / 4) :: (z % 4 * 64 + w) :: bytes)
                  | _, _ => none
      | _, _ => none
  | _ => none

/-- The loop of `bitLength`: the first argument bounds the number of steps. -/
def bitLengthFrom : Nat → Nat → Nat
  | 0, _ => 0
  | fuel + 1, n => if n = 0 then 0 else bitLengthFrom fuel (n / 2) + 1

/-- The number of binary digits of a number. -/
def bitLength (n : Nat) : Nat := bitLengthFrom n n

/-- The numerator of `num / den / 2 ^ e` as a fraction of natural numbers. -/
def scaleNum (num : Nat) (e : Int) : Nat := if 0 ≤ e then num else num * 2 ^ (-e).toNat

/-- The denominator of `num / den / 2 ^ e` as a fraction of natural numbers. -/
def scaleDen (den : Nat) (e : Int) : Nat := if 0 ≤ e then den * 2 ^ e.toNat else den

/-- The `float64` nearest to `num / den`, ties to even, for `den` positive:
a zero, a subnormal number `m * 2 ^ (-1074)` with `m < 2 ^ 52`, or a normal
number `m * 2 ^ e` with `2 ^ 52 ≤ m < 2 ^ 53`; `none` above the largest finite
`float64`. The exponent `e` is the least one, from -1074 on, with
`num / den < 2 ^ 53 * 2 ^ e`: it is found from the numbers of binary digits
of `num` and `den`, and `m` is `num / den / 2 ^ e` rounded. -/
def nearestFloat64 (neg : Bool) (num den : Nat) : Option Float64 :=
  if num = 0 then some (.finite neg 0 0)
  else
    let e1 : Int := Int.ofNat (bitLength num) - Int.ofNat (bitLength den) - 53
    let e2 : Int := if scaleNum num e1 < 2 ^ 53 * scaleDen den e1 then e1 else e1 + 1
    let e : Int := if e2 < -1074 then -1074 else e2
    let m := roundHalfEven (scaleNum num e) (scaleDen den e)
    if m = 0 then some (.finite neg 0 0)
    else if m = 2 ^ 53 then
      if e + 1 > 971 then none else some (.finite neg (2 ^ 52) (e + 1))
    else if e > 971 then none else some (.finite neg m e)

/-- The leading decimal digits of a text: their value on top of `acc`, their
number on top of `n`, and the rest of the text. -/
def readDigits : List Char → Nat → Nat → Nat × Nat × List Char
  | [], acc, n => (acc, n, [])
  | c :: cs, acc, n =>
      match digitValue c with
      | some d => readDigits cs (10 * acc + d) (n + 1)
      | none => (acc, n, c :: cs)

/-- The exponent part of a decimal number: nothing, or `e` or `E`, an optional
sign and decimal digits. -/
def readExponent : List Char → Option Int
  | [] => some 0
  | c :: r =>
      if c = 'e' ∨ c = 'E' then
        match r with
        | [] => none
        | s :: ds =>
            if s = '-' then
              if ds = [] then none else (parseDigits ds 0).map fun x => -Int.ofNat x
            else if s = '+' then
              if ds = [] then none else (parseDigits ds 0).map Int.ofNat
            else (parseDigits (s :: ds) 0).map Int.ofNat
      else none

/-- An unsigned decimal number `digits[.digits][e[+-]digits]` with at least
one digit before the exponent, as `mantissa * 10 ^ exponent`. -/
def readDecimal (s : List Char) : Option (Nat × Int) :=
  match readDigits s 0 0 with
  | (whole, n1, r1) =>
      match (match r1 with
        | '.' :: r => readDigits r whole 0
        | _ => (whole, 0, r1)) with
      | (mantissa, n2, r2) =>
          if n1 + n2 = 0 then none
          else (readExponent r2).map fun x => (mantissa, x - Int.ofNat n2)

/-- The value of an unsigned text: an infinity or a decimal number rounded to
the nearest `float64`. -/
def parseUnsigned (neg : Bool) (s : List Char) : Option Float64 :=
  if s.map Char.toLower = "inf".data ∨ s.map Char.toLower = "infinity".data then some (.inf neg)
  else
    match readDecimal s with
    | none => none
    | some (mantissa, x) =>
        if 0 ≤ x then nearestFloat64 neg (mantissa * 10 ^ x.toNat) 1
        else nearestFloat64 neg mantissa (10 ^ (-x).toNat)

/-- Modelled from the spec: the float parse of `<double>` (a "free-form
numeric parse", section 6), for which the repository files hold no source, as
Go's `strconv.ParseFloat(s, 64)` on decimal text: an optional sign, then
`inf`, `infinity` or a decimal number with an optional fraction and an
optional decimal exponent, or `nan` without a sign, in either case of the
letters. The number is rounded to the nearest `float64`, ties to even; a text
of another form, or a number above the largest `float64`, is an error.
(Hexadecimal numbers and digit separators are not modelled.) -/
def parseFloat64 (s : String) : Option Float64 :=
  if s.data.map Char.toLower = "nan".data then some .nan
  else
    match s.data with
    | [] => none
    | c :: r =>
        if c = '-' then parseUnsigned true r
        else if c = '+' then parseUnsigned false r
        else parseUnsigned false (c :: r)

/-- Modelled from the spec: the `targetFieldType` of section 4.3, the static
type of a decode target. -/
inductive GoType
  | int
  | float64
  | string
  | bool
  | struct (fields : List (StructField × GoType))
  | time
  | slice (elem : GoType)
  | bytes
  | ptr (elem : GoType)

mutual
/-- The zero value of a type: a fresh decode target. -/
def GoType.zero : GoType → GoValue
  | .int => .int 0
  | .float64 => .float64 (.finite false 0 0)
  | .string => .string ""
  | .bool => .bool false
  | .struct fields => .struct (zeroFields fields)
  | .time => .time ⟨1, 1, 1, 0, 0, 0, 0, .UTC, false⟩
  | .slice _ => .slice []
  | .bytes => .bytes []
  | .ptr _ => .ptr none
/-- The fields of the zero value of a record type. -/
def zeroFields : List (StructField × GoType) → List (StructField × GoValue)
  | [] => []
  | (f, t) :: rest => (f, t.zero) :: zeroFields rest
end

/-- The name a field is exposed under: the name of its tag when that is not
empty, the declared name otherwise. -/
def exposedName (f : StructField) : String :=
  if (tagOf f).Name ≠ "" then (tagOf f).Name else f.Name

/-- Text in lower case, for the case-insensitive match of member names. -/
def lowerCase (s : String) : String := ⟨s.data.map Char.toLower⟩

/-- Position of the first field satisfying a test. -/
def findField (p : StructField → Bool) : List (StructField × GoType) → Option Nat
  | [] => none
  | (f, _) :: rest => if p f then some 0 else (findField p rest).map (· + 1)

/-- Modelled from the spec: record member matching of section 4.4, for which
the repository files hold no source. The target field of a member name is the
first field whose exposed name is that name, and failing that the first field
whose declared name matches it without regard to case. -/
def resolveField (name : String) (fields : List (StructField × GoType)) : Option Nat :=
  match findField (fun f => exposedName f = name) fields with
  | some i => some i
  | none => findField (fun f => lowerCase f.Name = lowerCase name) fields

/-- The type of the field at a position. -/
def fieldType (fields : List (StructField × GoType)) (i : Nat) : Option GoType :=
  (fields.get? i).map Prod.snd

/-- The target with the field at a position set to a value. -/
def setField : List (StructField × GoValue) → Nat → GoValue → List (StructField × GoValue)
  | [], _, _ => []
  | (f, _) :: rest, 0, v => (f, v) :: rest
  | (f, w) :: rest, i + 1, v => (f, w) :: setField rest i v

/-- Modelled from the spec: the scalar rules of the value decode of section
4.3, step 4, for which the repository files hold no source. The wire tag
selects the rule and the rule must fit the target type: `<int>` or `<i4>` is an
integer parse, `<double>` a float parse, `<string>` the unescaped text,
`<boolean>` the text `1` or `0`, `<dateTime.iso8601>` a fixed-format timestamp
parse, `<base64>` a base64 decode. The float parse is the argument
`parseFloat`. -/
def decodeScalar (parseFloat : String → Option Float64) (target : GoType) (tag : String)
    (content : List XmlNode) : Option GoValue :=
  match nodeText content with
  | none => none
  | some s =>
      if tag = "int" ∨ tag = "i4" then
        match target with
        | .int => (parseInt s.data).map GoValue.int
        | _ => none
      else if tag = "double" then
        match target with
        | .float64 => (parseFloat s).map GoValue.float64
        | _ => none
      else if tag = "string" then
        match target with
        | .string => some (.string s)
        | _ => none
      else if tag = "boolean" then
        match target with
        | .bool => if s = "1" then some (.bool true) else if s = "0" then some (.bool false) else none
        | _ => none
      else if tag = "dateTime.iso8601" then
        match target with
        | .time => (parseTime s.data).map GoValue.time
        | _ => none
      else if tag = "base64" then
        match target with
        | .bytes => (base64Decode s.data).map GoValue.bytes
        | _ => none
      else none

mutual
/-- Modelled from the spec: the value decode `decodeValue(xmlNode,
targetFieldType)` of section 4.3, step 4, for which the repository files hold
no source. The node is a `<value>` element with one typed child; `<nil/>` is
the null of a pointer target, `<struct>` and `<array><data>` recurse, a scalar
decoded for a pointer target is its referent. The result carries the flag of
an application error met inside; `none` is a value that cannot be decoded. -/
def decodeValue (parseFloat : String → Option Float64) :
    GoType → XmlNode → Option (GoValue × Bool)
  | target, .elem name [.elem tag content] =>
      if name = "value" then
        if tag = "nil" then
          match target with
          | .ptr _ => some (.ptr none, false)
          | _ => none
        else if tag = "struct" then
          match target with
          | .struct fields =>
              match decodeMembers parseFloat fields content (zeroFields fields) false with
              | (record, failed) => some (.struct record, failed)
          | _ => none
        else if tag = "array" then
          match target, content with
          | .slice elemType, [.elem dataTag items] =>
              if dataTag = "data" then
                (decodeItems parseFloat elemType items).map fun r => (GoValue.slice r.1, r.2)
              else none
          | _, _ => none
        else
          match target with
          | .ptr referent =>
              (decodeScalar parseFloat referent tag content).map fun v => (.ptr (some v), false)
          | _ => (decodeScalar parseFloat target tag content).map fun v => (v, false)
      else none
  | _, _ => none
/-- Modelled from the spec: the walk over the `<member>` elements of a
`<struct>` of section 4.4, for which the repository files hold no source. A
member whose name resolves to a field is decoded against the type of that
field and stored; a member that does not resolve, or does not decode, raises
the flag of an application error and the walk goes on. (The third case of
`TestXML2RPCTags` expects the members after an unknown one to be left alone;
the specification says the walk goes on, and the definition follows it.) -/
def decodeMembers (parseFloat : String → Option Float64)
    (fields : List (StructField × GoType)) :
    List XmlNode → List (StructField × GoValue) → Bool → List (StructField × GoValue) × Bool
  | [], record, failed => (record, failed)
  | .elem name [.elem n nameKids, valueNode] :: rest, record, failed =>
      if name = "member" ∧ n = "name" then
        match (nodeText nameKids).bind fun memberName => resolveField memberName fields with
        | none => decodeMembers parseFloat fields rest record true
        | some i =>
            match fieldType fields i with
            | none => decodeMembers parseFloat fields rest record true
            | some t =>
                match decodeValue parseFloat t valueNode with
                | none => decodeMembers parseFloat fields rest record true
                | some (v, e) =>
                    decodeMembers parseFloat fields rest (setField record i v) (failed || e)
      else decodeMembers parseFloat fields rest record true
  | _ :: rest, record, _ => decodeMembers parseFloat fields rest record true
/-- Modelled from the spec: the sequence recursion of section 4.3, step 4,
for which the repository files hold no source: each child `<value>` of
`<data>` is decoded against the element type of the target. -/
def decodeItems (parseFloat : String → Option Float64) (elemType : GoType) :
    List XmlNode → Option (List GoValue × Bool)
  | [] => some ([], false)
  | item :: rest =>
      match decodeValue parseFloat elemType item, decodeItems parseFloat elemType rest with
      | some (v, e), some (vs, es) => some (v :: vs, e || es)
      | _, _ => none
end

/-- Modelled from the spec: the outcomes `Fault` and `ApplicationError` of a
decode, of section 7: a fault reported by the peer or a local error. -/
inductive DecodeError
  | fault (code : Int) (message : String)
  | applicationError
  deriving DecidableEq, Repr

/-- Modelled from the spec: the positional walk of section 4.3, step 3, for
which the repository files hold no source: the target fields, in declared
order, against the successive `<param>` elements. A parameter that does not
decode raises the flag of an application error and the walk goes on. -/
def decodeParams (parseFloat : String → Option Float64) (fields : List (StructField × GoType)) :
    List XmlNode → Nat → List (StructField × GoValue) → Bool → List (StructField × GoValue) × Bool
  | [], _, record, failed => (record, failed)
  | param :: rest, i, record, failed =>
      match param, fieldType fields i with
      | .elem name [valueNode], some t =>
          if name = "param" then
            match decodeValue parseFloat t valueNode with
            | none => decodeParams parseFloat fields rest (i + 1) record true
            | some (v, e) =>
                decodeParams parseFloat fields rest (i + 1) (setField record i v) (failed || e)
          else decodeParams parseFloat fields rest (i + 1) record true
      | _, _ => decodeParams parseFloat fields rest (i + 1) record true

/-- The children of the first element with a given name. -/
def findElem (name : String) : List XmlNode → Option (List XmlNode)
  | [] => none
  | .elem n kids :: rest => if n = name then some kids else findElem name rest
  | .text _ :: rest => findElem name rest

/-- The text after a leading XML declaration `<?...?>`, when there is one. -/
def skipDeclaration (s : List Char) : List Char :=
  if "<?".data.isPrefixOf s then (s.dropWhile (fun c => c != '>')).drop 1 else s

/-- The record type of a fault payload. -/
def faultType : GoType :=
  .struct [(⟨"faultCode", ""⟩, .int), (⟨"faultString", ""⟩, .string)]

/-- Modelled from the spec: the decoder `decode(wireText, targetRecord)` of
section 4.3, for which the repository files hold no source. The text is read
as XML; a `<fault>` envelope is returned as a fault and leaves the target as
it is; otherwise the `<params>` are walked against the target fields. The
result is the target after the call and the error, if any. The wire text is
taken as characters (the encoding normalization of step 1 is not modelled)
and the first argument bounds the nesting the XML reader accepts. -/
def xml2RPC (parseFloat : String → Option Float64) (fuel : Nat) (wire : String)
    (fields : List (StructField × GoType)) (target : List (StructField × GoValue)) :
    List (StructField × GoValue) × Option DecodeError :=
  match parseNodes fuel (skipDeclaration wire.data) with
  | some ([.elem root kids], []) =>
      if root = "methodCall" ∨ root = "methodResponse" then
        match findElem "fault" kids with
        | some [faultValue] =>
            match decodeValue parseFloat faultType faultValue with
            | some (.struct [(_, .int code), (_, .string message)], _) =>
                (target, some (.fault code message))
            | _ => (target, some .applicationError)
        | some _ => (target, some .applicationError)
        | none =>
            match findElem "params" kids with
            | none => (target, none)
            | some params =>
                match decodeParams parseFloat fields params 0 target false with
                | (record, failed) => (record, if failed then some .applicationError else none)
      else (target, some .applicationError)
  | _ => (target, some .applicationError)

/-- The XML reader returns the given sibling nodes and rest on a text, with
any bound on the nesting from some bound on. -/
def ParsesTo (s : List Char) (nodes : List XmlNode) (rest : List Char) : Prop :=
  ∃ n, ∀ fuel, n ≤ fuel → parseNodes fuel s = some (nodes, rest)

/-- A member name that the wire format carries unchanged: no `<` and no `&`. -/
def plainText (s : String) : Bool := s.data.all fun c => c != '<' && c != '&'

/-- A timestamp the wire text determines: its calendar fields are in their
ranges, the year from 0 to 9999, and it has what the text cannot carry as the
timestamp parse sets it: no nanoseconds, the location `time.Local`, no
monotonic clock reading. -/
def Time.wireDetermined (t : Time) : Bool :=
  decide (0 ≤ t.Year ∧ t.Year ≤ 9999 ∧ 1 ≤ t.Month ∧ t.Month ≤ 12 ∧ 1 ≤ t.Day ∧ t.Day ≤ 31 ∧
    t.Hour ≤ 23 ∧ t.Minute ≤ 59 ∧ t.Second ≤ 59 ∧
    t.Nanosecond = 0 ∧ t.Location = .Local ∧ t.Monotonic = false)

/-- The exposed names of the fields of a record type are plain and pairwise
distinct. -/
def namesDistinct (fields : List (StructField × GoType)) : Bool :=
  (fields.map fun f => exposedName f.1).all plainText &&
    decide (fields.map fun f => exposedName f.1).Nodup

mutual
/-- The values the round trip is stated for, with the type of their target
and the float parse of the decoder: integers, strings, booleans, nil
pointers; doubles other than NaN (which is equal to no double) that the float
parse gives back from their printed text, a zero among them being the
positive zero of a fresh target; timestamps the wire text determines;
sequences of bytes and generic sequences that are not empty (an empty
sequence stands for a nil one and for an allocated one alike), the elements of
a generic sequence all having a non-empty encoding; and records whose exposed
names are plain and distinct. -/
def roundTrips (parseFloat : String → Option Float64) : GoValue → GoType → Bool
  | .int _, .int => true
  | .float64 f, .float64 =>
      decide (f ≠ .nan) && decide (parseFloat (fmtF f) = some f) &&
        (!f.isZero || decide (f = .finite false 0 0))
  | .string _, .string => true
  | .bool _, .bool => true
  | .time t, .time => t.wireDetermined
  | .bytes data, .bytes => !data.isEmpty && data.all fun b => decide (b < 256)
  | .ptr none, .ptr _ => true
  | .slice items, .slice elemType => !items.isEmpty && itemsRoundTrip parseFloat items elemType
  | .struct fields, .struct types =>
      fieldsRoundTrip parseFloat fields types && namesDistinct types
  | _, _ => false
/-- Every element of a sequence is in `roundTrips` and has a non-empty
encoding. -/
def itemsRoundTrip (parseFloat : String → Option Float64) : List GoValue → GoType → Bool
  | [], _ => true
  | x :: rest, elemType =>
      roundTrips parseFloat x elemType && !specEmpty false x &&
        itemsRoundTrip parseFloat rest elemType
/-- The fields of a record are those of its type, with values in
`roundTrips`. -/
def fieldsRoundTrip (parseFloat : String → Option Float64) :
    List (StructField × GoValue) → List (StructField × GoType) → Bool
  | [], [] => true
  | (f, v) :: rest, (g, t) :: types =>
      decide (f = g) && roundTrips parseFloat v t && fieldsRoundTrip parseFloat rest types
  | _, _ => false
end

/-- A parameter record the round trip is stated for: its fields are in
`roundTrips` and each has a non-empty encoding. -/
def paramsRoundTrip (parseFloat : String → Option Float64)
    (fields : List (StructField × GoValue)) (types : List (StructField × GoType)) : Bool :=
  fieldsRoundTrip parseFloat fields types && fields.all fun f => !specEmpty false f.2

/-- The smallest positive `float64`, `math.SmallestNonzeroFloat64`. -/
def smallestNonzeroFloat64 : Float64 := .finite false 1 (-1074)

/-- The XML reader returns the given nodes on a text, whatever follows it:
they come before the nodes of the following text. -/
def SibParses (s : List Char) (nodes : List XmlNode) : Prop :=
  ∀ rest sibs rest', ParsesTo rest sibs rest' → ParsesTo (s ++ rest) (nodes ++ sibs) rest'

/-- The markup of an element: opening tag, body, closing tag. -/
def xmlElem (tag : String) (body : List Char) : List Char :=
  '<' :: (tag.data ++ '>' :: (body ++ '<' :: '/' :: (tag.data ++ ['>'])))

/-- The children the XML reader returns for character data: none for empty
data, one text node otherwise. -/
def textKids (txt : List Char) : List XmlNode :=
  match txt with
  | [] => []
  | c :: cs => [.text ⟨unescapeFrom 0 (c :: cs)⟩]

/-- A tag name without `>` and `/`. -/
def cleanTag (tag : String) : Bool := tag.data.all fun x => x != '>' && x != '/'

/-- The type `StructRpc2Xml` of the record of `TestRPC2XML`, which is the
type `StructXml2Rpc` of the target of `TestXML2RPC`. -/
def testRPC2XMLTypes : List (StructField × GoType) :=
  [ (⟨"Int", ""⟩, .int),
    (⟨"Float", ""⟩, .float64),
    (⟨"Str", ""⟩, .string),
    (⟨"Bool", ""⟩, .bool),
    (⟨"Sub", ""⟩, .struct [(⟨"Foo", ""⟩, .int), (⟨"Bar", ""⟩, .string),
      (⟨"Data", ""⟩, .slice .int)]),
    (⟨"Time", ""⟩, .time),
    (⟨"Base64", ""⟩, .bytes) ]

/-- The text `TestXML2RPC` decodes: that of `TestRPC2XML` with `<i4>` for the
first `<int>`. -/
def testXML2RPCText : String :=
  "<methodCall><methodName>Some.Method</methodName><params><param><value><i4>123</i4></value></param><param><value><double>3.145926</double></value></param><param><value><string>Hello, World!</string></value></param><param><value><boolean>0</boolean></value></param><param><value><struct><member><name>Foo</name><value><int>42</int></value></member><member><name>Bar</name><value><string>I'm Bar</string></value></member><member><name>Data</name><value><array><data><value><int>1</int></value><value><int>2</int></value><value><int>3</int></value></data></array></value></member></struct></value></param><param><value><dateTime.iso8601>20120717T14:08:55</dateTime.iso8601></value></param><param><value><base64>eW91IGNhbid0IHJlYWQgdGhpcyE=</base64></value></param></params></methodCall>"

/-- The timestamp of `TestRPC2XML`, `time.Date(2012, time.July, 17, 14, 8, 55,
0, time.Local)`. -/
def testTime : Time := ⟨2012, 7, 17, 14, 8, 55, 0, .Local, false⟩

/-- The same calendar fields with nanoseconds, `time.Date(2012, time.July, 17,
14, 8, 55, 123456789, time.Local)`. -/
def testTimeNanos : Time := ⟨2012, 7, 17, 14, 8, 55, 123456789, .Local, false⟩

/-- The same calendar fields in another location, `time.Date(2012, time.July,
17, 14, 8, 55, 0, time.UTC)`. -/
def testTimeUTC : Time := ⟨2012, 7, 17, 14, 8, 55, 0, .UTC, false⟩

/-- The type of the target of `TestXML2RPCLowercasedMethods`. -/
def helloArgsTypes : List (StructField × GoType) :=
  [(⟨"Args", ""⟩, .struct [(⟨"String1", ""⟩, .string), (⟨"String2", ""⟩, .string),
    (⟨"Id", ""⟩, .int)])]

/-- The fields of a `TaggedStructXml2RpcParams` with the given values. -/
def taggedTarget (foo bar str dbl p : GoValue) : List (StructField × GoValue) :=
  [ (⟨"Foo", ""⟩, foo),
    (⟨"Bar", "renameBar"⟩, bar),
    (⟨"Str", ",omitempty"⟩, str),
    (⟨"Double", "doublename,omitempty"⟩, dbl),
    (⟨"IntPtr", "ptrname,omitempty"⟩, p) ]

/-- The type `TaggedStructXml2Rpc` of the target of `TestXML2RPCTags`. -/
def taggedTargetTypes : List (StructField × GoType) :=
  [(⟨"Params", ""⟩, .struct [
    (⟨"Foo", ""⟩, .string),
    (⟨"Bar", "renameBar"⟩, .int),
    (⟨"Str", ",omitempty"⟩, .string),
    (⟨"Double", "doublename,omitempty"⟩, .float64),
    (⟨"IntPtr", "ptrname,omitempty"⟩, .ptr .int)])]

/-! # Properties -/

set_option maxRecDepth 100000

/-! ## Auxiliary facts -/

theorem str_append_eq_empty (a b : String) : a ++ b = "" ↔ a = "" ∧ b = "" := by
  constructor
  · intro h
    have hd := congrArg String.data h
    simp only [String.data_append] at hd
    have hd2 : a.data ++ b.data = [] := hd
    rw [List.append_eq_nil] at hd2
    exact ⟨String.ext hd2.1, String.ext hd2.2⟩
  · rintro ⟨rfl, rfl⟩
    rfl

theorem str_empty_append (a : String) : "" ++ a = a := String.ext (by simp)

theorem str_append_empty (a : String) : a ++ "" = a := String.ext (by simp)

theorem str_lit_append_ne_empty (c : Char) (cs : List Char) (b : String) :
    (String.mk (c :: cs)) ++ b ≠ "" := by
  intro h
  have hd := congrArg String.data h
  simp at hd

theorem concatText_append (xs ys : List String) :
    concatText (xs ++ ys) = concatText xs ++ concatText ys := by
  induction xs with
  | nil => simp [concatText, str_empty_append]
  | cons x xs ih => simp [concatText, ih, String.append_assoc]

theorem splitChars_ne_nil (sep : Char) (s : List Char) : splitChars sep s ≠ [] := by
  induction s with
  | nil => simp [splitChars]
  | cons c cs ih =>
    unfold splitChars
    split
    · simp
    · split <;> simp

theorem parseXMLTag_isSome (field : StructField) : ∃ tag, parseXMLTag field = some tag := by
  unfold parseXMLTag
  by_cases h : field.Tag = ""
  · simp [h]
  · simp only [ne_eq, h, not_false_eq_true, if_true]
    cases hs : stringsSplit field.Tag ',' with
    | nil =>
      unfold stringsSplit at hs
      simp only [List.map_eq_nil_iff] at hs
      exact absurd hs (splitChars_ne_nil _ _)
    | cons t ts => exact ⟨_, rfl⟩

theorem parseXMLTag_tagOf (field : StructField) : parseXMLTag field = some (tagOf field) := by
  obtain ⟨tag, h⟩ := parseXMLTag_isSome field
  simp [tagOf, h]

theorem rpc2XMLResult_snd (out : String) : (rpc2XMLResult out).2 = none := by
  unfold rpc2XMLResult
  split <;> rfl

mutual
theorem rpc2XML_returns : ∀ (v : GoValue) (o : Bool), ∃ out, rpc2XML v o = some (rpc2XMLResult out)
  | .int n, o => ⟨_, by rw [rpc2XML]⟩
  | .float64 f, o => ⟨_, by rw [rpc2XML]⟩
  | .string s, o => ⟨_, by rw [rpc2XML]⟩
  | .bool b, o => ⟨_, by rw [rpc2XML]⟩
  | .struct fields, o => by
      obtain ⟨s, hs⟩ := struct2XMLFrom_returns fields ""
      exact ⟨s, by rw [rpc2XML, hs, Option.map_some']⟩
  | .time t, o => ⟨_, by rw [rpc2XML]⟩
  | .slice items, o => by
      obtain ⟨s, hs⟩ := array2XMLFrom_returns items "<array><data>"
      rw [rpc2XML, hs]
      split
      · exact ⟨_, rfl⟩
      · exact ⟨s, by rw [Option.map_some']⟩
  | .bytes data, o => ⟨_, by rw [rpc2XML]⟩
  | .ptr none, o => ⟨_, by rw [rpc2XML]⟩
  | .ptr (some v), o => by
      rw [rpc2XML]
      exact rpc2XML_returns v false
  | .other k, o => ⟨_, by rw [rpc2XML]⟩
theorem struct2XMLFrom_returns :
    ∀ (fields : List (StructField × GoValue)) (out : String),
      ∃ s, struct2XMLFrom fields out = some s
  | [], out => ⟨_, by rw [struct2XMLFrom]⟩
  | (field_type, field) :: rest, out => by
      obtain ⟨s, hs⟩ := rpc2XML_returns field (tagOf field_type).OmitEmpty
      rw [struct2XMLFrom, parseXMLTag_tagOf]
      simp only [hs]
      split
      · exact struct2XMLFrom_returns rest _
      · exact struct2XMLFrom_returns rest _
theorem array2XMLFrom_returns :
    ∀ (items : List GoValue) (out : String), ∃ s, array2XMLFrom items out = some s
  | [], out => ⟨_, by rw [array2XMLFrom]⟩
  | item :: rest, out => by
      obtain ⟨s, hs⟩ := rpc2XML_returns item false
      rw [array2XMLFrom]
      simp only [hs]
      exact array2XMLFrom_returns rest _
end

theorem rpc2XML_eq (v : GoValue) (o : Bool) :
    rpc2XML v o = some (textOf (rpc2XML v o), none) := by
  obtain ⟨out, h⟩ := rpc2XML_returns v o
  rw [h]
  simp only [textOf]
  rw [← rpc2XMLResult_snd out]

theorem rpc2XMLResult_shape (out : String) :
    (rpc2XMLResult out).1 = "" ∨
      ∃ inner, inner ≠ "" ∧ (rpc2XMLResult out).1 = "<value>" ++ inner ++ "</value>" := by
  unfold rpc2XMLResult
  by_cases h : out = ""
  · left
    simp [h]
  · right
    exact ⟨out, h, by simp [h]⟩

theorem rpc2XML_shape (v : GoValue) (o : Bool) :
    textOf (rpc2XML v o) = "" ∨
      ∃ inner, inner ≠ "" ∧ textOf (rpc2XML v o) = "<value>" ++ inner ++ "</value>" := by
  obtain ⟨out, h⟩ := rpc2XML_returns v o
  rw [h]
  exact rpc2XMLResult_shape out

theorem struct2XMLFrom_eq (fields : List (StructField × GoValue)) (out : String) :
    struct2XMLFrom fields out =
      some (struct2XMLResult (out ++ concatText (fields.map specMember))) := by
  induction fields generalizing out with
  | nil => simp [struct2XMLFrom, concatText, str_append_empty]
  | cons f rest ih =>
    obtain ⟨field_type, field⟩ := f
    have e : "<member><name>" = "<member>" ++ "<name>" := by decide
    rw [struct2XMLFrom, parseXMLTag_tagOf]
    simp only
    rw [rpc2XML_eq field (tagOf field_type).OmitEmpty]
    simp only [List.map_cons, concatText, specMember, e]
    by_cases hv : textOf (rpc2XML field (tagOf field_type).OmitEmpty) = ""
    · simp only [hv, if_true, ih, str_empty_append]
    · simp only [hv, if_false, ih, String.append_assoc]

theorem array2XMLFrom_eq (items : List GoValue) (out : String) :
    array2XMLFrom items out =
      some (out ++ concatText (items.map fun x => textOf (rpc2XML x false)) ++
        "</data></array>") := by
  induction items generalizing out with
  | nil => simp [array2XMLFrom, concatText, str_append_empty]
  | cons x rest ih =>
    rw [array2XMLFrom, rpc2XML_eq x false]
    simp only [List.map_cons, concatText, ih, String.append_assoc]

theorem rpcParams2XMLFrom_eq (fields : List (StructField × GoValue)) (buffer : String) :
    rpcParams2XMLFrom fields (buffer, none) =
      some (buffer ++ concatText
        (fields.map specParam), none) := by
  induction fields generalizing buffer with
  | nil => simp [rpcParams2XMLFrom, concatText, str_append_empty]
  | cons f rest ih =>
    obtain ⟨field_type, field⟩ := f
    rw [rpcParams2XMLFrom, rpc2XML_eq field false]
    simp only [List.map_cons, concatText, specParam, ih, String.append_assoc]

theorem rpcParams2XML_eq (fields : List (StructField × GoValue)) :
    rpcParams2XML (.ptr (some (.struct fields))) =
      some ("<params>" ++ concatText
        (fields.map specParam) ++
        "</params>", none) := by
  simp only [rpcParams2XML, rpcParams2XMLFrom_eq, Option.map_some']

/-! ## The envelope -/

theorem rpcRequest2XML_eq (method : String) (fields : List (StructField × GoValue)) :
    rpcRequest2XML method (.ptr (some (.struct fields))) =
      some ("<methodCall><methodName>" ++ method ++ "</methodName><params>" ++
        concatText (fields.map specParam) ++
        "</params></methodCall>", none) := by
  have e1 : "</methodName><params>" = "</methodName>" ++ "<params>" := by decide
  have e2 : "</params></methodCall>" = "</params>" ++ "</methodCall>" := by decide
  simp only [rpcRequest2XML, rpcParams2XML_eq, Option.map_some', e1, e2, String.append_assoc]

/-- C1: `rpcRequest2XML` returns the method name followed by one `<param>` per
top-level field of the parameter record, in declared order, each holding the
field's encoding with `omitEmpty = false`, and a nil error. -/
theorem rpcRequest2XML_envelope (method : String) (fields : List (StructField × GoValue)) :
    rpcRequest2XML method (.ptr (some (.struct fields))) =
      some ("<methodCall><methodName>" ++ method ++ "</methodName><params>" ++
        concatText (fields.map fun f => "<param>" ++ textOf (rpc2XML f.2 false) ++ "</param>") ++
        "</params></methodCall>", none) :=
  rpcRequest2XML_eq method fields

/-- C1, on the request of `TestRPC2XML`: the text asserted by the test. -/
theorem rpcRequest2XML_envelope_witness :
    rpcRequest2XML "Some.Method" testRPC2XMLReq = some (testRPC2XMLExpected, none) :=
  (rpcRequest2XML_envelope "Some.Method" testRPC2XMLFields).trans (by decide)

/-- C2, as amended: the params text is `<params>`, one `<param>` per top-level
field around the field's encoding, `</params>`; each encoding is either empty
or `<value>INNER</value>` with `INNER` non-empty. -/
theorem rpcParams2XML_params (fields : List (StructField × GoValue)) :
    rpcParams2XML (.ptr (some (.struct fields))) =
      some ("<params>" ++ concatText
        (fields.map specParam) ++
        "</params>", none) ∧
    ∀ v : GoValue, textOf (rpc2XML v false) = "" ∨
      ∃ inner, inner ≠ "" ∧ textOf (rpc2XML v false) = "<value>" ++ inner ++ "</value>" :=
  ⟨rpcParams2XML_eq fields, fun v => rpc2XML_shape v false⟩

/-- C2 fails as stated: a parameter record whose only field is a record
without fields is encoded as `<params><param></param></params>`, which is
not `<params><param><value>INNER</value></param></params>` for any `INNER`. -/
theorem rpcParams2XML_empty_param :
    rpcParams2XML (.ptr (some (.struct [untagged "Empty" (.struct [])]))) =
      some ("<params><param></param></params>", none) ∧
    ∀ inner : String, "<params><param></param></params>" ≠
      "<params><param><value>" ++ inner ++ "</value></param></params>" := by
  refine ⟨by decide, fun inner h => ?_⟩
  have hd := congrArg String.data h
  simp at hd

/-! ## Strings -/

theorem replaceFrom_single (c : Char) (new s : List Char) :
    replaceFrom [c] new 0 s = s.flatMap (fun x => if x = c then new else [x]) := by
  induction s with
  | nil => simp [replaceFrom]
  | cons x xs ih =>
    by_cases hx : x = c
    · subst hx
      simp [replaceFrom, List.isPrefixOf, ih, List.flatMap_cons]
    · have hx2 : ¬ c = x := fun h => hx h.symm
      simp [replaceFrom, List.isPrefixOf, ih, List.flatMap_cons, hx, hx2]

theorem stringsReplace_single (s : String) (c : Char) (new : String) :
    stringsReplace s ⟨[c]⟩ new =
      ⟨s.data.flatMap (fun x => if x = c then new.data else [x])⟩ := by
  simp [stringsReplace, replaceFrom_single]

theorem specEscapeChar_eq (c : Char) :
    ((((if c = '&' then "&amp;".data else [c]).flatMap
        (fun x => if x = '"' then "&quot;".data else [x])).flatMap
        (fun x => if x = '<' then "&lt;".data else [x])).flatMap
        (fun x => if x = '>' then "&gt;".data else [x])) = specEscapeChar c := by
  unfold specEscapeChar
  by_cases h1 : c = '&'
  · subst h1
    decide
  · by_cases h2 : c = '"'
    · subst h2
      decide
    · by_cases h3 : c = '<'
      · subst h3
        decide
      · by_cases h4 : c = '>'
        · subst h4
          decide
        · simp [h1, h2, h3, h4]

theorem escape_passes (s : List Char) :
    (((s.flatMap (fun x => if x = '&' then "&amp;".data else [x])).flatMap
        (fun x => if x = '"' then "&quot;".data else [x])).flatMap
        (fun x => if x = '<' then "&lt;".data else [x])).flatMap
        (fun x => if x = '>' then "&gt;".data else [x]) = s.flatMap specEscapeChar := by
  induction s with
  | nil => rfl
  | cons c cs ih =>
    simp only [List.flatMap_cons, List.flatMap_append, ih]
    exact congrArg (fun l => l ++ cs.flatMap specEscapeChar) (specEscapeChar_eq c)

/-- C3: without omission `string2XML` wraps in `<string>` the single-pass
escaping of its argument, so no ampersand written by an earlier replacement
is escaped again; with omission the result is empty exactly for the empty
string. -/
theorem string2XML_escape (s : String) :
    string2XML s false = "<string>" ++ specEscape s ++ "</string>" ∧
    (string2XML s true = "" ↔ s = "") := by
  have h1 : ("&" : String) = ⟨['&']⟩ := rfl
  have h2 : ("\"" : String) = ⟨['"']⟩ := rfl
  have h3 : ("<" : String) = ⟨['<']⟩ := rfl
  have h4 : (">" : String) = ⟨['>']⟩ := rfl
  have body : "<string>" ++
      stringsReplace (stringsReplace (stringsReplace (stringsReplace s "&" "&amp;")
        "\"" "&quot;") "<" "&lt;") ">" "&gt;" ++ "</string>" =
      "<string>" ++ specEscape s ++ "</string>" := by
    rw [h1, h2, h3, h4]
    simp only [stringsReplace_single, escape_passes, specEscape]
  constructor
  · simp only [string2XML, Bool.false_and, Bool.false_eq_true, if_false]
    exact body
  · by_cases hs : s = ""
    · subst hs
      simp [string2XML]
    · simp only [string2XML, Bool.true_and, beq_iff_eq, hs, if_false, iff_false]
      rw [String.append_assoc]
      exact str_lit_append_ne_empty _ _ _

/-- C3, on the string of `TestRPC2XMLSpecialChars`. -/
theorem string2XML_escape_witness :
    string2XML " & \" < > " false = "<string> &amp; &quot; &lt; &gt; </string>" :=
  (string2XML_escape " & \" < > ").1.trans (by decide)

/-! ## Records, sequences and pointers -/

theorem rpc2XML_struct (fields : List (StructField × GoValue)) (omitEmpty : Bool) :
    rpc2XML (.struct fields) omitEmpty = (struct2XML fields omitEmpty).map rpc2XMLResult := by
  rw [rpc2XML, struct2XML]

theorem rpc2XML_slice (items : List GoValue) (omitEmpty : Bool) :
    rpc2XML (.slice items) omitEmpty = (array2XML items omitEmpty).map rpc2XMLResult := by
  rw [rpc2XML, array2XML]
  split <;> rfl

theorem struct2XML_eq (fields : List (StructField × GoValue)) (omitEmpty : Bool) :
    struct2XML fields omitEmpty = some (struct2XMLResult (concatText (fields.map specMember))) := by
  rw [struct2XML, struct2XMLFrom_eq, str_empty_append]

theorem rpc2XML_zero (v : GoValue) (h : isZeroValue v = true) :
    rpc2XML v true = some ("", none) := by
  cases v with
  | int n =>
    have hn : n = 0 := by simpa [isZeroValue] using h
    subst hn
    rfl
  | float64 f =>
    have hf : f.isZero = true := h
    simp [rpc2XML, double2XML, hf, rpc2XMLResult]
  | string s =>
    have hs : s = "" := by simpa [isZeroValue] using h
    subst hs
    rfl
  | bool b =>
    have hb : b = false := by simpa [isZeroValue] using h
    subst hb
    rfl
  | struct fields =>
    have hf : fields = [] := by simpa [isZeroValue] using h
    subst hf
    rfl
  | time t => simp [isZeroValue] at h
  | slice items =>
    have hi : items = [] := by simpa [isZeroValue] using h
    subst hi
    rfl
  | bytes data => simp [isZeroValue] at h
  | ptr p =>
    cases p with
    | none => rfl
    | some v => simp [isZeroValue] at h
  | other k => simp [isZeroValue] at h

/-- C4: a field whose tag sets `omitempty` and whose value is a zero value
contributes no `<member>`: the record encodes as the record without that
field. -/
theorem struct2XML_omits_zero (pre post : List (StructField × GoValue)) (f : StructField)
    (tag : XMLTag) (v : GoValue) (omitEmpty : Bool)
    (htag : parseXMLTag f = some tag) (homit : tag.OmitEmpty = true)
    (hzero : isZeroValue v = true) :
    struct2XML (pre ++ (f, v) :: post) omitEmpty = struct2XML (pre ++ post) omitEmpty := by
  have ht : tagOf f = tag := by simp [tagOf, htag]
  have hm : specMember (f, v) = "" := by
    simp [specMember, ht, homit, rpc2XML_zero v hzero, textOf]
  simp only [struct2XML_eq, List.map_append, List.map_cons, concatText_append, concatText, hm,
    str_empty_append]

/-- C4, on the field `Str` of the first case of `TestRPC2XMLTags`: the record
encodes as the record without `Str`, and only `Foo`, `renameBar` and `strname`
survive. -/
theorem struct2XML_omits_zero_witness :
    struct2XML testTagsParams1 false = struct2XML (testTagsParams1.eraseIdx 2) false ∧
    struct2XML testTagsParams1 false = some testTagsStruct1 :=
  ⟨struct2XML_omits_zero (testTagsParams1.take 2) (testTagsParams1.drop 3) ⟨"Str", ",omitempty"⟩
      ⟨"", true⟩ (.string "") false (by decide) rfl rfl,
    by decide⟩

theorem rpcResponse2XML_eq (fields : List (StructField × GoValue)) :
    rpcResponse2XML (.ptr (some (.struct fields))) =
      some ("<methodResponse><params>" ++ concatText (fields.map specParam) ++
        "</params></methodResponse>", none) := by
  have e1 : "<methodResponse><params>" = "<methodResponse>" ++ "<params>" := by decide
  have e2 : "</params></methodResponse>" = "</params>" ++ "</methodResponse>" := by decide
  simp only [rpcResponse2XML, rpcParams2XML_eq, Option.map_some', e1, e2, String.append_assoc]

/-- C5, as amended: a value of a kind outside the supported ones is encoded
as empty text with a nil error, and a parameter record holding it as a
top-level field is encoded with a nil error, the field giving the empty
element `<param></param>`. -/
theorem rpc2XML_other (k : OtherKind) (omitEmpty : Bool) (method : String) (f : StructField)
    (pre post : List (StructField × GoValue)) :
    rpc2XML (.other k) omitEmpty = some ("", none) ∧
    rpcRequest2XML method (.ptr (some (.struct (pre ++ (f, .other k) :: post)))) =
      some ("<methodCall><methodName>" ++ method ++ "</methodName><params>" ++
        concatText (pre.map specParam) ++ "<param></param>" ++ concatText (post.map specParam) ++
        "</params></methodCall>", none) ∧
    rpcResponse2XML (.ptr (some (.struct (pre ++ (f, .other k) :: post)))) =
      some ("<methodResponse><params>" ++
        concatText (pre.map specParam) ++ "<param></param>" ++ concatText (post.map specParam) ++
        "</params></methodResponse>", none) := by
  have hp : specParam (f, .other k) = "<param></param>" := rfl
  refine ⟨rfl, ?_, ?_⟩
  · rw [rpcRequest2XML_eq]
    simp only [List.map_append, List.map_cons, concatText_append, concatText, hp,
      String.append_assoc]
  · rw [rpcResponse2XML_eq]
    simp only [List.map_append, List.map_cons, concatText_append, concatText, hp,
      String.append_assoc]

/-- C5 fails as stated: a 64-bit-sized integer is encoded as empty text with a
nil error, and a request holding it as its only parameter is returned with a
nil error. -/
theorem rpc2XML_int64_nil_error :
    rpc2XML (.other .Int64) false = some ("", none) ∧
    rpcRequest2XML "Some.Method" (.ptr (some (.struct [untagged "N" (.other .Int64)]))) =
      some ("<methodCall><methodName>Some.Method</methodName><params><param></param></params></methodCall>",
        none) := by
  decide

theorem concatText_ne_empty (l : List String) (s : String) (hs : s ∈ l) (hne : s ≠ "") :
    concatText l ≠ "" := by
  induction l with
  | nil => simp at hs
  | cons x xs ih =>
    intro h
    rw [concatText, str_append_eq_empty] at h
    rcases List.mem_cons.mp hs with rfl | hmem
    · exact hne h.1
    · exact ih hmem h.2

/-- C6: a record with a surviving field encodes as `<struct>`, the members of
the fields with a non-empty value text, in declared order, `</struct>`. -/
theorem struct2XML_members (fields : List (StructField × GoValue)) (omitEmpty : Bool)
    (h : ∃ f ∈ fields, textOf (rpc2XML f.2 (tagOf f.1).OmitEmpty) ≠ "") :
    struct2XML fields omitEmpty =
      some ("<struct>" ++ concatText (fields.map specMember) ++ "</struct>") := by
  obtain ⟨f, hf, hne⟩ := h
  have hm : specMember f ≠ "" := by
    have e : "<member><name>" = String.mk ('<' :: "member><name>".data) := by decide
    simp only [specMember, hne, if_false, e, String.append_assoc]
    exact str_lit_append_ne_empty _ _ _
  have hc : concatText (fields.map specMember) ≠ "" :=
    concatText_ne_empty _ _ (List.mem_map_of_mem specMember hf) hm
  rw [struct2XML_eq, struct2XMLResult, if_neg hc]

/-- C6, on the second case of `TestRPC2XMLTags`. -/
theorem struct2XML_members_witness :
    struct2XML testTagsParams2 false = some testTagsStruct2 :=
  (struct2XML_members testTagsParams2 false
    ⟨(⟨"Foo", ""⟩, .string "FOO"), List.mem_cons_self _ _, by decide⟩).trans (by decide)

/-- C7: a nil pointer is empty text under omission and `<nil/>` otherwise; a
non-nil pointer is encoded as its referent with `omitEmpty = false`, so a
pointer to 0 in a field tagged `omitempty` is still emitted. -/
theorem rpc2XML_ptr (v : GoValue) (omitEmpty : Bool) :
    rpc2XML (.ptr none) true = some ("", none) ∧
    rpc2XML (.ptr none) false = some ("<value><nil/></value>", none) ∧
    rpc2XML (.ptr (some v)) omitEmpty = rpc2XML v false ∧
    rpc2XML (.ptr (some (.int 0))) true = some ("<value><int>0</int></value>", none) ∧
    struct2XML [(⟨"RenameOmitPtr", "ptrname,omitempty"⟩, .ptr (some (.int 0)))] false =
      some "<struct><member><name>ptrname</name><value><int>0</int></value></member></struct>" := by
  refine ⟨rfl, rfl, ?_, rfl, by decide⟩
  rw [rpc2XML]

/-- C8: a sequence is empty text when it is empty under omission, and
otherwise `<array><data>`, the encodings of its elements with
`omitEmpty = false` in order, `</data></array>`. -/
theorem array2XML_elements (xs : List GoValue) (omitEmpty : Bool) :
    array2XML xs omitEmpty =
      some (if omitEmpty && xs.isEmpty then ""
        else "<array><data>" ++ concatText (xs.map fun x => textOf (rpc2XML x false)) ++
          "</data></array>") ∧
    array2XML [] false = some "<array><data></data></array>" ∧
    array2XML [.int 0] true = some "<array><data><value><int>0</int></value></data></array>" := by
  refine ⟨?_, by decide, by decide⟩
  rw [array2XML]
  have e : (xs.length == 0) = xs.isEmpty := by cases xs <;> rfl
  rw [e]
  split
  · rfl
  · rw [array2XMLFrom_eq]

/-! ## Tags -/

theorem splitChars_token (t : List Char) (h : ',' ∉ t) : splitChars ',' t = [t] := by
  induction t with
  | nil => rfl
  | cons c cs ih =>
    have hc : c ≠ ',' := fun e => h (e ▸ List.mem_cons_self _ _)
    have hcs : ',' ∉ cs := fun e => h (List.mem_cons_of_mem _ e)
    simp [splitChars, hc, ih hcs]

theorem splitChars_token_append (t r : List Char) (h : ',' ∉ t) :
    splitChars ',' (t ++ ',' :: r) = t :: splitChars ',' r := by
  induction t with
  | nil => simp [splitChars]
  | cons c cs ih =>
    have hc : c ≠ ',' := fun e => h (e ▸ List.mem_cons_self _ _)
    have hcs : ',' ∉ cs := fun e => h (List.mem_cons_of_mem _ e)
    simp [splitChars, hc, ih hcs]

theorem commaJoin_cons_cons (t u : String) (rest : List String) :
    commaJoin (t :: u :: rest) = t ++ "," ++ commaJoin (u :: rest) := rfl

theorem splitChars_commaJoin (tokens : List String) (hne : tokens ≠ [])
    (h : ∀ t ∈ tokens, ',' ∉ t.data) :
    splitChars ',' (commaJoin tokens).data = tokens.map String.data := by
  induction tokens with
  | nil => exact absurd rfl hne
  | cons t rest ih =>
    cases rest with
    | nil => simpa [commaJoin] using splitChars_token t.data (h t (List.mem_cons_self _ _))
    | cons u rest =>
      have hrest : ∀ x ∈ u :: rest, ',' ∉ x.data := fun x hx => h x (List.mem_cons_of_mem _ hx)
      rw [commaJoin_cons_cons]
      have e : (t ++ "," ++ commaJoin (u :: rest)).data
          = t.data ++ ',' :: (commaJoin (u :: rest)).data := by
        simp [String.data_append]
      rw [e, splitChars_token_append _ _ (h t (List.mem_cons_self _ _)),
        ih (by simp) hrest]
      rfl

theorem stringsSplit_commaJoin (tokens : List String) (hne : tokens ≠ [])
    (h : ∀ t ∈ tokens, ',' ∉ t.data) :
    stringsSplit (commaJoin tokens) ',' = tokens := by
  rw [stringsSplit, splitChars_commaJoin tokens hne h, List.map_map]
  exact List.map_id _

theorem parseXMLTagFlags_eq (flags : List String) (tag : XMLTag) :
    parseXMLTagFlags flags tag =
      ⟨tag.Name, tag.OmitEmpty || decide ("omitempty" ∈ flags)⟩ := by
  induction flags with
  | nil => simp [parseXMLTagFlags]
  | cons f rest ih =>
    by_cases hf : f = "omitempty"
    · simp [parseXMLTagFlags, hf]
    · have hf2 : ¬ "omitempty" = f := fun e => hf e.symm
      simp [parseXMLTagFlags, hf, hf2, ih]

theorem takeWhile_token_append (t r : List Char) (h : ',' ∉ t) :
    (t ++ ',' :: r).takeWhile (fun c => decide (c ≠ ',')) = t := by
  induction t with
  | nil => simp [List.takeWhile]
  | cons c cs ih =>
    have hc : c ≠ ',' := fun e => h (e ▸ List.mem_cons_self _ _)
    have hcs : ',' ∉ cs := fun e => h (List.mem_cons_of_mem _ e)
    have hd : decide (c ≠ ',') = true := decide_eq_true hc
    simp only [List.cons_append, List.takeWhile_cons, hd, if_true]
    rw [ih hcs]

theorem takeWhile_token (t : List Char) (h : ',' ∉ t) :
    t.takeWhile (fun c => decide (c ≠ ',')) = t := by
  induction t with
  | nil => rfl
  | cons c cs ih =>
    have hc : c ≠ ',' := fun e => h (e ▸ List.mem_cons_self _ _)
    have hcs : ',' ∉ cs := fun e => h (List.mem_cons_of_mem _ e)
    have hd : decide (c ≠ ',') = true := decide_eq_true hc
    simp only [List.takeWhile_cons, hd, if_true]
    rw [ih hcs]

theorem commaJoin_splitChars (s : List Char) :
    (∀ t ∈ splitChars ',' s, ',' ∉ t) ∧
      (commaJoin ((splitChars ',' s).map String.mk)).data = s := by
  induction s with
  | nil => simp [splitChars, commaJoin]
  | cons c cs ih =>
    by_cases hc : c = ','
    · subst hc
      obtain ⟨h1, h2⟩ := ih
      have hsp : splitChars ',' (',' :: cs) = [] :: splitChars ',' cs := by simp [splitChars]
      rw [hsp]
      refine ⟨?_, ?_⟩
      · intro t ht
        rcases List.mem_cons.mp ht with rfl | ht
        · simp
        · exact h1 t ht
      · cases hs : splitChars ',' cs with
        | nil => exact absurd hs (splitChars_ne_nil _ _)
        | cons u us =>
          rw [hs, List.map_cons] at h2
          simp only [List.map_cons, commaJoin_cons_cons, String.data_append, h2]
          rfl
    · obtain ⟨h1, h2⟩ := ih
      cases hs : splitChars ',' cs with
      | nil => exact absurd hs (splitChars_ne_nil _ _)
      | cons u us =>
        have hsp : splitChars ',' (c :: cs) = (c :: u) :: us := by simp [splitChars, hc, hs]
        rw [hs] at h1 h2
        rw [hsp]
        refine ⟨?_, ?_⟩
        · intro t ht
          rcases List.mem_cons.mp ht with rfl | ht
          · intro hmem
            rcases List.mem_cons.mp hmem with e | hmem
            · exact hc e.symm
            · exact h1 u (List.mem_cons_self _ _) hmem
          · exact h1 t (List.mem_cons_of_mem _ ht)
        · cases us with
          | nil =>
            simp only [List.map_cons, List.map_nil, commaJoin] at h2 ⊢
            simp [h2]
          | cons w ws =>
            simp only [List.map_cons, commaJoin_cons_cons, String.data_append] at h2 ⊢
            simp only [List.cons_append, List.append_assoc] at h2 ⊢
            rw [h2]

/-- C9: on a tag made of the comma-free tokens `name`, `flags...` joined by
commas, `parseXMLTag` returns `Name = name`, the text before the first comma,
and `OmitEmpty = true` exactly when `omitempty` is one of the flags; every
tag is of that form; an empty tag gives the unset tag and the one-token tag
`omitempty` is a name. -/
theorem parseXMLTag_tokens (fieldName name : String) (flags : List String)
    (h : ∀ t ∈ name :: flags, ',' ∉ t.data) :
    parseXMLTag ⟨fieldName, commaJoin (name :: flags)⟩ =
      some ⟨name, decide ("omitempty" ∈ flags)⟩ ∧
    (commaJoin (name :: flags)).data.takeWhile (fun c => decide (c ≠ ',')) = name.data ∧
    (∀ tag : String, ∃ name0 flags0, (∀ t ∈ name0 :: flags0, ',' ∉ t.data) ∧
      tag = commaJoin (name0 :: flags0)) ∧
    parseXMLTag ⟨fieldName, ""⟩ = some ⟨"", false⟩ ∧
    parseXMLTag ⟨fieldName, "omitempty"⟩ = some ⟨"omitempty", false⟩ := by
  refine ⟨?_, ?_, ?_, rfl, rfl⟩
  · by_cases he : commaJoin (name :: flags) = ""
    · have hsplit := stringsSplit_commaJoin (name :: flags) (by simp) h
      rw [he] at hsplit
      have hs : stringsSplit "" ',' = [""] := by decide
      rw [hs] at hsplit
      have hn : name = "" := by
        have := congrArg List.head? hsplit
        simpa using this.symm
      have hf : flags = [] := by
        have := congrArg List.tail hsplit
        simpa using this.symm
      subst hn hf
      rfl
    · simp only [parseXMLTag, ne_eq, he, not_false_eq_true, if_true]
      rw [stringsSplit_commaJoin (name :: flags) (by simp) h]
      simp [parseXMLTagFlags_eq]
  · cases flags with
    | nil => simpa [commaJoin] using takeWhile_token name.data (h name (List.mem_cons_self _ _))
    | cons u rest =>
      rw [commaJoin_cons_cons]
      have e : (name ++ "," ++ commaJoin (u :: rest)).data
          = name.data ++ ',' :: (commaJoin (u :: rest)).data := by
        simp [String.data_append]
      rw [e]
      exact takeWhile_token_append _ _ (h name (List.mem_cons_self _ _))
  · intro tag
    obtain ⟨h1, h2⟩ := commaJoin_splitChars tag.data
    cases hs : splitChars ',' tag.data with
    | nil => exact absurd hs (splitChars_ne_nil _ _)
    | cons u us =>
      rw [hs] at h1 h2
      refine ⟨String.mk u, us.map String.mk, ?_, ?_⟩
      · intro t ht
        rcases List.mem_cons.mp ht with rfl | ht
        · exact h1 u (List.mem_cons_self _ _)
        · obtain ⟨x, hx, rfl⟩ := List.mem_map.mp ht
          exact h1 x (List.mem_cons_of_mem _ hx)
      · exact String.ext h2.symm

/-- C9, on the tag of the field `RenameOmitDouble` of the test suite. -/
theorem parseXMLTag_tokens_witness :
    parseXMLTag ⟨"RenameOmitDouble", "doublename,omitempty"⟩ = some ⟨"doublename", true⟩ :=
  (parseXMLTag_tokens "RenameOmitDouble" "doublename" ["omitempty"] (by decide)).1

/-! ## Timestamps -/

theorem digitChar_eq_digit (n : Nat) (h : n < 10) : Nat.digitChar n = digit n := by
  interval_cases n <;> rfl

theorem toDigitsCore_eq (bound : Nat) :
    ∀ fuel ≤ bound, ∀ (n : Nat) (ds : List Char), n < fuel →
      Nat.toDigitsCore 10 fuel n ds = Nat.toDigits 10 n ++ ds := by
  induction bound with
  | zero =>
    intro fuel hf n ds hn
    omega
  | succ b ih =>
    intro fuel hf n ds hn
    cases fuel with
    | zero => omega
    | succ fuel =>
      by_cases hq : n / 10 = 0
      · simp [Nat.toDigits, Nat.toDigitsCore, hq]
      · have h1 : Nat.toDigitsCore 10 fuel (n / 10) (Nat.digitChar (n % 10) :: ds)
            = Nat.toDigits 10 (n / 10) ++ Nat.digitChar (n % 10) :: ds :=
          ih fuel (by omega) (n / 10) _ (by omega)
        have h2 : Nat.toDigitsCore 10 n (n / 10) [Nat.digitChar (n % 10)]
            = Nat.toDigits 10 (n / 10) ++ [Nat.digitChar (n % 10)] :=
          ih n (by omega) (n / 10) _ (by omega)
        have h3 : Nat.toDigits 10 n = Nat.toDigits 10 (n / 10) ++ [Nat.digitChar (n % 10)] := by
          rw [← h2]
          simp [Nat.toDigits, Nat.toDigitsCore, hq]
        rw [h3]
        simp [Nat.toDigitsCore, hq, h1]

theorem toDigits_small (n : Nat) (h : n < 10) : Nat.toDigits 10 n = [digit n] := by
  have hq : n / 10 = 0 := by omega
  have hm : n % 10 = n := by omega
  simp [Nat.toDigits, Nat.toDigitsCore, hq, hm, digitChar_eq_digit n h]

theorem digit_mod (n : Nat) : digit (n % 10) = digit n := by
  simp [digit]

theorem toDigits_step (n : Nat) (h : 10 ≤ n) :
    Nat.toDigits 10 n = Nat.toDigits 10 (n / 10) ++ [digit n] := by
  have hq : n / 10 ≠ 0 := by omega
  have h2 := toDigitsCore_eq n n (Nat.le_refl _) (n / 10) [Nat.digitChar (n % 10)] (by omega)
  rw [← digit_mod n, ← digitChar_eq_digit (n % 10) (by omega), ← h2]
  simp [Nat.toDigits, Nat.toDigitsCore, hq]

theorem zeroPad_two (n : Nat) (h : n < 100) :
    zeroPad 2 (Nat.repr n) = ⟨[digit (n / 10), digit n]⟩ := by
  by_cases h1 : n < 10
  · have hz : n / 10 = 0 := by omega
    rw [Nat.repr, toDigits_small n h1, hz]
    rfl
  · rw [Nat.repr, toDigits_step n (by omega), toDigits_small (n / 10) (by omega)]
    rfl

theorem zeroPad_four (n : Nat) (h : n < 10000) :
    zeroPad 4 (Nat.repr n) =
      ⟨[digit (n / 1000), digit (n / 100), digit (n / 10), digit n]⟩ := by
  have e100 : n / 10 / 10 = n / 100 := by omega
  have e1000 : n / 100 / 10 = n / 1000 := by omega
  by_cases h1 : n < 10
  · have hz1 : n / 10 = 0 := by omega
    have hz2 : n / 100 = 0 := by omega
    have hz3 : n / 1000 = 0 := by omega
    rw [Nat.repr, toDigits_small n h1, hz1, hz2, hz3]
    rfl
  · by_cases h2 : n < 100
    · have hz2 : n / 100 = 0 := by omega
      have hz3 : n / 1000 = 0 := by omega
      rw [Nat.repr, toDigits_step n (by omega), toDigits_small (n / 10) (by omega), hz2, hz3]
      rfl
    · by_cases h3 : n < 1000
      · have hz3 : n / 1000 = 0 := by omega
        rw [Nat.repr, toDigits_step n (by omega), toDigits_step (n / 10) (by omega),
          toDigits_small (n / 10 / 10) (by omega), e100, hz3]
        rfl
      · rw [Nat.repr, toDigits_step n (by omega), toDigits_step (n / 10) (by omega),
          toDigits_step (n / 10 / 10) (by omega), toDigits_small (n / 10 / 10 / 10) (by omega),
          e100, e1000]
        rfl

theorem fmt0D_two (n : Nat) (h : n < 100) :
    fmt0D 2 (n : Int) = ⟨[digit (n / 10), digit n]⟩ := by
  have hn : ¬ ((n : Int) < 0) := by omega
  simp only [fmt0D, hn, if_false, Int.natAbs_ofNat]
  exact zeroPad_two n h

theorem fmt0D_four (y : Int) (h0 : 0 ≤ y) (h : y ≤ 9999) :
    fmt0D 4 y =
      ⟨[digit (y.toNat / 1000), digit (y.toNat / 100), digit (y.toNat / 10), digit y.toNat]⟩ := by
  have hn : ¬ (y < 0) := by omega
  have ha : y.natAbs = y.toNat := by omega
  simp only [fmt0D, hn, if_false, ha]
  exact zeroPad_four y.toNat (by omega)

/-- C10, as amended: for a year from 0 to 9999 a timestamp is encoded, under
either value of `omitEmpty`, as `<value><dateTime.iso8601>T</dateTime.iso8601></value>`
with `T` the 17 characters `YYYYMMDDThh:mm:ss` of zero-padded decimal fields
and no zone suffix; the result is not empty. -/
theorem rpc2XML_time (t : Time) (omitEmpty : Bool)
    (hy : 0 ≤ t.Year ∧ t.Year ≤ 9999) (hmo : 1 ≤ t.Month ∧ t.Month ≤ 12)
    (hd : 1 ≤ t.Day ∧ t.Day ≤ 31) (hh : t.Hour ≤ 23) (hmi : t.Minute ≤ 59)
    (hs : t.Second ≤ 59) :
    rpc2XML (.time t) omitEmpty =
      some ("<value><dateTime.iso8601>" ++ specTimestamp t ++ "</dateTime.iso8601></value>",
        none) ∧
    (specTimestamp t).length = 17 ∧
    textOf (rpc2XML (.time t) omitEmpty) ≠ "" := by
  have hbody : time2XML t = "<dateTime.iso8601>" ++ specTimestamp t ++ "</dateTime.iso8601>" := by
    rw [time2XML, fmt0D_four t.Year hy.1 hy.2, fmt0D_two t.Month (by omega),
      fmt0D_two t.Day (by omega), fmt0D_two t.Hour (by omega), fmt0D_two t.Minute (by omega),
      fmt0D_two t.Second (by omega)]
    apply String.ext
    simp [specTimestamp, String.data_append]
  have hne : time2XML t ≠ "" := by
    rw [hbody, String.append_assoc]
    exact str_lit_append_ne_empty _ _ _
  have hres : rpc2XML (.time t) omitEmpty =
      some ("<value><dateTime.iso8601>" ++ specTimestamp t ++ "</dateTime.iso8601></value>",
        none) := by
    have e1 : "<value><dateTime.iso8601>" = "<value>" ++ "<dateTime.iso8601>" := by decide
    have e2 : "</dateTime.iso8601></value>" = "</dateTime.iso8601>" ++ "</value>" := by decide
    rw [rpc2XML, rpc2XMLResult, if_pos hne, hbody, e1, e2]
    simp only [String.append_assoc]
  refine ⟨hres, rfl, ?_⟩
  rw [hres, textOf, String.append_assoc]
  exact str_lit_append_ne_empty _ _ _

/-- C10, on the timestamp of `TestRPC2XML`. -/
theorem rpc2XML_time_witness :
    rpc2XML (.time ⟨2012, 7, 17, 14, 8, 55, 0, .Local, false⟩) true =
      some ("<value><dateTime.iso8601>20120717T14:08:55</dateTime.iso8601></value>", none) :=
  (rpc2XML_time ⟨2012, 7, 17, 14, 8, 55, 0, .Local, false⟩ true (by decide) (by decide)
    (by decide) (by decide) (by decide) (by decide)).1.trans (by decide)

/-- C10 fails as stated: in the year 10000 the text between the tags has 18
characters. -/
theorem rpc2XML_time_year_10000 :
    rpc2XML (.time ⟨10000, 1, 1, 0, 0, 0, 0, .UTC, false⟩) false =
      some ("<value><dateTime.iso8601>100000101T00:00:00</dateTime.iso8601></value>", none) ∧
    "100000101T00:00:00".length = 18 := by
  decide

/-! ## The test suite -/

/-- The assertion of `TestRPC2XMLSpecialChars` holds. -/
theorem testRPC2XMLSpecialChars_passes :
    rpcResponse2XML (.ptr (some (.struct [untagged "String1" (.string " & \" < > ")]))) =
      some ("<methodResponse><params><param><value><string> &amp; &quot; &lt; &gt; </string></value></param></params></methodResponse>",
        none) := by
  decide

/-- The assertion of `TestRpc2XmlNil` holds. -/
theorem testRpc2XmlNil_passes :
    rpcResponse2XML (.ptr (some (.struct [untagged "Ptr" (.ptr none)]))) =
      some ("<methodResponse><params><param><value><nil/></value></param></params></methodResponse>",
        none) := by
  decide

/-- The assertions of both cases of `TestRPC2XMLTags` hold. -/
theorem testRPC2XMLTags_passes :
    rpcResponse2XML (testTagsInput testTagsParams1) =
      some (testTagsOutput testTagsStruct1, none) ∧
    rpcResponse2XML (testTagsInput testTagsParams2) =
      some (testTagsOutput testTagsStruct2, none) := by
  decide

/-! ## Empty encodings -/

theorem rpc2XMLResult_fst_eq_empty (out : String) : (rpc2XMLResult out).1 = "" ↔ out = "" := by
  unfold rpc2XMLResult
  by_cases h : out = ""
  · simp [h]
  · simp only [ne_eq, h, not_false_eq_true, if_true, iff_false]
    rw [String.append_assoc]
    exact str_lit_append_ne_empty _ _ _

theorem struct2XMLResult_eq_empty (out : String) : struct2XMLResult out = "" ↔ out = "" := by
  unfold struct2XMLResult
  by_cases h : out = ""
  · simp [h]
  · simp only [h, if_false, iff_false]
    rw [String.append_assoc]
    exact str_lit_append_ne_empty _ _ _

theorem specMember_eq_empty (f : StructField × GoValue) :
    specMember f = "" ↔ textOf (rpc2XML f.2 (tagOf f.1).OmitEmpty) = "" := by
  unfold specMember
  by_cases h : textOf (rpc2XML f.2 (tagOf f.1).OmitEmpty) = ""
  · simp [h]
  · have e : "<member><name>" = String.mk ('<' :: "member><name>".data) := by decide
    simp only [h, if_false, iff_false, e, String.append_assoc]
    exact str_lit_append_ne_empty _ _ _

theorem rpc2XML_struct_text (fields : List (StructField × GoValue)) (omitEmpty : Bool) :
    rpc2XML (.struct fields) omitEmpty =
      some (rpc2XMLResult (struct2XMLResult (concatText (fields.map specMember)))) := by
  rw [rpc2XML_struct, struct2XML_eq, Option.map_some']

theorem ite_eq_empty (c : Bool) (x : String) (hx : x ≠ "") :
    (if c = true then "" else x) = "" ↔ c = true := by
  cases c <;> simp [hx]

theorem int2XML_eq_empty (n : Int) (omitEmpty : Bool) :
    int2XML n omitEmpty = "" ↔ (omitEmpty && n == 0) = true := by
  unfold int2XML
  exact ite_eq_empty _ _ (by rw [String.append_assoc]; exact str_lit_append_ne_empty _ _ _)

theorem double2XML_eq_empty (f : Float64) (omitEmpty : Bool) :
    double2XML f omitEmpty = "" ↔ (omitEmpty && f.isZero) = true := by
  unfold double2XML
  exact ite_eq_empty _ _ (by rw [String.append_assoc]; exact str_lit_append_ne_empty _ _ _)

theorem string2XML_eq_empty (s : String) (omitEmpty : Bool) :
    string2XML s omitEmpty = "" ↔ (omitEmpty && s == "") = true := by
  unfold string2XML
  exact ite_eq_empty _ _ (by rw [String.append_assoc]; exact str_lit_append_ne_empty _ _ _)

theorem bool2XML_eq_empty (b : Bool) (omitEmpty : Bool) :
    bool2XML b omitEmpty = "" ↔ (omitEmpty && !b) = true := by
  cases b <;> cases omitEmpty <;> decide

theorem time2XML_ne_empty (t : Time) : time2XML t ≠ "" := by
  unfold time2XML
  simp only [String.append_assoc]
  exact str_lit_append_ne_empty _ _ _

theorem base642XML_ne_empty (data : List Nat) : base642XML data ≠ "" := by
  unfold base642XML
  simp only [String.append_assoc]
  exact str_lit_append_ne_empty _ _ _

theorem array2XML_text (items : List GoValue) (omitEmpty : Bool) :
    array2XML items omitEmpty =
      some (if (omitEmpty && items.isEmpty) = true then ""
        else "<array><data>" ++ concatText (items.map fun x => textOf (rpc2XML x false)) ++
          "</data></array>") := by
  rw [array2XML]
  have e : (items.length == 0) = items.isEmpty := by cases items <;> rfl
  rw [e]
  split
  · rfl
  · rw [array2XMLFrom_eq]

theorem rpc2XML_slice_text (items : List GoValue) (omitEmpty : Bool) :
    textOf (rpc2XML (.slice items) omitEmpty) = "" ↔ (omitEmpty && items.isEmpty) = true := by
  rw [rpc2XML_slice, array2XML_text, Option.map_some', textOf, rpc2XMLResult_fst_eq_empty]
  exact ite_eq_empty _ _ (by rw [String.append_assoc]; exact str_lit_append_ne_empty _ _ _)

mutual
theorem rpc2XML_empty_iff :
    ∀ (v : GoValue) (o : Bool), textOf (rpc2XML v o) = "" ↔ specEmpty o v = true
  | .int n, o => by
      rw [rpc2XML, textOf, rpc2XMLResult_fst_eq_empty, int2XML_eq_empty, specEmpty]
  | .float64 f, o => by
      rw [rpc2XML, textOf, rpc2XMLResult_fst_eq_empty, double2XML_eq_empty, specEmpty]
  | .string s, o => by
      rw [rpc2XML, textOf, rpc2XMLResult_fst_eq_empty, string2XML_eq_empty, specEmpty]
  | .bool b, o => by
      rw [rpc2XML, textOf, rpc2XMLResult_fst_eq_empty, bool2XML_eq_empty, specEmpty]
  | .struct fields, o => by
      rw [rpc2XML_struct_text, textOf, rpc2XMLResult_fst_eq_empty, struct2XMLResult_eq_empty,
        specEmpty]
      exact members_empty_iff fields
  | .time t, o => by
      rw [rpc2XML, textOf, rpc2XMLResult_fst_eq_empty, specEmpty]
      simp [time2XML_ne_empty]
  | .slice items, o => by
      rw [rpc2XML_slice_text, specEmpty]
  | .bytes data, o => by
      rw [rpc2XML, textOf, rpc2XMLResult_fst_eq_empty, specEmpty]
      simp [base642XML_ne_empty]
  | .ptr none, o => by
      cases o <;> decide
  | .ptr (some v), o => by
      rw [rpc2XML, specEmpty]
      exact rpc2XML_empty_iff v false
  | .other k, o => by
      rw [rpc2XML, specEmpty]
      simp [textOf, rpc2XMLResult]
theorem members_empty_iff :
    ∀ (fields : List (StructField × GoValue)),
      concatText (fields.map specMember) = "" ↔ specNoSurvivor fields = true
  | [] => by simp [concatText, specNoSurvivor]
  | (f, v) :: rest => by
      rw [List.map_cons, concatText, str_append_eq_empty, specMember_eq_empty, specNoSurvivor,
        Bool.and_eq_true]
      exact and_congr (rpc2XML_empty_iff v (tagOf f).OmitEmpty) (members_empty_iff rest)
end

theorem specNoSurvivor_iff (fields : List (StructField × GoValue)) :
    specNoSurvivor fields = true ↔
      ∀ f ∈ fields, textOf (rpc2XML f.2 (tagOf f.1).OmitEmpty) = "" := by
  induction fields with
  | nil => simp [specNoSurvivor]
  | cons f rest ih =>
    obtain ⟨ft, v⟩ := f
    rw [specNoSurvivor, Bool.and_eq_true, ih, ← rpc2XML_empty_iff]
    simp


/-! ## Omission -/

/-- C11, the code at a zero-length byte sequence tagged `omitempty`: the
field is emitted with an empty `<base64>` element, while an empty generic
sequence under the same tag is omitted; no byte sequence encodes to empty
text. -/
theorem struct2XML_empty_bytes_emitted :
    struct2XML [(⟨"Data", ",omitempty"⟩, .bytes [])] false =
      some "<struct><member><name>Data</name><value><base64></base64></value></member></struct>" ∧
    struct2XML [(⟨"Data", ",omitempty"⟩, .slice [])] false = some "" ∧
    ∀ (data : List Nat) (omitEmpty : Bool), textOf (rpc2XML (.bytes data) omitEmpty) ≠ "" := by
  refine ⟨by decide, by decide, fun data omitEmpty h => ?_⟩
  rw [rpc2XML_empty_iff, specEmpty] at h
  exact Bool.false_ne_true h

theorem struct2XML_split (pre post : List (StructField × GoValue)) (f : StructField × GoValue)
    (omitEmpty : Bool) (hm : specMember f ≠ "") :
    struct2XML (pre ++ f :: post) omitEmpty =
      some ("<struct>" ++ concatText (pre.map specMember) ++ specMember f ++
        concatText (post.map specMember) ++ "</struct>") := by
  have hc : concatText ((pre ++ f :: post).map specMember) ≠ "" :=
    concatText_ne_empty _ _ (List.mem_map_of_mem specMember (by simp)) hm
  rw [struct2XML_eq, struct2XMLResult, if_neg hc]
  simp only [List.map_append, List.map_cons, concatText_append, concatText, String.append_assoc]

theorem concatText_skip (pre post : List String) :
    concatText (pre ++ "" :: post) = concatText (pre ++ post) := by
  rw [concatText_append, concatText_append, concatText, str_empty_append]

/-- C12, as amended: a field that is not tagged `omitempty` and holds a byte
sequence, a generic sequence, a timestamp, or a record with a surviving
field, has a non-empty encoding and gets its `<member>` in the encoded
record, whatever the value is. A record none of whose fields survives has an
empty encoding under the flag of any tag, and a record holding it in a field
is encoded as without that field. -/
theorem struct2XML_untagged_member (pre post : List (StructField × GoValue)) (f : StructField)
    (tag : XMLTag) (v : GoValue) (omitEmpty : Bool)
    (htag : parseXMLTag f = some tag) (hflag : tag.OmitEmpty = false)
    (hv : (∃ data, v = .bytes data) ∨ (∃ items, v = .slice items) ∨ (∃ t, v = .time t) ∨
      (∃ fields, v = .struct fields ∧
        ∃ g ∈ fields, textOf (rpc2XML g.2 (tagOf g.1).OmitEmpty) ≠ "")) :
    textOf (rpc2XML v false) ≠ "" ∧
    struct2XML (pre ++ (f, v) :: post) omitEmpty =
      some ("<struct>" ++ concatText (pre.map specMember) ++
        ("<member><name>" ++ (if tag.Name ≠ "" then tag.Name else f.Name) ++ "</name>" ++
          textOf (rpc2XML v false) ++ "</member>") ++
        concatText (post.map specMember) ++ "</struct>") ∧
    ∀ (g : StructField) (fields : List (StructField × GoValue)),
      (∀ x ∈ fields, textOf (rpc2XML x.2 (tagOf x.1).OmitEmpty) = "") →
        textOf (rpc2XML (.struct fields) (tagOf g).OmitEmpty) = "" ∧
        struct2XML (pre ++ (g, .struct fields) :: post) omitEmpty =
          struct2XML (pre ++ post) omitEmpty := by
  have ht : tagOf f = tag := by simp [tagOf, htag]
  have hne : textOf (rpc2XML v false) ≠ "" := by
    intro h
    rw [rpc2XML_empty_iff] at h
    rcases hv with ⟨d, rfl⟩ | ⟨xs, rfl⟩ | ⟨t, rfl⟩ | ⟨fs, rfl, g, hg, hgne⟩
    · simp [specEmpty] at h
    · simp [specEmpty] at h
    · simp [specEmpty] at h
    · rw [specEmpty, specNoSurvivor_iff] at h
      exact hgne (h g hg)
  have hm : specMember (f, v) =
      "<member><name>" ++ (if tag.Name ≠ "" then tag.Name else f.Name) ++ "</name>" ++
        textOf (rpc2XML v false) ++ "</member>" := by
    simp only [specMember, ht, hflag, hne, if_false]
  have hmne : specMember (f, v) ≠ "" := by
    rw [Ne, specMember_eq_empty]
    simpa only [ht, hflag] using hne
  refine ⟨hne, ?_, fun g fields hnone => ?_⟩
  · rw [struct2XML_split pre post (f, v) omitEmpty hmne, hm]
  · have hempty : textOf (rpc2XML (.struct fields) (tagOf g).OmitEmpty) = "" := by
      rw [rpc2XML_empty_iff, specEmpty]
      exact (specNoSurvivor_iff fields).mpr hnone
    refine ⟨hempty, ?_⟩
    have hs : specMember (g, .struct fields) = "" := (specMember_eq_empty _).mpr hempty
    rw [struct2XML_eq, struct2XML_eq, List.map_append, List.map_cons, hs, concatText_skip,
      ← List.map_append]

/-- C12, on the untagged field `Base64` holding a zero-length byte sequence. -/
theorem struct2XML_untagged_member_witness :
    struct2XML [(⟨"Base64", ""⟩, .bytes [])] false =
      some "<struct><member><name>Base64</name><value><base64></base64></value></member></struct>" :=
  (struct2XML_untagged_member [] [] ⟨"Base64", ""⟩ ⟨"", false⟩ (.bytes []) false rfl rfl
    (Or.inl ⟨[], rfl⟩)).2.1.trans (by decide)

/-- C12 fails as stated: an untagged field holding a record without fields
gets no `<member>`. -/
theorem struct2XML_untagged_empty_record :
    struct2XML [(⟨"Foo", ""⟩, .int 1), (⟨"Sub", ""⟩, .struct [])] false =
      some "<struct><member><name>Foo</name><value><int>1</int></value></member></struct>" := by
  decide

theorem str_mid_eq_empty (a c b : String) (h : a ++ c ++ b = a ++ b) : c = "" := by
  have hd := congrArg String.data h
  simp only [String.data_append, List.append_assoc] at hd
  have h2 := List.append_cancel_left hd
  have h3 : c.data = [] := by
    have hl := congrArg List.length h2
    simp only [List.length_append] at hl
    exact List.eq_nil_of_length_eq_zero (by omega)
  exact String.ext h3

/-- C13: `struct2XML` never returns `<struct></struct>` and `rpc2XML` of a
record never returns `<value><struct></struct></value>`; the record is empty
text exactly when no field survives, and then so is its `rpc2XML`. -/
theorem struct2XML_no_empty_struct (fields : List (StructField × GoValue)) (omitEmpty : Bool) :
    struct2XML fields omitEmpty ≠ some "<struct></struct>" ∧
    rpc2XML (.struct fields) omitEmpty ≠ some ("<value><struct></struct></value>", none) ∧
    (struct2XML fields omitEmpty = some "" ↔
      ∀ f ∈ fields, textOf (rpc2XML f.2 (tagOf f.1).OmitEmpty) = "") ∧
    ((∀ f ∈ fields, textOf (rpc2XML f.2 (tagOf f.1).OmitEmpty) = "") →
      rpc2XML (.struct fields) omitEmpty = some ("", none)) := by
  have e : "<struct></struct>" = "<struct>" ++ "</struct>" := by decide
  have hres : struct2XMLResult (concatText (fields.map specMember)) ≠ "<struct></struct>" := by
    unfold struct2XMLResult
    split
    · decide
    · rename_i hc
      intro h
      rw [e] at h
      exact hc (str_mid_eq_empty _ _ _ h)
  refine ⟨?_, ?_, ?_, ?_⟩
  · rw [struct2XML_eq]
    intro h
    exact hres (Option.some.inj h)
  · rw [rpc2XML_struct_text]
    intro h
    have h1 := congrArg Prod.fst (Option.some.inj h)
    unfold rpc2XMLResult at h1
    split at h1
    · have e2 : "<value><struct></struct></value>" = "<value>" ++ "<struct></struct>" ++ "</value>" := by
        decide
      have h2 : "<value>" ++ struct2XMLResult (concatText (fields.map specMember)) ++ "</value>" =
          "<value>" ++ "<struct></struct>" ++ "</value>" := by
        rw [← e2]
        exact h1
      have hd := congrArg String.data h2
      simp only [String.data_append, List.append_assoc] at hd
      have h3 := List.append_cancel_right (List.append_cancel_left hd)
      exact hres (String.ext h3)
    · revert h1
      decide
  · rw [struct2XML_eq, ← specNoSurvivor_iff, ← members_empty_iff]
    constructor
    · intro h
      exact (struct2XMLResult_eq_empty _).mp (Option.some.inj h)
    · intro h
      rw [h]
      rfl
  · intro h
    rw [← specNoSurvivor_iff, ← members_empty_iff] at h
    rw [rpc2XML_struct_text, h]
    rfl

/-- C13, on the field `RenameOmitStruct` of `TestRPC2XMLTags`: the record
`struct{}` is empty text under both flags and the field gives no member. -/
theorem struct2XML_no_empty_struct_witness :
    rpc2XML (.struct []) true = some ("", none) ∧
    rpc2XML (.struct []) false = some ("", none) ∧
    specMember (⟨"RenameOmitStruct", "structname,omitempty"⟩, .struct []) = "" :=
  ⟨(struct2XML_no_empty_struct [] true).2.2.2 (fun _ h => absurd h (List.not_mem_nil _)),
    (struct2XML_no_empty_struct [] false).2.2.2 (fun _ h => absurd h (List.not_mem_nil _)),
    by decide⟩


/-! ## Integers, sequences, totality and the flag -/

theorem decimalValue_append (ds : List Nat) (d : Nat) :
    decimalValue (ds ++ [d]) = 10 * decimalValue ds + d := by
  simp [decimalValue, List.foldl_append]

theorem toDigits_decimal (n : Nat) :
    ∃ ds : List Nat, (∀ d ∈ ds, d < 10) ∧ (ds = [0] ∨ ds.head? ≠ some 0) ∧ ds ≠ [] ∧
      decimalValue ds = n ∧ Nat.toDigits 10 n = ds.map digit := by
  induction n using Nat.strong_induction_on with
  | _ n ih =>
    by_cases h : n < 10
    · refine ⟨[n], ?_, ?_, by simp, by simp [decimalValue], ?_⟩
      · intro d hd
        simp only [List.mem_singleton] at hd
        omega
      · by_cases h0 : n = 0
        · left
          rw [h0]
        · right
          simpa using h0
      · simpa using toDigits_small n h
    · obtain ⟨ds, h1, h2, h3, h4, h5⟩ := ih (n / 10) (by omega)
      refine ⟨ds ++ [n % 10], ?_, ?_, by simp, ?_, ?_⟩
      · intro d hd
        rcases List.mem_append.mp hd with hd | hd
        · exact h1 d hd
        · simp only [List.mem_singleton] at hd
          omega
      · right
        cases ds with
        | nil => exact absurd rfl h3
        | cons a as =>
          rcases h2 with h2 | h2
          · rw [h2] at h4
            simp [decimalValue] at h4
            omega
          · simpa using h2
      · rw [decimalValue_append, h4]
        omega
      · rw [toDigits_step n (by omega), h5, List.map_append, List.map_singleton, digit_mod]

/-- C14: `rpc2XML` of an integer is empty text exactly under omission at 0,
and otherwise `<value><int>D</int></value>`, `D` being a minus sign for a
negative number followed by the decimal digits of the absolute value without
leading zeros. -/
theorem rpc2XML_int (n : Int) (omitEmpty : Bool) :
    (textOf (rpc2XML (.int n) omitEmpty) = "" ↔ (omitEmpty = true ∧ n = 0)) ∧
    rpc2XML (.int n) omitEmpty =
      some (if omitEmpty = true ∧ n = 0 then ""
        else "<value><int>" ++ fmtD n ++ "</int></value>", none) ∧
    ∃ ds : List Nat, (∀ d ∈ ds, d < 10) ∧ (ds = [0] ∨ ds.head? ≠ some 0) ∧ ds ≠ [] ∧
      decimalValue ds = n.natAbs ∧
      fmtD n = (if n < 0 then "-" else "") ++ String.mk (ds.map digit) := by
  refine ⟨?_, ?_, ?_⟩
  · rw [rpc2XML_empty_iff, specEmpty]
    simp
  · rw [rpc2XML, int2XML]
    by_cases h : omitEmpty = true ∧ n = 0
    · obtain ⟨rfl, rfl⟩ := h
      rfl
    · have hc : ¬ ((omitEmpty && n == 0) = true) := by simpa using h
      have hne : "<int>" ++ fmtD n ++ "</int>" ≠ "" := by
        rw [String.append_assoc]
        exact str_lit_append_ne_empty _ _ _
      have e1 : "<value><int>" = "<value>" ++ "<int>" := by decide
      have e2 : "</int></value>" = "</int>" ++ "</value>" := by decide
      rw [if_neg hc, if_neg h, rpc2XMLResult, if_pos hne, e1, e2]
      simp only [String.append_assoc]
  · obtain ⟨ds, h1, h2, h3, h4, h5⟩ := toDigits_decimal n.natAbs
    refine ⟨ds, h1, h2, h3, h4, ?_⟩
    unfold fmtD
    by_cases hn : n < 0
    · simp only [hn, if_true, Nat.repr, h5]
      rfl
    · simp only [hn, if_false, Nat.repr, h5]
      exact (str_empty_append _).symm

/-- C16, as amended: when every element has a non-empty encoding, an encoded
sequence of `n` elements holds exactly `n` consecutive `<value>` items between
`<array><data>` and `</data></array>`, the i-th being the encoding of the
i-th element. An element with an empty encoding, as a value of a kind without
encoding and a record without surviving fields have, adds nothing to the
text. -/
theorem array2XML_items (xs : List GoValue) (omitEmpty : Bool)
    (hne : ∀ x ∈ xs, textOf (rpc2XML x false) ≠ "")
    (henc : ¬ (omitEmpty = true ∧ xs = [])) :
    (∃ inners : List String, inners.length = xs.length ∧ (∀ i ∈ inners, i ≠ "") ∧
      xs.map (fun x => textOf (rpc2XML x false)) = inners.map specValueItem ∧
      array2XML xs omitEmpty =
        some ("<array><data>" ++ concatText (inners.map specValueItem) ++ "</data></array>")) ∧
    (∀ (pre post : List GoValue) (x : GoValue), textOf (rpc2XML x false) = "" →
      array2XML (pre ++ x :: post) omitEmpty =
        some ("<array><data>" ++
          concatText ((pre ++ post).map fun y => textOf (rpc2XML y false)) ++
          "</data></array>")) ∧
    (∀ k : OtherKind, textOf (rpc2XML (.other k) false) = "") ∧
    (∀ fields : List (StructField × GoValue),
      (∀ f ∈ fields, textOf (rpc2XML f.2 (tagOf f.1).OmitEmpty) = "") →
        textOf (rpc2XML (.struct fields) false) = "") := by
  have hshape : ∀ ys : List GoValue, (∀ y ∈ ys, textOf (rpc2XML y false) ≠ "") →
      ∃ inners : List String, inners.length = ys.length ∧ (∀ i ∈ inners, i ≠ "") ∧
        ys.map (fun x => textOf (rpc2XML x false)) = inners.map specValueItem := by
    intro ys
    induction ys with
    | nil => exact fun _ => ⟨[], rfl, by simp, rfl⟩
    | cons x rest ih =>
      intro hys
      obtain ⟨inners, hl, hi, hm⟩ := ih (fun y hy => hys y (List.mem_cons_of_mem _ hy))
      rcases rpc2XML_shape x false with h0 | ⟨inner, hin, hx⟩
      · exact absurd h0 (hys x (List.mem_cons_self _ _))
      · refine ⟨inner :: inners, by simp [hl], ?_, ?_⟩
        · intro i hi2
          rcases List.mem_cons.mp hi2 with rfl | hi2
          · exact hin
          · exact hi i hi2
        · simp only [List.map_cons, hm, hx, specValueItem]
  obtain ⟨inners, hl, hi, hm⟩ := hshape xs hne
  refine ⟨⟨inners, hl, hi, hm, ?_⟩, fun pre post x hx => ?_, fun k => ?_, fun fields hnone => ?_⟩
  · have hc : ¬ ((omitEmpty && xs.isEmpty) = true) := by
      intro h
      rw [Bool.and_eq_true, List.isEmpty_iff] at h
      exact henc h
    rw [array2XML_text, if_neg hc, hm]
  · have hc : ¬ ((omitEmpty && (pre ++ x :: post).isEmpty) = true) := by
      intro h
      rw [Bool.and_eq_true, List.isEmpty_iff] at h
      exact absurd h.2 (by simp)
    rw [array2XML_text, if_neg hc, List.map_append, List.map_cons, hx, concatText_skip,
      ← List.map_append]
  · rw [rpc2XML_empty_iff, specEmpty]
  · rw [rpc2XML_empty_iff, specEmpty]
    exact (specNoSurvivor_iff fields).mpr hnone

/-- C16, on the field `Data` of `TestRPC2XML`: three elements, three items. -/
theorem array2XML_items_witness :
    ∃ inners : List String, inners.length = 3 ∧ (∀ i ∈ inners, i ≠ "") ∧
      [GoValue.int 1, .int 2, .int 3].map (fun x => textOf (rpc2XML x false)) =
        inners.map specValueItem ∧
      array2XML [.int 1, .int 2, .int 3] false =
        some ("<array><data>" ++ concatText (inners.map specValueItem) ++ "</data></array>") :=
  (array2XML_items [.int 1, .int 2, .int 3] false
    (by
      intro x hx
      simp only [List.mem_cons, List.mem_singleton, List.not_mem_nil, or_false] at hx
      rcases hx with rfl | rfl | rfl <;> decide)
    (by simp)).1

/-- C16 fails as stated: the sequence `make([]interface{}, 1)` of
`TestRPC2XMLTags`, one nil interface value, is encoded without any `<value>`
item. -/
theorem array2XML_nil_interface :
    array2XML [.other .Invalid] false = some "<array><data></data></array>" ∧
    ∀ inner : String, "<array><data></data></array>" ≠
      "<array><data>" ++ specValueItem inner ++ "</data></array>" := by
  refine ⟨by decide, fun inner h => ?_⟩
  have hd := congrArg String.data h
  simp [specValueItem] at hd

/-- C17: `parseXMLTag` returns on every field, because splitting on a comma
gives at least one token; tags of commas only or of unknown flags give no
omission. -/
theorem parseXMLTag_total (field : StructField) :
    (∃ tag, parseXMLTag field = some tag) ∧
    (∀ s : String, ∃ token0 rest, stringsSplit s ',' = token0 :: rest) ∧
    parseXMLTag ⟨field.Name, ""⟩ = some ⟨"", false⟩ ∧
    parseXMLTag ⟨field.Name, ",,,"⟩ = some ⟨"", false⟩ ∧
    parseXMLTag ⟨field.Name, "name,flag,other"⟩ = some ⟨"name", false⟩ := by
  refine ⟨parseXMLTag_isSome field, ?_, rfl, rfl, rfl⟩
  intro s
  cases h : stringsSplit s ',' with
  | nil =>
    unfold stringsSplit at h
    simp only [List.map_eq_nil_iff] at h
    exact absurd h (splitChars_ne_nil _ _)
  | cons t ts => exact ⟨t, ts, rfl⟩

/-- C18: `rpc2XML` returns a nil error on every value and flag, and so do
`rpcParams2XML`, `rpcRequest2XML` and `rpcResponse2XML` on every pointer to a
record; a value no arm of the type switch matches gives empty text and a nil
error. -/
theorem rpc2XML_nil_error (v : GoValue) (omitEmpty : Bool) (method : String)
    (fields : List (StructField × GoValue)) (k : OtherKind) :
    (∃ s, rpc2XML v omitEmpty = some (s, none)) ∧
    (∃ s, rpcParams2XML (.ptr (some (.struct fields))) = some (s, none)) ∧
    (∃ s, rpcRequest2XML method (.ptr (some (.struct fields))) = some (s, none)) ∧
    (∃ s, rpcResponse2XML (.ptr (some (.struct fields))) = some (s, none)) ∧
    rpc2XML (.other k) omitEmpty = some ("", none) :=
  ⟨⟨_, rpc2XML_eq v omitEmpty⟩, ⟨_, rpcParams2XML_eq fields⟩, ⟨_, rpcRequest2XML_eq method fields⟩,
    ⟨_, rpcResponse2XML_eq fields⟩, rfl⟩

theorem rpc2XML_flag_same (v : GoValue) (h : specEmpty true v = false) :
    rpc2XML v true = rpc2XML v false := by
  cases v with
  | int n =>
    have hn : ¬ n = 0 := by simpa [specEmpty] using h
    simp [rpc2XML, int2XML, hn]
  | float64 f =>
    have hf : f.isZero = false := by simpa [specEmpty] using h
    simp [rpc2XML, double2XML, hf]
  | string s =>
    have hs : ¬ s = "" := by simpa [specEmpty] using h
    simp [rpc2XML, string2XML, hs]
  | bool b =>
    have hb : b = true := by simpa [specEmpty] using h
    subst hb
    rfl
  | struct fields => rw [rpc2XML, rpc2XML]
  | time t => rw [rpc2XML, rpc2XML]
  | slice items =>
    have hi : items.isEmpty = false := by simpa [specEmpty] using h
    rw [rpc2XML_slice, rpc2XML_slice, array2XML_text, array2XML_text]
    simp [hi]
  | bytes data => rw [rpc2XML, rpc2XML]
  | ptr p =>
    cases p with
    | none => simp [specEmpty] at h
    | some v => rw [rpc2XML, rpc2XML]
  | other k => simp [specEmpty] at h

/-- C19: with the flag set `rpc2XML` returns either empty text or what it
returns without the flag, and it is empty whenever the result without the
flag is. -/
theorem rpc2XML_flag_only_suppresses (v : GoValue) :
    (textOf (rpc2XML v true) = "" ∨ rpc2XML v true = rpc2XML v false) ∧
    (textOf (rpc2XML v false) = "" → textOf (rpc2XML v true) = "") := by
  have h1 : textOf (rpc2XML v true) = "" ∨ rpc2XML v true = rpc2XML v false := by
    cases h : specEmpty true v with
    | true => exact Or.inl ((rpc2XML_empty_iff v true).mpr h)
    | false => exact Or.inr (rpc2XML_flag_same v h)
  refine ⟨h1, fun h0 => ?_⟩
  rcases h1 with h | h
  · exact h
  · rw [h]
    exact h0

/-- C19, on a record without fields, empty without the flag and with it. -/
theorem rpc2XML_flag_only_suppresses_witness :
    textOf (rpc2XML (.struct []) false) = "" ∧ textOf (rpc2XML (.struct []) true) = "" :=
  ⟨rfl, (rpc2XML_flag_only_suppresses (.struct [])).2 rfl⟩

/-- C20: without the flag `rpc2XML` returns empty text or `<value>INNER</value>`
with `INNER` non-empty; it is empty exactly for a record without a surviving
field or a value of unsupported kind, reached through non-nil pointers; it is
non-empty on every integer, double, string, boolean, timestamp, byte
sequence, generic sequence and nil pointer. -/
theorem rpc2XML_empty_characterisation (v : GoValue) :
    (textOf (rpc2XML v false) = "" ∨
      ∃ inner, inner ≠ "" ∧ textOf (rpc2XML v false) = "<value>" ++ inner ++ "</value>") ∧
    (textOf (rpc2XML v false) = "" ↔ specEmpty false v = true) ∧
    (∀ n : Int, textOf (rpc2XML (.int n) false) ≠ "") ∧
    (∀ f : Float64, textOf (rpc2XML (.float64 f) false) ≠ "") ∧
    (∀ s : String, textOf (rpc2XML (.string s) false) ≠ "") ∧
    (∀ b : Bool, textOf (rpc2XML (.bool b) false) ≠ "") ∧
    (∀ t : Time, textOf (rpc2XML (.time t) false) ≠ "") ∧
    (∀ data : List Nat, textOf (rpc2XML (.bytes data) false) ≠ "") ∧
    (∀ items : List GoValue, textOf (rpc2XML (.slice items) false) ≠ "") ∧
    textOf (rpc2XML (.ptr none) false) ≠ "" := by
  refine ⟨rpc2XML_shape v false, rpc2XML_empty_iff v false, ?_, ?_, ?_, ?_, ?_, ?_, ?_, ?_⟩
  · intro n h
    rw [rpc2XML_empty_iff] at h
    simp [specEmpty] at h
  · intro f h
    rw [rpc2XML_empty_iff] at h
    simp [specEmpty] at h
  · intro s h
    rw [rpc2XML_empty_iff] at h
    simp [specEmpty] at h
  · intro b h
    rw [rpc2XML_empty_iff] at h
    simp [specEmpty] at h
  · intro t h
    rw [rpc2XML_empty_iff] at h
    simp [specEmpty] at h
  · intro d h
    rw [rpc2XML_empty_iff] at h
    simp [specEmpty] at h
  · intro xs h
    rw [rpc2XML_empty_iff] at h
    simp [specEmpty] at h
  · decide

/-! ## The XML reader on the encoder's markup -/

theorem takeWhile_append_stop (p : Char → Bool) (l : List Char) (a : Char) (r : List Char)
    (hl : ∀ x ∈ l, p x = true) (ha : p a = false) :
    (l ++ a :: r).takeWhile p = l := by
  induction l with
  | nil => simp [List.takeWhile, ha]
  | cons c cs ih =>
    have hc : p c = true := hl c (List.mem_cons_self _ _)
    simp only [List.cons_append, List.takeWhile_cons, hc, if_true]
    rw [ih (fun x hx => hl x (List.mem_cons_of_mem _ hx))]

theorem dropWhile_append_stop (p : Char → Bool) (l : List Char) (a : Char) (r : List Char)
    (hl : ∀ x ∈ l, p x = true) (ha : p a = false) :
    (l ++ a :: r).dropWhile p = a :: r := by
  induction l with
  | nil => simp [List.dropWhile, ha]
  | cons c cs ih =>
    have hc : p c = true := hl c (List.mem_cons_self _ _)
    simp only [List.cons_append, List.dropWhile_cons, hc, if_true]
    rw [ih (fun x hx => hl x (List.mem_cons_of_mem _ hx))]

theorem dropLiteral_append (p r : List Char) : dropLiteral p (p ++ r) = some r := by
  induction p with
  | nil => cases r <;> rfl
  | cons c cs ih => simp [dropLiteral, ih]

theorem ParsesTo_nil : ParsesTo [] [] [] :=
  ⟨1, fun fuel h => by
    cases fuel with
    | zero => omega
    | succ k => rfl⟩

theorem ParsesTo_close (x : List Char) : ParsesTo ('<' :: '/' :: x) [] ('<' :: '/' :: x) :=
  ⟨1, fun fuel h => by
    cases fuel with
    | zero => omega
    | succ k => simp [parseNodes]⟩

/-- A tag name without `>` and `/`. -/
theorem name_head (name : List Char) (hname : ∀ x ∈ name, (x != '>' && x != '/') = true)
    (a : Char) (ha : a ≠ '/') (r : List Char) : (name ++ a :: r).head? ≠ some '/' := by
  cases name with
  | nil => simpa using ha
  | cons c cs =>
    have hc := hname c (List.mem_cons_self _ _)
    simp only [Bool.and_eq_true, bne_iff_ne, ne_eq] at hc
    simpa using hc.2

theorem ParsesTo_elem (name body rest rest' : List Char) (kids sibs : List XmlNode)
    (hname : ∀ x ∈ name, (x != '>' && x != '/') = true)
    (hbody : ParsesTo (body ++ '<' :: '/' :: (name ++ '>' :: rest)) kids
      ('<' :: '/' :: (name ++ '>' :: rest)))
    (hrest : ParsesTo rest sibs rest') :
    ParsesTo ('<' :: (name ++ '>' :: (body ++ '<' :: '/' :: (name ++ '>' :: rest))))
      (.elem ⟨name⟩ kids :: sibs) rest' := by
  obtain ⟨n1, h1⟩ := hbody
  obtain ⟨n2, h2⟩ := hrest
  refine ⟨max n1 n2 + 1, fun fuel hf => ?_⟩
  cases fuel with
  | zero => omega
  | succ k =>
    have hk1 : n1 ≤ k := by omega
    have hk2 : n2 ≤ k := by omega
    have hstop : ('>' != '>' && '>' != '/') = false := by decide
    have hhead := name_head name hname '>' (by decide)
      (body ++ '<' :: '/' :: (name ++ '>' :: rest))
    have hlit : dropLiteral ('<' :: '/' :: name ++ ['>']) ('<' :: '/' :: (name ++ '>' :: rest))
        = some rest := by
      have e : '<' :: '/' :: (name ++ '>' :: rest) = ('<' :: '/' :: name ++ ['>']) ++ rest := by
        simp
      rw [e]
      exact dropLiteral_append _ _
    rw [parseNodes]
    simp only [if_true, hhead, if_false,
      takeWhile_append_stop _ name '>' _ hname hstop,
      dropWhile_append_stop _ name '>' _ hname hstop]
    simp only [show ¬ ('>' = '/') by decide, if_false, h1 k hk1, hlit, h2 k hk2]

theorem ParsesTo_selfClosed (c : Char) (cs rest rest' : List Char) (sibs : List XmlNode)
    (hname : ∀ x ∈ c :: cs, (x != '>' && x != '/') = true)
    (hrest : ParsesTo rest sibs rest') :
    ParsesTo ('<' :: ((c :: cs) ++ '/' :: '>' :: rest)) (.elem ⟨c :: cs⟩ [] :: sibs) rest' := by
  obtain ⟨n2, h2⟩ := hrest
  refine ⟨n2 + 1, fun fuel hf => ?_⟩
  cases fuel with
  | zero => omega
  | succ k =>
    have hk2 : n2 ≤ k := by omega
    have hstop : ('/' != '>' && '/' != '/') = false := by decide
    have hhead : ((c :: cs) ++ '/' :: '>' :: rest).head? ≠ some '/' := by
      have hc := hname c (List.mem_cons_self _ _)
      simp only [Bool.and_eq_true, bne_iff_ne, ne_eq] at hc
      simpa using hc.2
    have hlit : dropLiteral ['>'] ('>' :: rest) = some rest := dropLiteral_append ['>'] rest
    rw [parseNodes]
    simp only [if_true, hhead, if_false,
      takeWhile_append_stop _ (c :: cs) '/' _ hname hstop,
      dropWhile_append_stop _ (c :: cs) '/' _ hname hstop]
    simp only [if_true, hlit, h2 k hk2]

theorem ParsesTo_text (c : Char) (txt r rest' : List Char) (sibs : List XmlNode)
    (hc : c ≠ '<') (htxt : ∀ x ∈ txt, (x != '<') = true)
    (hrest : ParsesTo ('<' :: r) sibs rest') :
    ParsesTo (c :: (txt ++ '<' :: r)) (.text ⟨unescapeFrom 0 (c :: txt)⟩ :: sibs) rest' := by
  obtain ⟨n2, h2⟩ := hrest
  refine ⟨n2 + 1, fun fuel hf => ?_⟩
  cases fuel with
  | zero => omega
  | succ k =>
    have hk2 : n2 ≤ k := by omega
    have hstop : ('<' != '<') = false := by decide
    have hall : ∀ x ∈ c :: txt, (x != '<') = true := by
      intro x hx
      rcases List.mem_cons.mp hx with rfl | hx
      · simpa using hc
      · exact htxt x hx
    have e : c :: (txt ++ '<' :: r) = (c :: txt) ++ '<' :: r := rfl
    rw [parseNodes]
    simp only [hc, if_false]
    rw [e, takeWhile_append_stop _ (c :: txt) '<' r hall hstop,
      dropWhile_append_stop _ (c :: txt) '<' r hall hstop, h2 k hk2]


/-! ## The scalar parses on the encoder's texts -/

theorem unescapeFrom_plain (c : Char) (r : List Char) (hc : c ≠ '&') :
    unescapeFrom 0 (c :: r) = c :: unescapeFrom 0 r := by
  have h : ¬ ('&' = c) := fun e => hc e.symm
  simp [unescapeFrom, List.isPrefixOf, h]

theorem unescapeFrom_escapeChar (c : Char) (r : List Char) :
    unescapeFrom 0 (specEscapeChar c ++ r) = c :: unescapeFrom 0 r := by
  unfold specEscapeChar
  by_cases h1 : c = '&'
  · subst h1
    simp [unescapeFrom, List.isPrefixOf]
  · by_cases h2 : c = '"'
    · subst h2
      simp [unescapeFrom, List.isPrefixOf]
    · by_cases h3 : c = '<'
      · subst h3
        simp [unescapeFrom, List.isPrefixOf]
      · by_cases h4 : c = '>'
        · subst h4
          simp [unescapeFrom, List.isPrefixOf]
        · simp only [h1, h2, h3, h4, if_false, List.singleton_append]
          exact unescapeFrom_plain c r h1

theorem unescapeFrom_escape (s : List Char) :
    unescapeFrom 0 (s.flatMap specEscapeChar) = s := by
  induction s with
  | nil => rfl
  | cons c cs ih => rw [List.flatMap_cons, unescapeFrom_escapeChar, ih]

theorem unescapeFrom_noAmp (s : List Char) (h : ∀ x ∈ s, x ≠ '&') : unescapeFrom 0 s = s := by
  induction s with
  | nil => rfl
  | cons c cs ih =>
    rw [unescapeFrom_plain c cs (h c (List.mem_cons_self _ _)),
      ih (fun x hx => h x (List.mem_cons_of_mem _ hx))]

theorem specEscapeChar_noLt (c : Char) : ∀ x ∈ specEscapeChar c, (x != '<') = true := by
  unfold specEscapeChar
  by_cases h1 : c = '&'
  · simp [h1]
  · by_cases h2 : c = '"'
    · simp [h2]
    · by_cases h3 : c = '<'
      · simp [h3]
      · by_cases h4 : c = '>'
        · simp [h4]
        · simp [h1, h2, h3, h4]

theorem specEscape_noLt (s : String) : ∀ x ∈ (specEscape s).data, (x != '<') = true := by
  intro x hx
  simp only [specEscape, List.mem_flatMap] at hx
  obtain ⟨c, _, hc⟩ := hx
  exact specEscapeChar_noLt c x hc

theorem digitValue_digit (d : Nat) (h : d < 10) : digitValue (digit d) = some d := by
  interval_cases d <;> rfl

theorem digit_plain (d : Nat) :
    digit d ≠ '<' ∧ digit d ≠ '&' ∧ digit d ≠ '-' ∧ digit d ≠ '+' := by
  have h : d % 10 < 10 := Nat.mod_lt _ (by decide)
  rw [← digit_mod]
  generalize d % 10 = e at h
  interval_cases e <;> decide

theorem parseDigits_digits (ds : List Nat) (acc : Nat) (h : ∀ d ∈ ds, d < 10) :
    parseDigits (ds.map digit) acc = some (ds.foldl (fun a d => 10 * a + d) acc) := by
  induction ds generalizing acc with
  | nil => rfl
  | cons d rest ih =>
    rw [List.map_cons, parseDigits, digitValue_digit d (h d (List.mem_cons_self _ _))]
    exact ih _ (fun x hx => h x (List.mem_cons_of_mem _ hx))

theorem fmtD_digits (n : Int) :
    ∃ ds : List Nat, (∀ d ∈ ds, d < 10) ∧ ds ≠ [] ∧ decimalValue ds = n.natAbs ∧
      (fmtD n).data = (if n < 0 then ['-'] else []) ++ ds.map digit := by
  obtain ⟨ds, h1, _, h3, h4, h5⟩ := toDigits_decimal n.natAbs
  refine ⟨ds, h1, h3, h4, ?_⟩
  unfold fmtD
  by_cases hn : n < 0
  · simp only [hn, if_true, Nat.repr, h5]
    rfl
  · simp only [hn, if_false, Nat.repr, h5]
    rfl

theorem parseInt_fmtD (n : Int) : parseInt (fmtD n).data = some n := by
  obtain ⟨ds, h1, h3, h4, h5⟩ := fmtD_digits n
  rw [h5]
  have hp := parseDigits_digits ds 0 h1
  have hv : ds.foldl (fun a d => 10 * a + d) 0 = n.natAbs := h4
  rw [hv] at hp
  by_cases hn : n < 0
  · have hne : ds.map digit ≠ [] := by simpa using h3
    have hneg : -Int.ofNat n.natAbs = n := by
      have := Int.ofNat_natAbs_of_nonpos (Int.le_of_lt hn)
      simp only [Int.ofNat_eq_coe]
      omega
    simp only [hn, if_true, List.singleton_append, parseInt, hne, if_false, hp, Option.map_some',
      hneg]
  · cases ds with
    | nil => exact absurd rfl h3
    | cons d rest =>
      have hd := digit_plain d
      have hpos : Int.ofNat n.natAbs = n := by
        have := Int.natAbs_of_nonneg (Int.not_lt.mp hn)
        simp only [Int.ofNat_eq_coe]
        omega
      simp only [hn, if_false, List.nil_append, List.map_cons, parseInt, hd.2.2.1, hd.2.2.2]
      rw [List.map_cons] at hp
      rw [hp, Option.map_some', hpos]

theorem fmtD_plain (n : Int) : ∀ x ∈ (fmtD n).data, x ≠ '<' ∧ x ≠ '&' := by
  obtain ⟨ds, _, _, _, h5⟩ := fmtD_digits n
  rw [h5]
  intro x hx
  rcases List.mem_append.mp hx with hx | hx
  · by_cases hn : n < 0
    · simp only [hn, if_true, List.mem_singleton] at hx
      subst hx
      decide
    · simp [hn] at hx
  · obtain ⟨d, _, rfl⟩ := List.mem_map.mp hx
    exact ⟨(digit_plain d).1, (digit_plain d).2.1⟩

theorem fmtD_ne_nil (n : Int) : (fmtD n).data ≠ [] := by
  obtain ⟨ds, _, h3, _, h5⟩ := fmtD_digits n
  rw [h5]
  simp [h3]


theorem parseTime_specTimestamp (t : Time) (h : t.wireDetermined = true) :
    parseTime (specTimestamp t).data = some t := by
  obtain ⟨y, mo, d, hh, mi, s, ns, loc, mono⟩ := t
  simp only [Time.wireDetermined, decide_eq_true_eq] at h
  obtain ⟨h0, h1, h2, h3, h4, h5, h6, h7, h8, h9, h10, h11⟩ := h
  subst h9 h10 h11
  have dv : ∀ k : Nat, digitValue (digit k) = some (k % 10) := by
    intro k
    rw [← digit_mod]
    exact digitValue_digit _ (Nat.mod_lt _ (by decide))
  have hy : 10 * (10 * (10 * (10 * 0 + y.toNat / 1000 % 10) + y.toNat / 100 % 10) +
      y.toNat / 10 % 10) + y.toNat % 10 = y.toNat := by omega
  have hmo : 10 * (10 * 0 + mo / 10 % 10) + mo % 10 = mo := by omega
  have hd : 10 * (10 * 0 + d / 10 % 10) + d % 10 = d := by omega
  have hhh : 10 * (10 * 0 + hh / 10 % 10) + hh % 10 = hh := by omega
  have hmi : 10 * (10 * 0 + mi / 10 % 10) + mi % 10 = mi := by omega
  have hs : 10 * (10 * 0 + s / 10 % 10) + s % 10 = s := by omega
  have hyi : Int.ofNat y.toNat = y := by
    simp only [Int.ofNat_eq_coe]
    omega
  simp only [specTimestamp, parseTime, parseDigits, dv, hy, hmo, hd, hhh, hmi, hs, hyi,
    and_self, if_true, h2, h3, h4, h5, h6, h7, h8]

theorem base64Index_char (i : Nat) (h : i < 64) :
    base64Index (base64Char i) = some i ∧ base64Char i ≠ '=' ∧ base64Char i ≠ '<' ∧
      base64Char i ≠ '&' := by
  interval_cases i <;> decide

theorem base64Decode_chars :
    ∀ data : List Nat, (∀ b ∈ data, b < 256) → base64Decode (base64Chars data) = some data
  | [], _ => rfl
  | [a], h => by
      have ha : a < 256 := h a (by simp)
      have i1 := base64Index_char (a % 256 / 4) (by omega)
      have i2 := base64Index_char (a % 4 * 16) (by omega)
      simp [base64Chars, base64Decode, i1.1, i2.1]
      omega
  | [a, b], h => by
      have ha : a < 256 := h a (by simp)
      have hb : b < 256 := h b (by simp)
      have i1 := base64Index_char (a % 256 / 4) (by omega)
      have i2 := base64Index_char (a % 4 * 16 + b % 256 / 16) (by omega)
      have i3 := base64Index_char (b % 16 * 4) (by omega)
      have e1 : a % 256 / 4 * 4 + (a % 4 * 16 + b % 256 / 16) / 16 = a := by omega
      simp [base64Chars, base64Decode, i1.1, i2.1, i3.1, i3.2.1, e1]
      omega
  | a :: b :: c :: rest, h => by
      have ha : a < 256 := h a (by simp)
      have hb : b < 256 := h b (by simp)
      have hc : c < 256 := h c (by simp)
      have hrest : ∀ x ∈ rest, x < 256 := fun x hx => h x (by simp [hx])
      have i1 := base64Index_char (a % 256 / 4) (by omega)
      have i2 := base64Index_char (a % 4 * 16 + b % 256 / 16) (by omega)
      have i3 := base64Index_char (b % 16 * 4 + c % 256 / 64) (by omega)
      have i4 := base64Index_char (c % 64) (by omega)
      have e1 : a % 256 / 4 * 4 + (a % 4 * 16 + b % 256 / 16) / 16 = a := by omega
      have e2 : (a % 4 * 16 + b % 256 / 16) % 16 * 16 + (b % 16 * 4 + c % 256 / 64) / 4 = b := by
        omega
      have e3 : (b % 16 * 4 + c % 256 / 64) % 4 * 64 + c % 64 = c := by omega
      have ih := base64Decode_chars rest hrest
      simp [base64Chars, base64Decode, i1.1, i2.1, i3.1, i4.1, i3.2.1, i4.2.1, e1, e2, e3, ih]

theorem base64Chars_plain :
    ∀ data : List Nat, ∀ x ∈ base64Chars data, x ≠ '<' ∧ x ≠ '&'
  | [], x, hx => by simp [base64Chars] at hx
  | [a], x, hx => by
      have i1 := base64Index_char (a % 256 / 4) (by omega)
      have i2 := base64Index_char (a % 4 * 16) (by omega)
      simp only [base64Chars, List.mem_cons, List.mem_singleton, List.not_mem_nil, or_false] at hx
      rcases hx with rfl | rfl | rfl | rfl
      · exact i1.2.2
      · exact i2.2.2
      · decide
      · decide
  | [a, b], x, hx => by
      have i1 := base64Index_char (a % 256 / 4) (by omega)
      have i2 := base64Index_char (a % 4 * 16 + b % 256 / 16) (by omega)
      have i3 := base64Index_char (b % 16 * 4) (by omega)
      simp only [base64Chars, List.mem_cons, List.mem_singleton, List.not_mem_nil, or_false] at hx
      rcases hx with rfl | rfl | rfl | rfl
      · exact i1.2.2
      · exact i2.2.2
      · exact i3.2.2
      · decide
  | a :: b :: c :: rest, x, hx => by
      have i1 := base64Index_char (a % 256 / 4) (by omega)
      have i2 := base64Index_char (a % 4 * 16 + b % 256 / 16) (by omega)
      have i3 := base64Index_char (b % 16 * 4 + c % 256 / 64) (by omega)
      have i4 := base64Index_char (c % 64) (by omega)
      simp only [base64Chars, List.mem_cons] at hx
      rcases hx with rfl | rfl | rfl | rfl | hx
      · exact i1.2.2
      · exact i2.2.2
      · exact i3.2.2
      · exact i4.2.2
      · exact base64Chars_plain rest x hx

theorem specTimestamp_plain (t : Time) : ∀ x ∈ (specTimestamp t).data, x ≠ '<' ∧ x ≠ '&' := by
  intro x hx
  simp only [specTimestamp, List.mem_cons, List.mem_singleton, List.not_mem_nil, or_false] at hx
  have hdg := fun k => digit_plain k
  rcases hx with rfl | rfl | rfl | rfl | rfl | rfl | rfl | rfl | rfl | rfl | rfl | rfl | rfl | rfl |
    rfl | rfl | rfl <;> first | exact ⟨(hdg _).1, (hdg _).2.1⟩ | decide


/-! ## Markup of elements -/

theorem SibParses_nil : SibParses [] [] := fun _ _ _ h => h

theorem SibParses_append (s1 s2 : List Char) (n1 n2 : List XmlNode)
    (h1 : SibParses s1 n1) (h2 : SibParses s2 n2) : SibParses (s1 ++ s2) (n1 ++ n2) := by
  intro rest sibs rest' hr
  have := h1 _ _ _ (h2 _ _ _ hr)
  simpa only [List.append_assoc] using this

theorem cleanTag_mem (tag : String) (h : cleanTag tag = true) :
    ∀ x ∈ tag.data, (x != '>' && x != '/') = true := by
  simpa [cleanTag, List.all_eq_true] using h

theorem SibParses_elem (tag : String) (body : List Char) (kids : List XmlNode)
    (h : cleanTag tag = true) (hb : SibParses body kids) :
    SibParses (xmlElem tag body) [.elem tag kids] := by
  intro rest sibs rest' hr
  have hbody := hb ('<' :: '/' :: (tag.data ++ '>' :: rest)) [] _ (ParsesTo_close _)
  rw [List.append_nil] at hbody
  have := ParsesTo_elem tag.data body rest rest' kids sibs (cleanTag_mem tag h) hbody hr
  have e : xmlElem tag body ++ rest =
      '<' :: (tag.data ++ '>' :: (body ++ '<' :: '/' :: (tag.data ++ '>' :: rest))) := by
    simp [xmlElem]
  rw [e]
  exact this

theorem SibParses_textElem (tag : String) (txt : List Char)
    (h : cleanTag tag = true) (htxt : ∀ x ∈ txt, (x != '<') = true) :
    SibParses (xmlElem tag txt) [.elem tag (textKids txt)] := by
  intro rest sibs rest' hr
  have hbody : ParsesTo (txt ++ '<' :: '/' :: (tag.data ++ '>' :: rest)) (textKids txt)
      ('<' :: '/' :: (tag.data ++ '>' :: rest)) := by
    cases txt with
    | nil => exact ParsesTo_close _
    | cons c cs =>
      have hc : c ≠ '<' := by simpa using htxt c (List.mem_cons_self _ _)
      exact ParsesTo_text c cs _ _ [] hc (fun x hx => htxt x (List.mem_cons_of_mem _ hx))
        (ParsesTo_close _)
  have := ParsesTo_elem tag.data txt rest rest' (textKids txt) sibs (cleanTag_mem tag h) hbody hr
  have e : xmlElem tag txt ++ rest =
      '<' :: (tag.data ++ '>' :: (txt ++ '<' :: '/' :: (tag.data ++ '>' :: rest))) := by
    simp [xmlElem]
  rw [e]
  exact this

theorem SibParses_nilElem : SibParses "<nil/>".data [.elem "nil" []] := by
  intro rest sibs rest' hr
  exact ParsesTo_selfClosed 'n' ['i', 'l'] rest rest' sibs (by decide) hr

theorem nodeText_textKids (txt : List Char) :
    nodeText (textKids txt) = some ⟨unescapeFrom 0 txt⟩ := by
  cases txt <;> rfl

theorem nodeText_plain (txt : List Char) (h : ∀ x ∈ txt, x ≠ '&') :
    nodeText (textKids txt) = some ⟨txt⟩ := by
  rw [nodeText_textKids, unescapeFrom_noAmp txt h]


/-! ## The texts of the encoder as markup -/

theorem textOf_some (r : String × Option GoError) : textOf (some r) = r.1 := by
  cases r
  rfl

theorem rpc2XMLResult_data (out : String) (h : out ≠ "") :
    (rpc2XMLResult out).1.data = xmlElem "value" out.data := by
  simp [rpc2XMLResult, h, xmlElem]

theorem string2XML_false (s : String) :
    string2XML s false = "<string>" ++ specEscape s ++ "</string>" := by
  have h1 : ("&" : String) = ⟨['&']⟩ := rfl
  have h2 : ("\"" : String) = ⟨['"']⟩ := rfl
  have h3 : ("<" : String) = ⟨['<']⟩ := rfl
  have h4 : (">" : String) = ⟨['>']⟩ := rfl
  simp only [string2XML, Bool.false_and, Bool.false_eq_true, if_false]
  rw [h1, h2, h3, h4]
  simp only [stringsReplace_single, escape_passes, specEscape]

theorem time2XML_wireDetermined (t : Time) (h : t.wireDetermined = true) :
    time2XML t = "<dateTime.iso8601>" ++ specTimestamp t ++ "</dateTime.iso8601>" := by
  simp only [Time.wireDetermined, decide_eq_true_eq] at h
  obtain ⟨h0, h1, h2, h3, h4, h5, h6, h7, h8, _⟩ := h
  rw [time2XML, fmt0D_four t.Year h0 h1, fmt0D_two t.Month (by omega),
    fmt0D_two t.Day (by omega), fmt0D_two t.Hour (by omega), fmt0D_two t.Minute (by omega),
    fmt0D_two t.Second (by omega)]
  apply String.ext
  simp [specTimestamp, String.data_append]

theorem text_int (n : Int) :
    (textOf (rpc2XML (.int n) false)).data = xmlElem "value" (xmlElem "int" (fmtD n).data) := by
  have hne : int2XML n false ≠ "" := by
    rw [Ne, int2XML_eq_empty]
    simp
  rw [rpc2XML, textOf, rpc2XMLResult_data _ hne]
  simp [int2XML, xmlElem]

theorem text_string (s : String) :
    (textOf (rpc2XML (.string s) false)).data =
      xmlElem "value" (xmlElem "string" (specEscape s).data) := by
  have hne : string2XML s false ≠ "" := by
    rw [Ne, string2XML_eq_empty]
    simp
  rw [rpc2XML, textOf, rpc2XMLResult_data _ hne, string2XML_false]
  simp [xmlElem]

theorem text_bool (b : Bool) :
    (textOf (rpc2XML (.bool b) false)).data =
      xmlElem "value" (xmlElem "boolean" (if b then ['1'] else ['0'])) := by
  cases b <;> decide

theorem text_time (t : Time) (h : t.wireDetermined = true) :
    (textOf (rpc2XML (.time t) false)).data =
      xmlElem "value" (xmlElem "dateTime.iso8601" (specTimestamp t).data) := by
  rw [rpc2XML, textOf, rpc2XMLResult_data _ (time2XML_ne_empty t), time2XML_wireDetermined t h]
  simp [xmlElem]

theorem text_bytes (data : List Nat) :
    (textOf (rpc2XML (.bytes data) false)).data =
      xmlElem "value" (xmlElem "base64" (base64Chars data)) := by
  rw [rpc2XML, textOf, rpc2XMLResult_data _ (base642XML_ne_empty data)]
  simp [base642XML, base64EncodeToString, xmlElem]

theorem text_nil :
    (textOf (rpc2XML (.ptr none) false)).data = xmlElem "value" "<nil/>".data := by
  decide

theorem text_slice (items : List GoValue) :
    (textOf (rpc2XML (.slice items) false)).data =
      xmlElem "value" (xmlElem "array" (xmlElem "data"
        (concatText (items.map fun x => textOf (rpc2XML x false))).data)) := by
  have hne : "<array><data>" ++ concatText (items.map fun x => textOf (rpc2XML x false)) ++
      "</data></array>" ≠ "" := by
    rw [String.append_assoc]
    exact str_lit_append_ne_empty _ _ _
  rw [rpc2XML_slice, array2XML_text]
  simp only [Bool.false_and, Bool.false_eq_true, if_false, Option.map_some']
  rw [textOf_some, rpc2XMLResult_data _ hne]
  simp [xmlElem]

theorem text_struct (fields : List (StructField × GoValue))
    (h : specNoSurvivor fields = false) :
    (textOf (rpc2XML (.struct fields) false)).data =
      xmlElem "value" (xmlElem "struct" (concatText (fields.map specMember)).data) := by
  have hc : concatText (fields.map specMember) ≠ "" := by
    rw [Ne, members_empty_iff, h]
    exact Bool.false_ne_true
  have hne : "<struct>" ++ concatText (fields.map specMember) ++ "</struct>" ≠ "" := by
    rw [String.append_assoc]
    exact str_lit_append_ne_empty _ _ _
  rw [rpc2XML_struct_text, textOf, struct2XMLResult, if_neg hc, rpc2XMLResult_data _ hne]
  simp [xmlElem]

theorem text_member (f : StructField) (v : GoValue)
    (h : textOf (rpc2XML v (tagOf f).OmitEmpty) ≠ "") :
    (specMember (f, v)).data =
      xmlElem "member" (xmlElem "name" (exposedName f).data ++
        (textOf (rpc2XML v (tagOf f).OmitEmpty)).data) := by
  simp [specMember, h, exposedName, xmlElem]


/-! ## Targets -/

theorem specEmpty_false_of_true (v : GoValue) (h : specEmpty true v = false) :
    specEmpty false v = false := by
  cases v with
  | int n => simp [specEmpty]
  | float64 f => simp [specEmpty]
  | string s => simp [specEmpty]
  | bool b => simp [specEmpty]
  | struct fields => simpa [specEmpty] using h
  | time t => simp [specEmpty]
  | slice items => simp [specEmpty]
  | bytes data => simp [specEmpty]
  | ptr p =>
    cases p with
    | none => simp [specEmpty]
    | some w => simpa [specEmpty] using h
  | other k => simp [specEmpty] at h

mutual
theorem roundTrips_zero (pf : String → Option Float64) :
    ∀ (v : GoValue) (t : GoType) (o : Bool), roundTrips pf v t = true → specEmpty o v = true →
      v = t.zero
  | .int n, t, o, h, he => by
      cases t <;> simp [roundTrips] at h
      have hn : n = 0 := by
        simp only [specEmpty, Bool.and_eq_true, beq_iff_eq] at he
        exact he.2
      rw [hn, GoType.zero]
  | .float64 f, t, o, h, he => by
      cases t <;> simp [roundTrips] at h
      have hz : f.isZero = true := by
        simp only [specEmpty, Bool.and_eq_true] at he
        exact he.2
      rcases h.2 with h0 | h0
      · rw [h0] at hz
        exact absurd hz Bool.false_ne_true
      · rw [h0, GoType.zero]
  | .string s, t, o, h, he => by
      cases t <;> simp [roundTrips] at h
      have hs : s = "" := by
        simp only [specEmpty, Bool.and_eq_true, beq_iff_eq] at he
        exact he.2
      rw [hs, GoType.zero]
  | .bool b, t, o, h, he => by
      cases t <;> simp [roundTrips] at h
      have hb : b = false := by
        simp only [specEmpty, Bool.and_eq_true, Bool.not_eq_true'] at he
        exact he.2
      rw [hb, GoType.zero]
  | .struct fields, t, o, h, he => by
      cases t with
      | struct types =>
        simp only [roundTrips, Bool.and_eq_true] at h
        rw [specEmpty] at he
        rw [GoType.zero, fields_zero pf fields types h.1 he]
      | _ => simp [roundTrips] at h
  | .time x, t, o, h, he => by simp [specEmpty] at he
  | .slice items, t, o, h, he => by
      cases t <;> simp [roundTrips] at h
      have hi : items = [] := by
        simp only [specEmpty, Bool.and_eq_true, List.isEmpty_iff] at he
        exact he.2
      exact absurd hi h.1
  | .bytes data, t, o, h, he => by simp [specEmpty] at he
  | .ptr none, t, o, h, he => by
      cases t <;> simp [roundTrips] at h
      rw [GoType.zero]
  | .ptr (some w), t, o, h, he => by
      cases t <;> simp [roundTrips] at h
  | .other k, t, o, h, he => by
      cases t <;> simp [roundTrips] at h
theorem fields_zero (pf : String → Option Float64) :
    ∀ (fields : List (StructField × GoValue)) (types : List (StructField × GoType)),
      fieldsRoundTrip pf fields types = true → specNoSurvivor fields = true →
      fields = zeroFields types
  | [], [], _, _ => rfl
  | [], _ :: _, h, _ => by simp [fieldsRoundTrip] at h
  | _ :: _, [], h, _ => by simp [fieldsRoundTrip] at h
  | (f, v) :: rest, (g, t) :: types, h, he => by
      simp only [fieldsRoundTrip, Bool.and_eq_true, decide_eq_true_eq] at h
      simp only [specNoSurvivor, Bool.and_eq_true] at he
      obtain ⟨⟨hfg, hv⟩, hrest⟩ := h
      rw [zeroFields, ← hfg, ← roundTrips_zero pf v t _ hv he.1,
        ← fields_zero pf rest types hrest he.2]
end

theorem findField_append (p : StructField → Bool) (preT : List (StructField × GoType))
    (f : StructField) (t : GoType) (rest : List (StructField × GoType))
    (hpre : ∀ g ∈ preT, p g.1 = false) (hf : p f = true) :
    findField p (preT ++ (f, t) :: rest) = some preT.length := by
  induction preT with
  | nil => simp [findField, hf]
  | cons g gs ih =>
    obtain ⟨gf, gt⟩ := g
    have hg : p gf = false := hpre (gf, gt) (List.mem_cons_self _ _)
    simp [findField, hg, ih (fun x hx => hpre x (List.mem_cons_of_mem _ hx))]

theorem fieldType_append (preT : List (StructField × GoType)) (f : StructField) (t : GoType)
    (rest : List (StructField × GoType)) :
    fieldType (preT ++ (f, t) :: rest) preT.length = some t := by
  induction preT with
  | nil => rfl
  | cons g gs ih =>
    rw [fieldType] at ih ⊢
    rw [List.cons_append, List.length_cons, List.get?_cons_succ]
    exact ih

theorem setField_append (pre : List (StructField × GoValue)) (f : StructField) (w v : GoValue)
    (tail : List (StructField × GoValue)) :
    setField (pre ++ (f, w) :: tail) pre.length v = pre ++ (f, v) :: tail := by
  induction pre with
  | nil => rfl
  | cons g gs ih =>
    obtain ⟨gf, gv⟩ := g
    simp [setField, ih]

theorem resolveField_append (preT : List (StructField × GoType)) (f : StructField) (t : GoType)
    (rest : List (StructField × GoType))
    (h : namesDistinct (preT ++ (f, t) :: rest) = true) :
    resolveField (exposedName f) (preT ++ (f, t) :: rest) = some preT.length := by
  have hnd : ((preT ++ (f, t) :: rest).map fun g => exposedName g.1).Nodup := by
    simp only [namesDistinct, Bool.and_eq_true, decide_eq_true_eq] at h
    exact h.2
  rw [List.map_append, List.map_cons, List.nodup_append] at hnd
  have hpre : ∀ g ∈ preT, (decide (exposedName g.1 = exposedName f)) = false := by
    intro g hg
    rw [decide_eq_false_iff_not]
    intro e
    exact hnd.2.2 (List.mem_map_of_mem (fun g => exposedName g.1) hg)
      (by rw [e]; exact List.mem_cons_self _ _)
  rw [resolveField, findField_append (fun g => decide (exposedName g = exposedName f)) preT f t rest
    hpre (by simp)]

theorem namesDistinct_plain (preT : List (StructField × GoType)) (f : StructField) (t : GoType)
    (rest : List (StructField × GoType))
    (h : namesDistinct (preT ++ (f, t) :: rest) = true) :
    ∀ x ∈ (exposedName f).data, x ≠ '<' ∧ x ≠ '&' := by
  simp only [namesDistinct, Bool.and_eq_true, List.all_eq_true] at h
  have hp := h.1 (exposedName f) (by simp)
  simp only [plainText, List.all_eq_true, Bool.and_eq_true, bne_iff_ne, ne_eq] at hp
  exact hp


/-! ## Decoding what was encoded -/

theorem concatText_cons_data (x : String) (xs : List String) :
    (concatText (x :: xs)).data = x.data ++ (concatText xs).data := by
  simp [concatText]

theorem natRepr_plain (n : Nat) : ∀ x ∈ (Nat.repr n).data, x ≠ '<' ∧ x ≠ '&' := by
  obtain ⟨ds, _, _, _, _, h5⟩ := toDigits_decimal n
  intro x hx
  have hx2 : x ∈ ds.map digit := by
    rw [← h5]
    exact hx
  obtain ⟨d, _, rfl⟩ := List.mem_map.mp hx2
  exact ⟨(digit_plain d).1, (digit_plain d).2.1⟩

theorem zeroPad_plain (w n : Nat) : ∀ x ∈ (zeroPad w (Nat.repr n)).data, x ≠ '<' ∧ x ≠ '&' := by
  intro x hx
  simp only [zeroPad, String.data_append, List.mem_append, List.mem_replicate] at hx
  rcases hx with hx | hx
  · rw [hx.2]
    decide
  · exact natRepr_plain n x hx

theorem fmtF_plain (f : Float64) : ∀ x ∈ (fmtF f).data, x ≠ '<' ∧ x ≠ '&' := by
  intro x hx
  cases f with
  | nan =>
    revert x
    decide
  | inf neg =>
    revert x
    cases neg <;> decide
  | finite neg m e =>
    simp only [fmtF, String.data_append, List.mem_append] at hx
    rcases hx with ((hx | hx) | hx) | hx
    · revert x
      cases neg <;> decide
    · exact natRepr_plain _ x hx
    · revert x
      decide
    · exact zeroPad_plain 6 _ x hx

theorem text_double (f : Float64) :
    (textOf (rpc2XML (.float64 f) false)).data =
      xmlElem "value" (xmlElem "double" (fmtF f).data) := by
  have hne : double2XML f false ≠ "" := by
    rw [Ne, double2XML_eq_empty]
    simp
  rw [rpc2XML, textOf, rpc2XMLResult_data _ hne]
  simp [double2XML, xmlElem]

mutual
theorem decodeValue_encoded (pf : String → Option Float64) :
    ∀ (v : GoValue) (t : GoType), roundTrips pf v t = true → specEmpty false v = false →
      ∃ node, SibParses (textOf (rpc2XML v false)).data [node] ∧
        decodeValue pf t node = some (v, false)
  | .int n, t, h, _ => by
      cases t <;> simp [roundTrips] at h
      refine ⟨.elem "value" [.elem "int" (textKids (fmtD n).data)], ?_, ?_⟩
      · rw [text_int]
        exact SibParses_elem "value" _ _ (by decide)
          (SibParses_textElem "int" _ (by decide) (fun x hx => by simpa using (fmtD_plain n x hx).1))
      · simp [decodeValue, decodeScalar, nodeText_plain _ (fun x hx => (fmtD_plain n x hx).2),
          parseInt_fmtD]
  | .float64 f, t, h, _ => by
      cases t <;> simp [roundTrips] at h
      refine ⟨.elem "value" [.elem "double" (textKids (fmtF f).data)], ?_, ?_⟩
      · rw [text_double]
        exact SibParses_elem "value" _ _ (by decide)
          (SibParses_textElem "double" _ (by decide)
            (fun x hx => by simpa using (fmtF_plain f x hx).1))
      · have hs : (⟨(fmtF f).data⟩ : String) = fmtF f := rfl
        simp [decodeValue, decodeScalar, nodeText_plain _ (fun x hx => (fmtF_plain f x hx).2),
          hs, h.1.2]
  | .string s, t, h, _ => by
      cases t <;> simp [roundTrips] at h
      refine ⟨.elem "value" [.elem "string" (textKids (specEscape s).data)], ?_, ?_⟩
      · rw [text_string]
        exact SibParses_elem "value" _ _ (by decide)
          (SibParses_textElem "string" _ (by decide) (specEscape_noLt s))
      · have hu : unescapeFrom 0 (specEscape s).data = s.data := unescapeFrom_escape s.data
        simp [decodeValue, decodeScalar, nodeText_textKids, hu]
  | .bool b, t, h, _ => by
      cases t <;> simp [roundTrips] at h
      refine ⟨.elem "value" [.elem "boolean" (textKids (if b then ['1'] else ['0']))], ?_, ?_⟩
      · rw [text_bool]
        exact SibParses_elem "value" _ _ (by decide)
          (SibParses_textElem "boolean" _ (by decide) (by cases b <;> decide))
      · cases b <;> rfl
  | .struct fields, t, h, he => by
      cases t with
      | struct types =>
        simp only [roundTrips, Bool.and_eq_true] at h
        have hs : specNoSurvivor fields = false := by simpa [specEmpty] using he
        obtain ⟨nodes, hp, hd⟩ :=
          decodeMembers_encoded pf fields types h.1 types [] [] rfl rfl h.2
        refine ⟨.elem "value" [.elem "struct" nodes], ?_, ?_⟩
        · rw [text_struct fields hs]
          exact SibParses_elem "value" _ _ (by decide) (SibParses_elem "struct" _ _ (by decide) hp)
        · have := hd false
          simp only [List.nil_append] at this
          simp [decodeValue, this]
      | _ => simp [roundTrips] at h
  | .time x, t, h, _ => by
      cases t <;> simp [roundTrips] at h
      refine ⟨.elem "value" [.elem "dateTime.iso8601" (textKids (specTimestamp x).data)], ?_, ?_⟩
      · rw [text_time x h]
        exact SibParses_elem "value" _ _ (by decide)
          (SibParses_textElem "dateTime.iso8601" _ (by decide)
            (fun c hc => by simpa using (specTimestamp_plain x c hc).1))
      · simp [decodeValue, decodeScalar,
          nodeText_plain _ (fun c hc => (specTimestamp_plain x c hc).2),
          parseTime_specTimestamp x h]
  | .slice items, t, h, _ => by
      cases t with
      | slice elemType =>
        simp only [roundTrips, Bool.and_eq_true] at h
        obtain ⟨nodes, hp, hd⟩ := decodeItems_encoded pf items elemType h.2
        refine ⟨.elem "value" [.elem "array" [.elem "data" nodes]], ?_, ?_⟩
        · rw [text_slice]
          exact SibParses_elem "value" _ _ (by decide)
            (SibParses_elem "array" _ _ (by decide) (SibParses_elem "data" _ _ (by decide) hp))
        · simp [decodeValue, hd]
      | _ => simp [roundTrips] at h
  | .bytes data, t, h, _ => by
      cases t <;> simp [roundTrips] at h
      refine ⟨.elem "value" [.elem "base64" (textKids (base64Chars data))], ?_, ?_⟩
      · rw [text_bytes]
        exact SibParses_elem "value" _ _ (by decide)
          (SibParses_textElem "base64" _ (by decide)
            (fun c hc => by simpa using (base64Chars_plain data c hc).1))
      · simp [decodeValue, decodeScalar,
          nodeText_plain _ (fun c hc => (base64Chars_plain data c hc).2),
          base64Decode_chars data h.2]
  | .ptr none, t, h, _ => by
      cases t <;> simp [roundTrips] at h
      refine ⟨.elem "value" [.elem "nil" []], ?_, ?_⟩
      · rw [text_nil]
        exact SibParses_elem "value" _ _ (by decide) SibParses_nilElem
      · simp [decodeValue]
  | .ptr (some w), t, h, _ => by
      cases t <;> simp [roundTrips] at h
  | .other k, t, h, _ => by
      cases t <;> simp [roundTrips] at h
theorem decodeItems_encoded (pf : String → Option Float64) :
    ∀ (items : List GoValue) (elemType : GoType), itemsRoundTrip pf items elemType = true →
      ∃ nodes, SibParses (concatText (items.map fun x => textOf (rpc2XML x false))).data nodes ∧
        decodeItems pf elemType nodes = some (items, false)
  | [], _, _ => ⟨[], SibParses_nil, rfl⟩
  | x :: rest, elemType, h => by
      simp only [itemsRoundTrip, Bool.and_eq_true, Bool.not_eq_true'] at h
      obtain ⟨⟨hx, hxe⟩, hrest⟩ := h
      obtain ⟨node, hp, hd⟩ := decodeValue_encoded pf x elemType hx hxe
      obtain ⟨nodes, hps, hds⟩ := decodeItems_encoded pf rest elemType hrest
      refine ⟨node :: nodes, ?_, ?_⟩
      · rw [List.map_cons, concatText_cons_data]
        exact SibParses_append _ _ [node] nodes hp hps
      · simp [decodeItems, hd, hds]
theorem decodeMembers_encoded (pf : String → Option Float64) :
    ∀ (suf : List (StructField × GoValue)) (sufT : List (StructField × GoType)),
      fieldsRoundTrip pf suf sufT = true →
      ∀ (allT : List (StructField × GoType)) (pre : List (StructField × GoValue))
        (preT : List (StructField × GoType)),
        allT = preT ++ sufT → preT.length = pre.length → namesDistinct allT = true →
        ∃ nodes, SibParses (concatText (suf.map specMember)).data nodes ∧
          ∀ failed, decodeMembers pf allT nodes (pre ++ zeroFields sufT) failed =
            (pre ++ suf, failed)
  | [], [], _, allT, pre, preT, _, _, _ =>
      ⟨[], SibParses_nil, fun failed => by simp [decodeMembers, zeroFields]⟩
  | [], _ :: _, h, _, _, _, _, _, _ => by simp [fieldsRoundTrip] at h
  | _ :: _, [], h, _, _, _, _, _, _ => by simp [fieldsRoundTrip] at h
  | (f, v) :: rest, (g, t) :: types, h, allT, pre, preT, hall, hlen, hnames => by
      simp only [fieldsRoundTrip, Bool.and_eq_true, decide_eq_true_eq] at h
      obtain ⟨⟨hfg, hv⟩, hrest⟩ := h
      subst hfg
      have hall' : allT = (preT ++ [(f, t)]) ++ types := by simp [hall]
      have hlen' : (preT ++ [(f, t)]).length = (pre ++ [(f, v)]).length := by simp [hlen]
      obtain ⟨nodes, hps, hds⟩ :=
        decodeMembers_encoded pf rest types hrest allT (pre ++ [(f, v)]) (preT ++ [(f, t)])
          hall' hlen' hnames
      cases hem : specEmpty (tagOf f).OmitEmpty v with
      | true =>
        have hz : v = t.zero := roundTrips_zero pf v t _ hv hem
        have hm : specMember (f, v) = "" :=
          (specMember_eq_empty (f, v)).mpr ((rpc2XML_empty_iff v _).mpr hem)
        refine ⟨nodes, ?_, ?_⟩
        · rw [List.map_cons, concatText_cons_data, hm]
          exact hps
        · intro failed
          have := hds failed
          rw [zeroFields, ← hz]
          simpa only [List.append_assoc, List.singleton_append] using this
      | false =>
        have hef : specEmpty false v = false := by
          cases ho : (tagOf f).OmitEmpty with
          | true =>
            rw [ho] at hem
            exact specEmpty_false_of_true v hem
          | false =>
            rw [ho] at hem
            exact hem
        have htext : rpc2XML v (tagOf f).OmitEmpty = rpc2XML v false := by
          cases ho : (tagOf f).OmitEmpty with
          | true =>
            rw [ho] at hem
            exact rpc2XML_flag_same v hem
          | false => rfl
        have hne : textOf (rpc2XML v (tagOf f).OmitEmpty) ≠ "" := by
          rw [Ne, rpc2XML_empty_iff, hem]
          exact Bool.false_ne_true
        obtain ⟨node, hp, hd⟩ := decodeValue_encoded pf v t hv hef
        have hplain := namesDistinct_plain preT f t types (hall ▸ hnames)
        refine ⟨.elem "member" [.elem "name" (textKids (exposedName f).data), node] :: nodes,
          ?_, ?_⟩
        · rw [List.map_cons, concatText_cons_data, text_member f v hne, htext]
          exact SibParses_append _ _ [_] nodes
            (SibParses_elem "member" _ _ (by decide)
              (SibParses_append _ _ [_] [node]
                (SibParses_textElem "name" _ (by decide)
                  (fun c hc => by simpa using (hplain c hc).1))
                hp))
            hps
        · intro failed
          have hres := resolveField_append preT f t types (hall ▸ hnames)
          have hty := fieldType_append preT f t types
          have hset := setField_append pre f t.zero v (zeroFields types)
          rw [← hall] at hres hty
          rw [hlen] at hres hty
          have := hds failed
          rw [decodeMembers]
          simp only [and_self, if_true, nodeText_plain _ (fun c hc => (hplain c hc).2),
            Option.some_bind, hres, hty, hd, zeroFields, hset, Bool.or_false]
          simpa only [List.append_assoc, List.singleton_append] using this
end


theorem text_param (f : StructField × GoValue) :
    (specParam f).data = xmlElem "param" (textOf (rpc2XML f.2 false)).data := by
  simp [specParam, xmlElem]

theorem decodeParams_encoded (pf : String → Option Float64) :
    ∀ (suf : List (StructField × GoValue)) (sufT : List (StructField × GoType)),
      fieldsRoundTrip pf suf sufT = true → (suf.all fun f => !specEmpty false f.2) = true →
      ∀ (allT : List (StructField × GoType)) (pre : List (StructField × GoValue))
        (preT : List (StructField × GoType)),
        allT = preT ++ sufT → preT.length = pre.length →
        ∃ nodes, SibParses (concatText (suf.map specParam)).data nodes ∧
          ∀ failed, decodeParams pf allT nodes pre.length (pre ++ zeroFields sufT) failed =
            (pre ++ suf, failed)
  | [], [], _, _, allT, pre, preT, _, _ =>
      ⟨[], SibParses_nil, fun failed => by simp [decodeParams, zeroFields]⟩
  | [], _ :: _, h, _, _, _, _, _, _ => by simp [fieldsRoundTrip] at h
  | _ :: _, [], h, _, _, _, _, _, _ => by simp [fieldsRoundTrip] at h
  | (f, v) :: rest, (g, t) :: types, h, hne, allT, pre, preT, hall, hlen => by
      simp only [fieldsRoundTrip, Bool.and_eq_true, decide_eq_true_eq] at h
      obtain ⟨⟨hfg, hv⟩, hrest⟩ := h
      subst hfg
      simp only [List.all_cons, Bool.and_eq_true, Bool.not_eq_true'] at hne
      have hall' : allT = (preT ++ [(f, t)]) ++ types := by simp [hall]
      have hlen' : (preT ++ [(f, t)]).length = (pre ++ [(f, v)]).length := by simp [hlen]
      obtain ⟨nodes, hps, hds⟩ :=
        decodeParams_encoded pf rest types hrest hne.2 allT (pre ++ [(f, v)]) (preT ++ [(f, t)])
          hall' hlen'
      obtain ⟨node, hp, hd⟩ := decodeValue_encoded pf v t hv hne.1
      refine ⟨.elem "param" [node] :: nodes, ?_, ?_⟩
      · rw [List.map_cons, concatText_cons_data, text_param]
        exact SibParses_append _ _ [_] nodes (SibParses_elem "param" _ _ (by decide) hp) hps
      · intro failed
        have hty := fieldType_append preT f t types
        have hset := setField_append pre f t.zero v (zeroFields types)
        rw [← hall, hlen] at hty
        have := hds failed
        simp only [decodeParams, hty, if_true, hd, zeroFields, hset, Bool.or_false]
        simpa only [List.append_assoc, List.singleton_append, List.length_append,
          List.length_singleton] using this

theorem text_response (fields : List (StructField × GoValue)) :
    (textOf (rpcResponse2XML (.ptr (some (.struct fields))))).data =
      xmlElem "methodResponse" (xmlElem "params" (concatText (fields.map specParam)).data) := by
  rw [rpcResponse2XML_eq, textOf]
  simp [xmlElem]

theorem text_request (method : String) (fields : List (StructField × GoValue)) :
    (textOf (rpcRequest2XML method (.ptr (some (.struct fields))))).data =
      xmlElem "methodCall" (xmlElem "methodName" method.data ++
        xmlElem "params" (concatText (fields.map specParam)).data) := by
  rw [rpcRequest2XML_eq, textOf]
  simp [xmlElem]

/-- C15, as amended: for a parameter record of integers, strings, booleans,
nil pointers, doubles that the float parse gives back from their printed text,
timestamps with a year from 0 to 9999, no nanoseconds and the local location,
non-empty sequences of bytes, non-empty sequences and records of these,
decoding the text of its response, or of its request, into a fresh target of
the same type gives the record back without error, once the bound on the
nesting is large enough. -/
theorem xml2RPC_roundTrip (pf : String → Option Float64) (method : String)
    (fields : List (StructField × GoValue)) (types : List (StructField × GoType))
    (h : paramsRoundTrip pf fields types = true) (hm : ∀ c ∈ method.data, c ≠ '<') :
    ∃ n, ∀ fuel, n ≤ fuel →
      xml2RPC pf fuel (textOf (rpcResponse2XML (.ptr (some (.struct fields))))) types
        (zeroFields types) = (fields, none) ∧
      xml2RPC pf fuel (textOf (rpcRequest2XML method (.ptr (some (.struct fields))))) types
        (zeroFields types) = (fields, none) := by
  simp only [paramsRoundTrip, Bool.and_eq_true] at h
  obtain ⟨nodes, hp, hd⟩ := decodeParams_encoded pf fields types h.1 h.2 types [] [] rfl rfl
  have hdec := hd false
  simp only [List.nil_append, List.length_nil] at hdec
  have hresp : SibParses (textOf (rpcResponse2XML (.ptr (some (.struct fields))))).data
      [.elem "methodResponse" [.elem "params" nodes]] := by
    rw [text_response]
    exact SibParses_elem "methodResponse" _ _ (by decide)
      (SibParses_elem "params" _ _ (by decide) hp)
  have hreq : SibParses (textOf (rpcRequest2XML method (.ptr (some (.struct fields))))).data
      [.elem "methodCall" [.elem "methodName" (textKids method.data), .elem "params" nodes]] := by
    rw [text_request]
    exact SibParses_elem "methodCall" _ _ (by decide)
      (SibParses_append _ _ [_] [_]
        (SibParses_textElem "methodName" _ (by decide) (fun c hc => by simpa using hm c hc))
        (SibParses_elem "params" _ _ (by decide) hp))
  obtain ⟨n1, h1⟩ := hresp [] [] [] ParsesTo_nil
  obtain ⟨n2, h2⟩ := hreq [] [] [] ParsesTo_nil
  simp only [List.append_nil] at h1 h2
  have s1 : skipDeclaration (textOf (rpcResponse2XML (.ptr (some (.struct fields))))).data =
      (textOf (rpcResponse2XML (.ptr (some (.struct fields))))).data := by
    rw [text_response]
    simp [skipDeclaration, xmlElem, List.isPrefixOf]
  have s2 : skipDeclaration
      (textOf (rpcRequest2XML method (.ptr (some (.struct fields))))).data =
      (textOf (rpcRequest2XML method (.ptr (some (.struct fields))))).data := by
    rw [text_request]
    simp [skipDeclaration, xmlElem, List.isPrefixOf]
  refine ⟨max n1 n2, fun fuel hf => ⟨?_, ?_⟩⟩
  · rw [xml2RPC, s1, h1 fuel (by omega)]
    simp [findElem, hdec]
  · rw [xml2RPC, s2, h2 fuel (by omega)]
    simp [findElem, hdec]

/-- C15, on the record of `TestRPC2XML` and `TestXML2RPC`, with its double
3.145926, and the float parse `parseFloat64`. -/
theorem xml2RPC_roundTrip_witness :
    paramsRoundTrip parseFloat64 testRPC2XMLFields testRPC2XMLTypes = true ∧
    ∃ n, ∀ fuel, n ≤ fuel →
      xml2RPC parseFloat64 fuel
        (textOf (rpcResponse2XML (.ptr (some (.struct testRPC2XMLFields))))) testRPC2XMLTypes
        (zeroFields testRPC2XMLTypes) = (testRPC2XMLFields, none) ∧
      xml2RPC parseFloat64 fuel
        (textOf (rpcRequest2XML "Some.Method" (.ptr (some (.struct testRPC2XMLFields)))))
        testRPC2XMLTypes (zeroFields testRPC2XMLTypes) = (testRPC2XMLFields, none) :=
  ⟨by decide,
    xml2RPC_roundTrip parseFloat64 "Some.Method" testRPC2XMLFields testRPC2XMLTypes (by decide)
      (by decide)⟩

set_option exponentiation.threshold 2000 in
/-- C15 fails as stated, on the encoder alone. The smallest positive double
and the double 0 have the same encoding, `<double>0.000000</double>`; the
timestamp of `TestRPC2XML`, the same with 123456789 nanoseconds and the same
in UTC have the same encoding, `20120717T14:08:55`. So no float parse and no
bound make the decoder return both doubles, or two of the timestamps, from the
texts of their encodings. -/
theorem xml2RPC_values_lost :
    (rpcResponse2XML (.ptr (some (.struct [untagged "Double" (.float64 smallestNonzeroFloat64)]))) =
      some ("<methodResponse><params><param><value><double>0.000000</double></value></param></params></methodResponse>",
        none) ∧
    rpcResponse2XML (.ptr (some (.struct [untagged "Double" (.float64 (.finite false 0 0))]))) =
      some ("<methodResponse><params><param><value><double>0.000000</double></value></param></params></methodResponse>",
        none) ∧
    ∀ (pf : String → Option Float64) (fuel : Nat),
      ¬ (xml2RPC pf fuel
          (textOf (rpcResponse2XML
            (.ptr (some (.struct [untagged "Double" (.float64 smallestNonzeroFloat64)])))))
          [(⟨"Double", ""⟩, .float64)] (zeroFields [(⟨"Double", ""⟩, .float64)]) =
            ([untagged "Double" (.float64 smallestNonzeroFloat64)], none) ∧
        xml2RPC pf fuel
          (textOf (rpcResponse2XML
            (.ptr (some (.struct [untagged "Double" (.float64 (.finite false 0 0))])))))
          [(⟨"Double", ""⟩, .float64)] (zeroFields [(⟨"Double", ""⟩, .float64)]) =
            ([untagged "Double" (.float64 (.finite false 0 0))], none))) ∧
    (∀ t ∈ [testTime, testTimeNanos, testTimeUTC],
      rpcResponse2XML (.ptr (some (.struct [untagged "Time" (.time t)]))) =
        some ("<methodResponse><params><param><value><dateTime.iso8601>20120717T14:08:55</dateTime.iso8601></value></param></params></methodResponse>",
          none)) ∧
    ∀ (pf : String → Option Float64) (fuel : Nat),
      ∀ t ∈ [testTimeNanos, testTimeUTC],
        ¬ (xml2RPC pf fuel
            (textOf (rpcResponse2XML (.ptr (some (.struct [untagged "Time" (.time testTime)])))))
            [(⟨"Time", ""⟩, .time)] (zeroFields [(⟨"Time", ""⟩, .time)]) =
              ([untagged "Time" (.time testTime)], none) ∧
          xml2RPC pf fuel
            (textOf (rpcResponse2XML (.ptr (some (.struct [untagged "Time" (.time t)])))))
            [(⟨"Time", ""⟩, .time)] (zeroFields [(⟨"Time", ""⟩, .time)]) =
              ([untagged "Time" (.time t)], none)) := by
  have e1 : rpcResponse2XML
      (.ptr (some (.struct [untagged "Double" (.float64 smallestNonzeroFloat64)]))) =
      some ("<methodResponse><params><param><value><double>0.000000</double></value></param></params></methodResponse>",
        none) := by decide
  have e2 : rpcResponse2XML
      (.ptr (some (.struct [untagged "Double" (.float64 (.finite false 0 0))]))) =
      some ("<methodResponse><params><param><value><double>0.000000</double></value></param></params></methodResponse>",
        none) := by decide
  have e3 : ∀ t ∈ [testTime, testTimeNanos, testTimeUTC],
      rpcResponse2XML (.ptr (some (.struct [untagged "Time" (.time t)]))) =
        some ("<methodResponse><params><param><value><dateTime.iso8601>20120717T14:08:55</dateTime.iso8601></value></param></params></methodResponse>",
          none) := by decide
  refine ⟨⟨e1, e2, fun pf fuel h => ?_⟩, e3, fun pf fuel t ht h => ?_⟩
  · obtain ⟨h1, h2⟩ := h
    rw [e1] at h1
    rw [e2] at h2
    rw [h1] at h2
    simp [untagged, smallestNonzeroFloat64] at h2
  · obtain ⟨h1, h2⟩ := h
    have ht3 : t ∈ [testTime, testTimeNanos, testTimeUTC] := List.mem_cons_of_mem _ ht
    rw [e3 testTime (List.mem_cons_self _ _)] at h1
    rw [e3 t ht3] at h2
    rw [h1] at h2
    simp only [List.mem_cons, List.mem_singleton, List.not_mem_nil, or_false] at ht
    rcases ht with rfl | rfl <;> simp [untagged, testTime, testTimeNanos, testTimeUTC] at h2

set_option exponentiation.threshold 2000 in
/-- The float parse on texts of the encoder and of the tests: the double of
`TestRPC2XML` comes back from its text `3.145926`, as -2.5 and an infinity do
from theirs; `5E-324`, the text of `TestXML2RPCTags`, is the smallest positive
double, which does not come back from its text `0.000000`; a number above the
largest double and a text that is no number are errors. -/
theorem parseFloat64_examples :
    fmtF (.finite false 7083995580667577 (-51)) = "3.145926" ∧
    parseFloat64 "3.145926" = some (.finite false 7083995580667577 (-51)) ∧
    parseFloat64 "5E-324" = some smallestNonzeroFloat64 ∧
    parseFloat64 (fmtF smallestNonzeroFloat64) = some (.finite false 0 0) ∧
    parseFloat64 (fmtF (.finite true 5629499534213120 (-51))) =
      some (.finite true 5629499534213120 (-51)) ∧
    parseFloat64 (fmtF (.inf false)) = some (.inf false) ∧
    parseFloat64 "1.7976931348623159e308" = none ∧
    parseFloat64 "1,5" = none := by
  decide

set_option exponentiation.threshold 2000 in
/-- The decoder of the specification, with the float parse `parseFloat64`,
agrees with `TestXML2RPC`, `TestXML2RPCSpecialChars`, `TestXML2RPCNil`,
`TestXML2RPCLowercasedMethods`, the first two cases of `TestXML2RPCTags` and a
fault call. -/
theorem xml2RPC_tests :
    xml2RPC parseFloat64 32 testXML2RPCText testRPC2XMLTypes (zeroFields testRPC2XMLTypes) =
      (testRPC2XMLFields, none) ∧
    xml2RPC parseFloat64 8
      "<methodResponse><params><param><value><string> &amp; &quot; &lt; &gt; </string></value></param></params></methodResponse>"
      [(⟨"String1", ""⟩, .string)] (zeroFields [(⟨"String1", ""⟩, .string)]) =
      ([untagged "String1" (.string " & \" < > ")], none) ∧
    xml2RPC parseFloat64 8
      "<methodResponse><params><param><value><nil/></value></param></params></methodResponse>"
      [(⟨"Ptr", ""⟩, .ptr .int)] (zeroFields [(⟨"Ptr", ""⟩, .ptr .int)]) =
      ([untagged "Ptr" (.ptr none)], none) ∧
    xml2RPC parseFloat64 16
      "<methodCall><params><param><value><struct><member><name>string1</name><value><string>I'm a first string</string></value></member><member><name>string2</name><value><string>I'm a second string</string></value></member><member><name>id</name><value><int>1</int></value></member></struct></value></param></params></methodCall>"
      helloArgsTypes (zeroFields helloArgsTypes) =
      ([untagged "Args" (.struct [untagged "String1" (.string "I'm a first string"),
        untagged "String2" (.string "I'm a second string"), untagged "Id" (.int 1)])], none) ∧
    xml2RPC parseFloat64 16
      "<methodCall><methodName>Test.Method</methodName><params><param><value><struct><member><name>Foo</name><value><string>FOO</string></value></member><member><name>renameBar</name><value><int>123</int></value></member><member><name>Str</name><value><string>STRING</string></value></member><member><name>doublename</name><value><double>5E-324</double></value></member><member><name>ptrname</name><value><int>42</int></value></member></struct></value></param></params></methodCall>"
      taggedTargetTypes (zeroFields taggedTargetTypes) =
      ([untagged "Params" (.struct (taggedTarget (.string "FOO") (.int 123) (.string "STRING")
        (.float64 smallestNonzeroFloat64) (.ptr (some (.int 42)))))], none) ∧
    xml2RPC parseFloat64 16
      "<methodCall><methodName>Test.Method</methodName><params><param><value><struct><member><name>Foo</name><value><string>FOO</string></value></member><member><name>renameBar</name><value><int>123</int></value></member></struct></value></param></params></methodCall>"
      taggedTargetTypes (zeroFields taggedTargetTypes) =
      ([untagged "Params" (.struct (taggedTarget (.string "FOO") (.int 123) (.string "")
        (.float64 (.finite false 0 0)) (.ptr none)))], none) ∧
    xml2RPC parseFloat64 16
      "<?xml version=\"1.0\"?><methodResponse><fault><value><struct><member><name>faultCode</name><value><int>116</int></value></member><member><name>faultString</name><value><string>Error</string></value></member></struct></value></fault></methodResponse>"
      helloArgsTypes (zeroFields helloArgsTypes) =
      (zeroFields helloArgsTypes, some (.fault 116 "Error")) := by
  refine ⟨?_, ?_, ?_, ?_, ?_, ?_, ?_⟩ <;> rfl

/-! ## The escaped text -/

theorem str_mid_cancel (a x y b : String) (h : a ++ x ++ b = a ++ y ++ b) : x = y := by
  have hd := congrArg String.data h
  simp only [String.data_append, List.append_assoc] at hd
  exact String.ext (List.append_cancel_right (List.append_cancel_left hd))

theorem string2XML_inner (s inner : String)
    (h : string2XML s false = "<string>" ++ inner ++ "</string>") : inner = specEscape s := by
  rw [string2XML_false] at h
  exact (str_mid_cancel _ _ _ _ h).symm

theorem specEscapeChar_chunk (c : Char) :
    ∃ c0 tail, specEscapeChar c = c0 :: tail ∧ '&' ∉ tail ∧
      (c0 = '&' → tail = "amp;".data ∨ tail = "quot;".data ∨ tail = "lt;".data ∨
        tail = "gt;".data) := by
  unfold specEscapeChar
  by_cases h1 : c = '&'
  · exact ⟨'&', "amp;".data, by simp [h1], by decide, fun _ => Or.inl rfl⟩
  · by_cases h2 : c = '"'
    · exact ⟨'&', "quot;".data, by simp [h2], by decide, fun _ => Or.inr (Or.inl rfl)⟩
    · by_cases h3 : c = '<'
      · exact ⟨'&', "lt;".data, by simp [h3], by decide, fun _ => Or.inr (Or.inr (Or.inl rfl))⟩
      · by_cases h4 : c = '>'
        · exact ⟨'&', "gt;".data, by simp [h4], by decide,
            fun _ => Or.inr (Or.inr (Or.inr rfl))⟩
        · exact ⟨c, [], by simp [h1, h2, h3, h4], by simp, fun e => absurd e h1⟩

theorem specEscapeChar_safe (c : Char) :
    ∀ x ∈ specEscapeChar c, x ≠ '<' ∧ x ≠ '>' ∧ x ≠ '"' := by
  unfold specEscapeChar
  by_cases h1 : c = '&'
  · simp [h1]
  · by_cases h2 : c = '"'
    · simp [h2]
    · by_cases h3 : c = '<'
      · simp [h3]
      · by_cases h4 : c = '>'
        · simp [h4]
        · simp [h1, h2, h3, h4]

theorem amp_split_head (c0 : Char) (tail pre post : List Char)
    (h : pre ++ '&' :: post = c0 :: tail) (ht : '&' ∉ tail) :
    pre = [] ∧ c0 = '&' ∧ post = tail := by
  cases pre with
  | nil =>
    simp only [List.nil_append, List.cons.injEq] at h
    exact ⟨rfl, h.1.symm, h.2⟩
  | cons p ps =>
    simp only [List.cons_append, List.cons.injEq] at h
    exact absurd (h.2 ▸ (by simp : '&' ∈ ps ++ '&' :: post)) ht

theorem escaped_amp_entity (s : List Char) :
    ∀ pre post : List Char, s.flatMap specEscapeChar = pre ++ '&' :: post →
      (∃ r, post = "amp;".data ++ r) ∨ (∃ r, post = "quot;".data ++ r) ∨
        (∃ r, post = "lt;".data ++ r) ∨ (∃ r, post = "gt;".data ++ r) := by
  induction s with
  | nil =>
    intro pre post h
    simp at h
  | cons c cs ih =>
    intro pre post h
    rw [List.flatMap_cons] at h
    obtain ⟨c0, tail, hc, ht, hent⟩ := specEscapeChar_chunk c
    rcases List.append_eq_append_iff.mp h.symm with ⟨a, hchunk, hpost⟩ | ⟨a, hpre, hrest⟩
    · cases a with
      | nil =>
        simp only [List.nil_append] at hpost
        exact ih [] post hpost.symm
      | cons x xs =>
        simp only [List.cons_append, List.cons.injEq] at hpost
        obtain ⟨hx, hp⟩ := hpost
        subst hx
        rw [hc] at hchunk
        obtain ⟨_, h0, hxs⟩ := amp_split_head c0 tail pre xs hchunk.symm ht
        rw [hp, hxs]
        rcases hent h0 with e | e | e | e
        · exact Or.inl ⟨_, by rw [e]⟩
        · exact Or.inr (Or.inl ⟨_, by rw [e]⟩)
        · exact Or.inr (Or.inr (Or.inl ⟨_, by rw [e]⟩))
        · exact Or.inr (Or.inr (Or.inr ⟨_, by rw [e]⟩))
    · exact ih a post hrest

theorem escaped_safe (s : List Char) :
    ∀ x ∈ s.flatMap specEscapeChar, x ≠ '<' ∧ x ≠ '>' ∧ x ≠ '"' := by
  intro x hx
  obtain ⟨c, _, hc⟩ := List.mem_flatMap.mp hx
  exact specEscapeChar_safe c x hc

/-- C21: `string2XML` without omission is injective, and the left-to-right
unescape of the text it places between `<string>` and `</string>` is the
original string. -/
theorem string2XML_injective (s t : String) :
    (string2XML s false = string2XML t false → s = t) ∧
    (∀ inner : String, string2XML s false = "<string>" ++ inner ++ "</string>" →
      unescapeFrom 0 inner.data = s.data) := by
  have hun : ∀ (u inner : String), string2XML u false = "<string>" ++ inner ++ "</string>" →
      unescapeFrom 0 inner.data = u.data := by
    intro u inner h
    rw [string2XML_inner u inner h]
    exact unescapeFrom_escape u.data
  refine ⟨fun h => ?_, hun s⟩
  have h1 := hun s (specEscape s) (string2XML_false s)
  have h2 := hun t (specEscape s) (by rw [← h]; exact string2XML_false s)
  exact String.ext (h1.symm.trans h2)

/-- C21, on the string of `TestRPC2XMLSpecialChars`: the unescape of its
escaped text gives it back. -/
theorem string2XML_injective_witness :
    " & \" < > " = " & \" < > " ∧
    unescapeFrom 0 " &amp; &quot; &lt; &gt; ".data = " & \" < > ".data :=
  ⟨(string2XML_injective " & \" < > " " & \" < > ").1 rfl,
    (string2XML_injective " & \" < > " "").2 " &amp; &quot; &lt; &gt; " (by decide)⟩

/-- C22: the text `string2XML` places between `<string>` and `</string>` holds
none of `<`, `>`, `"`, and each `&` in it starts one of `&amp;`, `&quot;`,
`&lt;`, `&gt;`; so it holds neither `</string>` nor a tag such as `<nil/>`. -/
theorem string2XML_content_safe (s inner : String)
    (h : string2XML s false = "<string>" ++ inner ++ "</string>") :
    (∀ c ∈ inner.data, c ≠ '<' ∧ c ≠ '>' ∧ c ≠ '"') ∧
    (∀ pre post : List Char, inner.data = pre ++ '&' :: post →
      (∃ r, post = "amp;".data ++ r) ∨ (∃ r, post = "quot;".data ++ r) ∨
        (∃ r, post = "lt;".data ++ r) ∨ (∃ r, post = "gt;".data ++ r)) ∧
    (∀ pre post : List Char, inner.data ≠ pre ++ "</string>".data ++ post) ∧
    (∀ pre post : List Char, inner.data ≠ pre ++ "<nil/>".data ++ post) := by
  have hi : inner.data = s.data.flatMap specEscapeChar := by
    rw [string2XML_inner s inner h]
    rfl
  have hsafe : ∀ c ∈ inner.data, c ≠ '<' ∧ c ≠ '>' ∧ c ≠ '"' := by
    rw [hi]
    exact escaped_safe s.data
  refine ⟨hsafe, ?_, ?_, ?_⟩
  · rw [hi]
    exact escaped_amp_entity s.data
  · intro pre post e
    exact (hsafe '<' (by rw [e]; simp)).1 rfl
  · intro pre post e
    exact (hsafe '<' (by rw [e]; simp)).1 rfl

/-- C22, on the string of `TestRPC2XMLSpecialChars`. -/
theorem string2XML_content_safe_witness :
    string2XML " & \" < > " false = "<string>" ++ " &amp; &quot; &lt; &gt; " ++ "</string>" ∧
    ∀ c ∈ " &amp; &quot; &lt; &gt; ".data, c ≠ '<' ∧ c ≠ '>' ∧ c ≠ '"' :=
  ⟨by decide,
    (string2XML_content_safe " & \" < > " " &amp; &quot; &lt; &gt; " (by decide)).1⟩

end XmlRpc
